import Mathlib

/-!
# MazeWar server core

A shallow embedding of the maze grid (`src/maze.c`), the player module
(`src/player.c`), the wire codec (`src/protocol.c`) and the client registry
(`src/client_registry.c`), with the properties proved of them.

The module state of `maze.c` (the statics `maze_rows`, `maze_cols`,
`maze_cells`) is the record `Maze`; every operation that writes the grid
returns the new state next to its C return value.  The maze mutex is held for
the whole of every operation, so each operation is modelled as one atomic step.
The state of the player module is the record `World`: the maze, the table of
published records, and the packets written to the connections so far.

C `int` values are `Int`.  The only arithmetic on them is `x + 1`, `x - 1`
and `row + dr[gaze] * distance`, on values the bounds tests keep within the
grid's dimensions, so no wrap-around is modelled.
-/

namespace MazeWar

/-! ## Cells, directions and the macros of `maze.h` -/

/-- The C type `OBJECT`: one byte of the grid, kept as its character code. -/
abbrev OBJECT := Nat

/-- Modelled from the spec: `maze.h` is not among the sources. `EMPTY` is the
space character. -/
def EMPTY : OBJECT := 32

/-- Modelled from the spec: `maze.h` is not among the sources.
`IS_EMPTY(c) ≡ c = space`. -/
def IS_EMPTY (c : OBJECT) : Bool := c == EMPTY

/-- Modelled from the spec: `maze.h` is not among the sources.
`IS_AVATAR(c) ≡ 'A' ≤ c ≤ 'Z'`. -/
def IS_AVATAR (c : OBJECT) : Bool := decide (65 ≤ c) && decide (c ≤ 90)

/-- Modelled from the spec: `maze.h` is not among the sources. Directions are
indexed 0..3 in the order NORTH, WEST, SOUTH, EAST. -/
def NUM_DIRECTIONS : Nat := 4

/-- Modelled from the spec: `maze.h` is not among the sources. Direction NORTH
(index 0). -/
def NORTH : Nat := 0
/-- Modelled from the spec: `maze.h` is not among the sources. Direction WEST
(index 1). -/
def WEST : Nat := 1
/-- Modelled from the spec: `maze.h` is not among the sources. Direction SOUTH
(index 2). -/
def SOUTH : Nat := 2
/-- Modelled from the spec: `maze.h` is not among the sources. Direction EAST
(index 3). -/
def EAST : Nat := 3

/-- Modelled from the spec: `maze.h` is not among the sources.
`turn_left(d) = (d+1) mod 4`. -/
def TURN_LEFT (d : Nat) : Nat := (d + 1) % NUM_DIRECTIONS

/-- Modelled from the spec: `maze.h` is not among the sources.
`turn_right(d) = (d+3) mod 4`. -/
def TURN_RIGHT (d : Nat) : Nat := (d + 3) % NUM_DIRECTIONS

/-- Modelled from the spec: `maze.h` is not among the sources. A view row is the
triple (LEFT_WALL, CORRIDOR, RIGHT_WALL); this is the column of LEFT_WALL. -/
def LEFT_WALL : Nat := 0
/-- Modelled from the spec: `maze.h` is not among the sources. Column of
CORRIDOR in a view row. -/
def CORRIDOR : Nat := 1
/-- Modelled from the spec: `maze.h` is not among the sources. Column of
RIGHT_WALL in a view row. -/
def RIGHT_WALL : Nat := 2

/-- The table `dr[NUM_DIRECTIONS] = {-1, 0, 1, 0}` of `maze.c`, read at index
`d`. Every use in the source has `0 ≤ d < 4`; outside that range the C read is
undefined and the embedding yields 0. -/
def dr (d : Nat) : Int := [(-1 : Int), 0, 1, 0].getD d 0

/-- The table `dc[NUM_DIRECTIONS] = {0, -1, 0, 1}` of `maze.c`, read at index
`d` (0 outside `0 ≤ d < 4`, where the C read is undefined). -/
def dc (d : Nat) : Int := [(0 : Int), -1, 0, 1].getD d 0

/-! ## The grid -/

/-- The module state of `maze.c`: `maze_rows`, `maze_cols` and the rows of
`maze_cells`. The NUL byte that ends every row in memory is not part of the
grid and is not represented. -/
structure Maze where
  maze_rows : Nat
  maze_cols : Nat
  maze_cells : List (List OBJECT)
deriving DecidableEq, Repr

/-- The representation invariant that `maze_init` establishes: there are
`maze_rows` rows and each is `maze_cols` cells wide (the maze is rectangular). -/
def Maze.wf (m : Maze) : Prop :=
  m.maze_cells.length = m.maze_rows ∧ ∀ cells_row ∈ m.maze_cells, cells_row.length = m.maze_cols

instance (m : Maze) : Decidable m.wf := by
  unfold Maze.wf
  exact inferInstance

/-- The bounds test of `maze.c`, `0 <= row < maze_rows && 0 <= col < maze_cols`. -/
def Maze.inBounds (m : Maze) (row col : Int) : Prop :=
  ¬ (row < 0 ∨ row ≥ (m.maze_rows : Int) ∨ col < 0 ∨ col ≥ (m.maze_cols : Int))

instance (m : Maze) (row col : Int) : Decidable (m.inBounds row col) := by
  unfold Maze.inBounds
  exact inferInstance

/-- The memory read `maze_cells[row][col]` as a partial function: `none` when
the index lies outside the stored grid. -/
def Maze.cellAt? (m : Maze) (row col : Int) : Option OBJECT :=
  if row < 0 ∨ col < 0 then none
  else (m.maze_cells[row.toNat]?).bind (fun cells_row => cells_row[col.toNat]?)

/-- The C expression `maze_cells[row][col]` as a total indexing function: the
stored cell, and 0 on the out-of-bounds branch (where the C read is undefined). -/
def Maze.cell (m : Maze) (row col : Int) : OBJECT :=
  (m.cellAt? row col).getD 0

/-- The C assignment `maze_cells[row][col] = v`. Every write in `maze.c` is
guarded by the bounds test; outside the stored grid the embedding writes nothing. -/
def Maze.setCell (m : Maze) (row col : Int) (v : OBJECT) : Maze :=
  if row < 0 ∨ col < 0 then m
  else { m with maze_cells := m.maze_cells.modify (fun cells_row => cells_row.set col.toNat v) row.toNat }

/-- The function `maze_init` (maze.c:12-39): the template is the list of its
rows (each a NUL-terminated string, given without the NUL). `none` is the
`exit(EXIT_FAILURE)` taken for a non-rectangular template. -/
def maze_init (template : List (List OBJECT)) : Option Maze :=
  let rows := template.length
  if rows = 0 then some { maze_rows := 0, maze_cols := 0, maze_cells := [] }
  else
    let cols := (template.headD []).length
    if (template.drop 1).any (fun cells_row => cells_row.length != cols) then none
    else some { maze_rows := rows, maze_cols := cols, maze_cells := template }

/-! ## Placement, removal and movement -/

/-- The function `maze_set_player` (maze.c:64-77): the return value (0 placed,
1 could not place) and the grid afterwards. -/
def maze_set_player (m : Maze) (avatar : OBJECT) (row col : Int) : Int × Maze :=
  if row < 0 ∨ row ≥ (m.maze_rows : Int) ∨ col < 0 ∨ col ≥ (m.maze_cols : Int)
      ∨ ¬ (IS_EMPTY (m.cell row col) = true) then
    (1, m)
  else
    (0, m.setCell row col avatar)

/-- The function `maze_remove_player` (maze.c:123-129): the grid afterwards. -/
def maze_remove_player (m : Maze) (avatar : OBJECT) (row col : Int) : Maze :=
  if row ≥ 0 ∧ row < (m.maze_rows : Int) ∧ col ≥ 0 ∧ col < (m.maze_cols : Int)
      ∧ m.cell row col = avatar then
    m.setCell row col EMPTY
  else m

/-- The function `maze_move` (maze.c:131-154): the return value (0 moved,
1 blocked) and the grid afterwards. `dir` is a C `int`, tested against
`0 <= dir < NUM_DIRECTIONS` before it indexes `dr` and `dc`. -/
def maze_move (m : Maze) (row col dir : Int) : Int × Maze :=
  if row < 0 ∨ row ≥ (m.maze_rows : Int) ∨ col < 0 ∨ col ≥ (m.maze_cols : Int)
      ∨ dir < 0 ∨ dir ≥ (NUM_DIRECTIONS : Int) then
    (1, m)
  else
    let object := m.cell row col
    if ¬ (IS_AVATAR object = true) then (1, m)
    else
      let new_row := row + dr dir.toNat
      let new_col := col + dc dir.toNat
      if new_row < 0 ∨ new_row ≥ (m.maze_rows : Int) ∨ new_col < 0
          ∨ new_col ≥ (m.maze_cols : Int) ∨ ¬ (IS_EMPTY (m.cell new_row new_col) = true) then
        (1, m)
      else
        (0, (m.setCell row col EMPTY).setCell new_row new_col object)

/-- The local type `Position` of `maze_set_player_random` (maze.c:98-100). -/
structure Position where
  row : Int
  col : Int
deriving DecidableEq, Repr

/-- The index pairs `(rows, columns)` in the order in which the nested loops
`for rows < maze_rows` / `for columns < maze_cols` of `maze_set_player_random`
visit them (row-major). -/
def Maze.scanOrder (m : Maze) : List Position :=
  (List.range m.maze_rows).flatMap
    (fun (rows : Nat) =>
      (List.range m.maze_cols).map (fun (columns : Nat) => Position.mk (rows : Int) (columns : Int)))

/-- The first pair of loops of `maze_set_player_random` (maze.c:85-92): the
number of visited cells equal to `EMPTY`. -/
def Maze.empty_count (m : Maze) : Nat :=
  m.scanOrder.countP (fun p => m.cell p.row p.col == EMPTY)

/-- The second pair of loops of `maze_set_player_random` (maze.c:103-110): the
scratch array `empties`, holding the position of every `EMPTY` cell in visiting
order. -/
def Maze.empties (m : Maze) : List Position :=
  m.scanOrder.filter (fun p => m.cell p.row p.col == EMPTY)

/-- What `maze_set_player_random` leaves behind: its return value, the contents
of `*rowp` and `*colp`, and the grid. -/
structure PlaceResult where
  ret : Int
  row : Int
  col : Int
  maze : Maze
deriving DecidableEq, Repr

/-- The function `maze_set_player_random` (maze.c:80-120). `rand` is the value
returned by the call `rand()` (non-negative); `rowp` and `colp` are the contents
of `*rowp` and `*colp` before the call, which the early return for a maze with
no rows or no columns leaves untouched. -/
def maze_set_player_random (m : Maze) (avatar : OBJECT) (rand : Nat) (rowp colp : Int) :
    PlaceResult :=
  if m.maze_rows = 0 ∨ m.maze_cols = 0 then ⟨1, rowp, colp, m⟩
  else
    let empty_count := m.empty_count
    if empty_count = 0 then ⟨1, -1, -1, m⟩
    else
      let empties := m.empties
      let pick := rand % empty_count
      let pick_r := (empties.getD pick ⟨0, 0⟩).row
      let pick_c := (empties.getD pick ⟨0, 0⟩).col
      ⟨0, pick_r, pick_c, m.setCell pick_r pick_c avatar⟩

/-! ## Line of sight and the periscope view -/

/-- The `while` loop of `maze_find_target` (maze.c:161-169), started at `(r, c)`.
`fuel` bounds the number of iterations; `none` means the bound was reached before
the loop left through one of its exits. -/
def maze_find_target_loop (m : Maze) (dir : Nat) : Nat → Int → Int → Option OBJECT
  | 0, _, _ => none
  | fuel + 1, r, c =>
    if r ≥ 0 ∧ r < (m.maze_rows : Int) ∧ c ≥ 0 ∧ c < (m.maze_cols : Int) then
      let object := m.cell r c
      if ¬ (IS_EMPTY object = true) then
        some (if IS_AVATAR object = true then object else EMPTY)
      else maze_find_target_loop m dir fuel (r + dr dir) (c + dc dir)
    else some EMPTY

/-- The function `maze_find_target` (maze.c:157-172). The loop is run with
`maze_rows + maze_cols + 1` iterations of fuel, which is shown below to be enough
for every direction `0 ≤ dir < 4`. The function only reads the grid. -/
def maze_find_target (m : Maze) (row col : Int) (dir : Nat) : Option OBJECT :=
  maze_find_target_loop m dir (m.maze_rows + m.maze_cols + 1) (row + dr dir) (col + dc dir)

/-- What `maze_get_view` produces: its return value `distance`, the rows of the
view it has written (row `d` of the list is `(*view)[d]`, a list of the three
columns LEFT_WALL, CORRIDOR, RIGHT_WALL), and the grid indices `(r, c)` of every
read `maze_cells[r][c]` it has made, in program order. -/
structure ViewResult where
  distance : Nat
  view : List (List OBJECT)
  reads : List (Int × Int)
deriving DecidableEq, Repr

/-- The `for` loop of `maze_get_view` (maze.c:177-196) from the iteration with
loop counter `distance`, with `remaining = depth - distance` iterations left
before the test `distance < depth` fails. -/
def maze_get_view_loop (m : Maze) (row col : Int) (gaze : Nat) : Nat → Nat → ViewResult
  | 0, distance => ⟨distance, [], []⟩
  | remaining + 1, distance =>
    let row_distance := row + dr gaze * (distance : Int)
    let column_distance := col + dc gaze * (distance : Int)
    if row_distance < 0 ∨ row_distance ≥ (m.maze_rows : Int) ∨
        column_distance < 0 ∨ column_distance ≥ (m.maze_cols : Int) then
      ⟨distance, [], []⟩
    else
      let left := TURN_LEFT gaze
      let right := TURN_RIGHT gaze
      let view_row : List OBJECT :=
        [m.cell (row_distance + dr left) (column_distance + dc left),
         m.cell row_distance column_distance,
         m.cell (row_distance + dr right) (column_distance + dc right)]
      let row_reads : List (Int × Int) :=
        [(row_distance + dr left, column_distance + dc left),
         (row_distance, column_distance),
         (row_distance + dr right, column_distance + dc right)]
      if distance > 0 ∧ m.cell row_distance column_distance ≠ EMPTY then
        ⟨distance + 1, [view_row], row_reads⟩
      else
        let rest := maze_get_view_loop m row col gaze remaining (distance + 1)
        ⟨rest.distance, view_row :: rest.view, row_reads ++ rest.reads⟩

/-- The function `maze_get_view` (maze.c:174-199). `depth` is a C `int`; the loop
runs while `distance < depth`, so not at all when `depth ≤ 0`. -/
def maze_get_view (m : Maze) (row col : Int) (gaze : Nat) (depth : Int) : ViewResult :=
  maze_get_view_loop m row col gaze depth.toNat 0

/-- The cell `view[d][w]` of a view given as its list of rows. -/
def viewAt (view : List (List OBJECT)) (d w : Nat) : Option OBJECT :=
  (view[d]?).bind (fun view_row => view_row[w]?)

/-! ## Row-major order of the cells (specification side) -/

/-- Position `a` comes strictly before position `b` in row-major order. -/
def Position.before (a b : Position) : Prop :=
  a.row < b.row ∨ (a.row = b.row ∧ a.col < b.col)

instance (a b : Position) : Decidable (a.before b) := by
  unfold Position.before
  exact inferInstance

/-- The number of EMPTY cells of the grid: the size of the set of index pairs
`(i, j)`, `i < maze_rows`, `j < maze_cols`, whose cell is EMPTY. -/
def Maze.numEmpty (m : Maze) : Nat :=
  ((Finset.range m.maze_rows ×ˢ Finset.range m.maze_cols).filter
    (fun p => m.cell (p.1 : Int) (p.2 : Int) = EMPTY)).card

/-- The number of EMPTY cells of the grid that come strictly before `(r, c)` in
row-major order. The `k`-th EMPTY cell in row-major order (counting from 0) is
the EMPTY cell with exactly `k` EMPTY cells before it. -/
def Maze.numEmptyBefore (m : Maze) (r c : Int) : Nat :=
  ((Finset.range m.maze_rows ×ˢ Finset.range m.maze_cols).filter
    (fun p => (Position.mk (p.1 : Int) (p.2 : Int)).before ⟨r, c⟩ ∧
      m.cell (p.1 : Int) (p.2 : Int) = EMPTY)).card

/-- An upper bound on the number of grid cells on the ray from `(r, c)` in
direction `d`, the cell `(r, c)` included. -/
def rayLen (m : Maze) (d : Nat) (r c : Int) : Nat :=
  match d with
  | 0 => (r + 1).toNat
  | 1 => (c + 1).toNat
  | 2 => ((m.maze_rows : Int) - r).toNat
  | _ => ((m.maze_cols : Int) - c).toNat

/-- A 4 x 5 maze with a solid border of `#` (35), avatar `A` (65) at (1,1) and
`B` (66) at (2,3); used to evaluate the operations on a concrete grid. -/
def demoMaze : Maze :=
  { maze_rows := 4, maze_cols := 5,
    maze_cells := [[35, 35, 35, 35, 35],
                   [35, 65, 32, 32, 35],
                   [35, 32, 32, 66, 35],
                   [35, 35, 35, 35, 35]] }

/-- A 2 x 2 maze without any EMPTY cell: walls and the avatar `A`. -/
def fullMaze : Maze :=
  { maze_rows := 2, maze_cols := 2, maze_cells := [[35, 35], [35, 65]] }

/-! ## The player module (`src/player.c`): data

The records of the logged-in players live in the 26 slots of the table `players`.
A `PLAYER *` held by a service thread points at the record that thread published
at login, so it is represented by the index of the slot that holds the record;
field writes through the pointer are writes to the record in that slot. Every
operation is taken as one step (the sequential behaviour of the module); the
signal that `player_fire_laser` sends is delivered at once. Allocation
(`malloc`, `strdup`, `Malloc`) is taken to succeed. -/

/-- Modelled from the spec: `protocol.h` is not among the sources. The packet
types of the wire protocol. -/
inductive MZW_PACKET_TYPE where
  | MZW_LOGIN_PKT
  | MZW_READY_PKT
  | MZW_INUSE_PKT
  | MZW_MOVE_PKT
  | MZW_TURN_PKT
  | MZW_FIRE_PKT
  | MZW_REFRESH_PKT
  | MZW_SEND_PKT
  | MZW_CLEAR_PKT
  | MZW_SHOW_PKT
  | MZW_SCORE_PKT
  | MZW_ALERT_PKT
  | MZW_CHAT_PKT
deriving DecidableEq, Repr

/-- Modelled from the spec: `protocol.h` is not among the sources. The header
fields that the callers of `player_send_packet` fill in: `type`, the three
one-byte parameters and the two-byte payload `size`. The two timestamp fields
are overwritten with the clock reading at every send and are not represented. -/
structure MZW_PACKET where
  type : MZW_PACKET_TYPE
  param1 : Nat
  param2 : Nat
  param3 : Nat
  size : Nat
deriving DecidableEq, Repr

/-- The value a one-byte unsigned header field holds after a C `int` is assigned
to it (reduction modulo 256). -/
def toU8 (x : Int) : Nat := (x % 256).toNat

/-- The value of the cast `(uint16_t)n` of a `size_t` (reduction modulo 65536). -/
def toU16 (n : Nat) : Nat := n % 65536

/-- The largest value of the C type `int` (32 bits). -/
def INT_MAX : Int := 2147483647

/-- The smallest value of the C type `int` (32 bits). -/
def INT_MIN : Int := -2147483648

/-- The value a 32-bit `int` holds after an arithmetic result `x`: `x` itself
inside the range of the type, and the two's-complement wrap-around outside it
(signed overflow is undefined in C; this is what the compiled program does). -/
def wrapInt (x : Int) : Int := (x + 2147483648) % 4294967296 - 2147483648

/-- The C string that starts at a buffer holding `bytes` and is not terminated
inside it unless `bytes` has a zero byte: the bytes before the first NUL of the
buffer followed by `after`, the contents of the memory behind the buffer as far
as the string runs. -/
def cstring (bytes after : List Nat) : List Nat :=
  (bytes ++ after).takeWhile (fun b => b ≠ 0)

/-- One packet written to a connection: the descriptor, the header as sent
(without its timestamps) and the payload bytes written after it (`none` when no
payload is written). -/
structure SentPacket where
  fd : Int
  pkt : MZW_PACKET
  data : Option (List Nat)
deriving DecidableEq, Repr

/-- The C type `struct player` (player.c:17-31). `name` holds the bytes of the
string before its terminator; `prev_view` is `none` for the NULL pointer and
otherwise the rows of the cached view that have been written; the per-record
mutex is not represented. -/
structure PLAYER where
  avatar : OBJECT
  name : List Nat
  fd : Int
  row : Int
  col : Int
  gaze : Nat
  score : Int
  prev_view : Option (List (List OBJECT))
  prev_depth : Int
  refcount : Int
  thread_id : Nat
  hit_pending : Nat
deriving DecidableEq, Repr

/-- The constant `NUM_AVATARS` (player.c:15). -/
def NUM_AVATARS : Nat := 26

/-- The table `valid_avatars` (player.c:8-11): the codes of `'A'..'Z'`. -/
def valid_avatars : List OBJECT :=
  [65, 66, 67, 68, 69, 70, 71, 72, 73, 74, 75, 76, 77,
   78, 79, 80, 81, 82, 83, 84, 85, 86, 87, 88, 89, 90]

/-- The bytes of the string literal `"Anonymous"`. -/
def Anonymous : List Nat := [65, 110, 111, 110, 121, 109, 111, 117, 115]

/-- Modelled from the spec: `maze.h` is not among the sources.
`reverse(d) = (d+2) mod 4`. -/
def REVERSE (d : Nat) : Nat := (d + 2) % NUM_DIRECTIONS

/-- Modelled from the spec: `maze.h` is not among the sources. A view row has the
three columns LEFT_WALL, CORRIDOR, RIGHT_WALL. -/
def VIEW_WIDTH : Nat := 3

/-- The state of the server core that the player module works on: the maze, the
table `players` (slot `i` is `players[i]`, `none` for NULL), the packets written
to the connections so far, in order, and the descriptors on which
`shutdown(fd, SHUT_RD)` has been called. -/
structure World where
  maze : Maze
  players : List (Option PLAYER)
  sent : List SentPacket
  shutdowns : List Int
deriving DecidableEq, Repr

/-- The pointer `players[i]`: the record in slot `i`, or `none` for NULL. -/
def World.getPlayer (w : World) (i : Nat) : Option PLAYER :=
  (w.players[i]?).join

/-- The assignment `players[i] = v`. -/
def World.setSlot (w : World) (i : Nat) (v : Option PLAYER) : World :=
  { w with players := w.players.set i v }

/-- A write to fields of the record in slot `i` (through a pointer to it). -/
def World.modifyPlayer (w : World) (i : Nat) (f : PLAYER → PLAYER) : World :=
  match w.getPlayer i with
  | some p => w.setSlot i (some (f p))
  | none => w

/-- The table after `player_init` (player.c:62-64): every slot NULL. -/
def players_init : List (Option PLAYER) := List.replicate NUM_AVATARS none

/-- The representation invariant of the table: it has `NUM_AVATARS` slots. -/
def World.wf (w : World) : Prop := w.players.length = NUM_AVATARS

instance (w : World) : Decidable w.wf := by
  unfold World.wf
  exact inferInstance

/-- The function `proto_send_packet` (protocol.c:22-44) as seen on the
connection: the header, followed by `pkt->size` bytes of `data` when
`pkt->size > 0` and `data` is not NULL. Write errors are not represented (every
caller in `player.c` and `server.c` ignores the result). -/
def proto_send_packet (w : World) (fd : Int) (pkt : MZW_PACKET) (data : Option (List Nat)) :
    World :=
  { w with sent := w.sent ++
      [⟨fd, pkt, if pkt.size > 0 then data.map (fun bytes => bytes.take pkt.size) else none⟩] }

/-- The function `player_send_packet` (player.c:284-294): stamps the packet and
sends it on the connection of `player`. -/
def player_send_packet (w : World) (player : PLAYER) (pkt : MZW_PACKET)
    (data : Option (List Nat)) : World :=
  proto_send_packet w player.fd pkt data

/-- The function `player_get_location` (player.c:297-309): `none` for the return
value -1, otherwise the values stored in `*rowp`, `*colp`, `*dirp`. -/
def player_get_location (m : Maze) (player : PLAYER) : Option (Int × Int × Nat) :=
  let row := player.row
  let col := player.col
  let max_rows : Int := m.maze_rows
  let max_cols : Int := m.maze_cols
  if row < 0 ∨ row ≥ max_rows ∨ col < 0 ∨ col ≥ max_cols then none
  else some (row, col, player.gaze)

/-- The avatar selection of `player_login` (player.c:101-124): the value of
`real_avatar` when line 125 is reached, for the requested byte `avatar`, the
pointer `name` and the copy `real_name` made of it. `toupper` is that of the C
locale. -/
def player_login_real_avatar (w : World) (avatar : OBJECT) (name : Option (List Nat))
    (real_name : List Nat) : OBJECT :=
  let name0 : Nat := (name.getD []).headD 0
  let requested_avatar : OBJECT :=
    if avatar ≥ 97 ∧ avatar ≤ 122 then avatar - 32 else avatar
  if IS_AVATAR requested_avatar = true ∧ (w.getPlayer (requested_avatar - 65)).isNone then
    requested_avatar
  else
    let first : OBJECT := if name.isSome ∧ name0 ≠ 0 then real_name.headD 0 else 0
    if IS_AVATAR first = true ∧ (w.getPlayer (first - 65)).isNone then first
    else
      (valid_avatars.find?
        (fun potential_avatar => (w.getPlayer (potential_avatar - 65)).isNone)).getD 0

/-- The function `player_login` (player.c:83-156). `name` is `none` for a NULL
pointer and otherwise the bytes of the string before its terminator, so that
`name[0]` is the first byte, or 0 for the empty string; `self` is the value of
`pthread_self()`. The result is the new record (`none` for NULL) and the state
afterwards. -/
def player_login (w : World) (clientfd : Int) (avatar : OBJECT) (name : Option (List Nat))
    (self : Nat) : Option PLAYER × World :=
  let name0 : Nat := (name.getD []).headD 0
  if name.isSome ∧ name0 ≠ 0 ∧ (name0 < 65 ∨ name0 > 90) then (none, w)
  else
    let real_name : List Nat := if name.isSome ∧ name0 ≠ 0 then name.getD [] else Anonymous
    if avatar ≠ 0 ∧ ¬ ((avatar ≥ 65 ∧ avatar ≤ 90) ∨ (avatar ≥ 97 ∧ avatar ≤ 122)) then (none, w)
    else
      let real_avatar : OBJECT := player_login_real_avatar w avatar name real_name
      if ¬ (IS_AVATAR real_avatar = true) then (none, w)
      else
        let player : PLAYER :=
          { avatar := real_avatar, name := real_name, fd := clientfd, row := -1, col := -1,
            gaze := EAST, score := 0, prev_view := none, prev_depth := 0, refcount := 1,
            thread_id := self, hit_pending := 0 }
        (some player, w.setSlot (real_avatar - 65) (some player))

/-! ## The player module: operations -/

/-- The signal handler `player_laser_handler` (player.c:44-53) run in the thread
`me`: the first published record owned by that thread gets its flag set. -/
def player_laser_handler (w : World) (me : Nat) : World :=
  match (List.range NUM_AVATARS).find? (fun i =>
      match w.getPlayer i with
      | some player => player.thread_id == me
      | none => false) with
  | some i => w.modifyPlayer i (fun player => { player with hit_pending := 1 })
  | none => w

/-- The function `player_ref` (player.c:254-260) on the record in slot `i`. -/
def player_ref (w : World) (i : Nat) : World :=
  w.modifyPlayer i (fun player => { player with refcount := player.refcount + 1 })

/-- The function `player_unref` (player.c:263-281) on the record in slot `i`:
the count is decremented, and when it reaches 0 the slot of the record's avatar
is set to NULL and the record is freed. -/
def player_unref (w : World) (i : Nat) : World :=
  match w.getPlayer i with
  | none => w
  | some player =>
    let w1 := w.setSlot i (some { player with refcount := player.refcount - 1 })
    if player.refcount - 1 = 0 then w1.setSlot (player.avatar - 65) none
    else w1

/-- The function `player_get` (player.c:239-251): the slot of the record found
(`none` for NULL) and the state after its reference count has been incremented. -/
def player_get (w : World) (avatar : OBJECT) : Option Nat × World :=
  if ¬ (IS_AVATAR avatar = true) then (none, w)
  else
    match w.getPlayer (avatar - 65) with
    | some _ => (some (avatar - 65), player_ref w (avatar - 65))
    | none => (none, w)

/-- The function `player_invalidate_view` (player.c:387-395) on the record in
slot `i`. -/
def player_invalidate_view (w : World) (i : Nat) : World :=
  w.modifyPlayer i (fun player => { player with prev_view := none, prev_depth := 0 })

/-- The function `player_update_view` (player.c:397-434) on the record in slot
`i`. `VIEW_DEPTH` is the constant of the absent `maze.h`. `uninit` holds the
indeterminate contents of the locals `row` and `col`, which stay as they are when
`player_get_location` fails (its result is not tested). -/
def player_update_view (VIEW_DEPTH : Nat) (w : World) (i : Nat) (uninit : Int × Int) : World :=
  match w.getPlayer i with
  | none => w
  | some player =>
    let loc := player_get_location w.maze player
    let row : Int := match loc with
      | some l => l.1
      | none => uninit.1
    let col : Int := match loc with
      | some l => l.2.1
      | none => uninit.2
    let res := maze_get_view w.maze row col player.gaze (VIEW_DEPTH : Int)
    let new_view := res.view
    let new_depth : Int := (res.distance : Int)
    let full_update : Bool := player.prev_view.isNone || player.prev_depth != new_depth
    let w1 : World :=
      if full_update = true then
        (List.range res.distance).foldl
          (fun acc d => (List.range VIEW_WIDTH).foldl
            (fun acc2 wi => player_send_packet acc2 player
              ⟨.MZW_SHOW_PKT, (viewAt new_view d wi).getD 0, toU8 wi, toU8 d, 0⟩ none) acc)
          (player_send_packet w player ⟨.MZW_CLEAR_PKT, 0, 0, 0, 0⟩ none)
      else
        (List.range res.distance).foldl
          (fun acc d => (List.range VIEW_WIDTH).foldl
            (fun acc2 wi =>
              let nc := (viewAt new_view d wi).getD 0
              let oc := if (d : Int) < player.prev_depth then
                  (viewAt (player.prev_view.getD []) d wi).getD 0
                else 0
              if nc = oc then acc2
              else player_send_packet acc2 player ⟨.MZW_SHOW_PKT, nc, toU8 wi, toU8 d, 0⟩ none)
            acc)
          w
    w1.modifyPlayer i
      (fun p => { p with prev_view := some new_view, prev_depth := new_depth })

/-- The loop `for (i < NUM_AVATARS) if (players[i]) player_update_view(players[i])`
of `player_logout`, `player_move` and `player_check_for_laser_hit`
(player.c:163-166, 325-331, 446-449). -/
def update_all_views (VIEW_DEPTH : Nat) (w : World) (uninit : Int × Int) : World :=
  (List.range NUM_AVATARS).foldl
    (fun acc i => match acc.getPlayer i with
      | some _ => player_update_view VIEW_DEPTH acc i uninit
      | none => acc)
    w

/-- The three loops that end `player_reset` (player.c:201-235) for the record in
slot `i`: a full view update for every published player, the scores of all
published players sent to the player, and the player's score sent to every other
published player. -/
def player_reset_updates (VIEW_DEPTH : Nat) (w : World) (i : Nat) (uninit : Int × Int) :
    World :=
  let w3 : World := (List.range NUM_AVATARS).foldl
    (fun acc k => match acc.getPlayer k with
      | some _ => player_update_view VIEW_DEPTH (player_invalidate_view acc k) k uninit
      | none => acc)
    w
  let w4 : World := (List.range NUM_AVATARS).foldl
    (fun acc k => match acc.getPlayer k, acc.getPlayer i with
      | some p, some me => player_send_packet acc me
          ⟨.MZW_SCORE_PKT, p.avatar, toU8 p.score, 0, toU16 p.name.length⟩ (some p.name)
      | _, _ => acc)
    w3
  (List.range NUM_AVATARS).foldl
    (fun acc k => match acc.getPlayer k, acc.getPlayer i with
      | some p, some me =>
        if k = i then acc
        else player_send_packet acc p
          ⟨.MZW_SCORE_PKT, me.avatar, toU8 me.score, 0, toU16 p.name.length⟩ (some p.name)
      | _, _ => acc)
    w4

/-- The function `player_reset` (player.c:188-236) on the record in slot `i`.
`rand` is the value of `rand()` used by the random placement. -/
def player_reset (VIEW_DEPTH : Nat) (w : World) (i : Nat) (rand : Nat) (uninit : Int × Int) :
    World :=
  match w.getPlayer i with
  | none => w
  | some player =>
    let loc := player_get_location w.maze player
    let w1 : World := match loc with
      | some l => { w with maze := maze_remove_player w.maze player.avatar l.1 l.2.1 }
      | none => w
    let row : Int := match loc with
      | some l => l.1
      | none => uninit.1
    let col : Int := match loc with
      | some l => l.2.1
      | none => uninit.2
    let placed := maze_set_player_random w1.maze player.avatar rand row col
    if placed.ret ≠ 0 then
      { w1 with maze := placed.maze, shutdowns := w1.shutdowns ++ [player.fd] }
    else
      let w2 : World := ({ w1 with maze := placed.maze }).modifyPlayer i
        (fun p => { p with row := placed.row, col := placed.col })
      player_reset_updates VIEW_DEPTH w2 i uninit

/-- The function `player_logout` (player.c:159-185) on the record in slot `i`.
After the slot has been set to NULL, `player_unref` drops the reference of the
service thread; when the count reaches 0 it sets the same slot to NULL once more
and frees the record, which is no longer in the table either way. -/
def player_logout (VIEW_DEPTH : Nat) (w : World) (i : Nat) (uninit : Int × Int) : World :=
  match w.getPlayer i with
  | none => w
  | some player =>
    let w1 : World := match player_get_location w.maze player with
      | some l => update_all_views VIEW_DEPTH
          { w with maze := maze_remove_player w.maze player.avatar l.1 l.2.1 } uninit
      | none => w
    let pkt : MZW_PACKET := ⟨.MZW_SCORE_PKT, player.avatar, toU8 (-1), 0, 0⟩
    let w2 : World := (List.range NUM_AVATARS).foldl
      (fun acc k => match acc.getPlayer k with
        | some p => if k = i then acc else player_send_packet acc p pkt none
        | none => acc)
      w1
    w2.setSlot (player.avatar - 65) none

/-- The function `player_move` (player.c:312-334) on the record in slot `i`: the
return value and the state afterwards. -/
def player_move (VIEW_DEPTH : Nat) (w : World) (i : Nat) (dir : Int) (uninit : Int × Int) :
    Int × World :=
  match w.getPlayer i with
  | none => (-1, w)
  | some player =>
    match player_get_location w.maze player with
    | none => (-1, w)
    | some l =>
      let row := l.1
      let col := l.2.1
      let gaze := l.2.2
      let move_direction : Nat := if dir = 1 then gaze else REVERSE gaze
      let moved := maze_move w.maze row col (move_direction : Int)
      if moved.1 = 0 then
        let w1 : World := ({ w with maze := moved.2 }).modifyPlayer i
          (fun p => { p with row := row + dr move_direction, col := col + dc move_direction })
        (moved.1, update_all_views VIEW_DEPTH w1 uninit)
      else (moved.1, { w with maze := moved.2 })

/-- The function `player_rotate` (player.c:337-347) on the record in slot `i`. -/
def player_rotate (VIEW_DEPTH : Nat) (w : World) (i : Nat) (dir : Int) (uninit : Int × Int) :
    World :=
  let w1 := w.modifyPlayer i
    (fun player => { player with
      gaze := if dir = 1 then TURN_LEFT player.gaze else TURN_RIGHT player.gaze })
  player_update_view VIEW_DEPTH (player_invalidate_view w1 i) i uninit

/-- The function `player_fire_laser` (player.c:349-384) on the record in slot
`i`. The signal sent with `pthread_kill` is handled at once by
`player_laser_handler` in the victim's thread. `player->score++` is an increment
of a C `int`. `none` stands for a scan of `maze_find_target` that does not end. -/
def player_fire_laser (w : World) (i : Nat) : Option World :=
  match w.getPlayer i with
  | none => some w
  | some player =>
    match player_get_location w.maze player with
    | none => some w
    | some l =>
      match maze_find_target w.maze l.1 l.2.1 player.gaze with
      | none => none
      | some target =>
        if IS_AVATAR target = true then
          let got := player_get w target
          let w1 : World := match got.1 with
            | some v =>
              match got.2.getPlayer v with
              | some victim => player_unref (player_laser_handler got.2 victim.thread_id) v
              | none => got.2
            | none => got.2
          let w2 := w1.modifyPlayer i (fun p => { p with score := wrapInt (p.score + 1) })
          match w2.getPlayer i with
          | none => some w2
          | some me =>
            let pkt : MZW_PACKET := ⟨.MZW_SCORE_PKT, me.avatar, toU8 me.score, 0, 0⟩
            some ((List.range NUM_AVATARS).foldl
              (fun acc k => match acc.getPlayer k with
                | some p => player_send_packet acc p pkt none
                | none => acc)
              w2)
        else some w

/-- The function `player_check_for_laser_hit` (player.c:437-456) on the record in
slot `i`. The pause `sleep(3)` is not represented. -/
def player_check_for_laser_hit (VIEW_DEPTH : Nat) (w : World) (i : Nat) (rand : Nat)
    (uninit : Int × Int) : World :=
  match w.getPlayer i with
  | none => w
  | some player =>
    if player.hit_pending ≠ 0 then
      let w1 := w.modifyPlayer i (fun p => { p with hit_pending := 0 })
      let w2 : World := match player_get_location w1.maze player with
        | some l => update_all_views VIEW_DEPTH
            { w1 with maze := maze_remove_player w1.maze player.avatar l.1 l.2.1 } uninit
        | none => w1
      let w3 := player_send_packet w2 player ⟨.MZW_ALERT_PKT, 0, 0, 0, 0⟩ none
      player_reset VIEW_DEPTH w3 i rand uninit
    else w

/-- The function `player_send_chat` (player.c:458-486) on the record in slot `i`;
`msg` holds the bytes at `msg`, of which the first `len` are copied. -/
def player_send_chat (w : World) (i : Nat) (msg : List Nat) (len : Nat) : World :=
  match w.getPlayer i with
  | none => w
  | some player =>
    let name_len := player.name.length
    let prefix_len := name_len + 4
    let total_len := prefix_len + len
    let buf : List Nat := player.name ++ [91, player.avatar, 93, 32] ++ msg.take len
    let pkt : MZW_PACKET := ⟨.MZW_CHAT_PKT, 0, 0, 0, toU16 total_len⟩
    (List.range NUM_AVATARS).foldl
      (fun acc k => match acc.getPlayer k with
        | some p => player_send_packet acc p pkt (some buf)
        | none => acc)
      w

/-- The branch of `mzw_client_service` taken for a packet received while the local
`player` is NULL (server.c:41-59): the local `player` afterwards (`none` while the
session stays in its login phase) and the state. `data` is the payload read with
the packet (`none` for NULL), a buffer of `pkt.size` bytes without a terminator
of its own, which is handed to `player_login` as a C string; `after` is what
follows that buffer in memory. -/
def mzw_client_service_login (VIEW_DEPTH : Nat) (w : World) (connfd : Int) (pkt : MZW_PACKET)
    (data : Option (List Nat)) (after : List Nat) (self rand : Nat) (uninit : Int × Int) :
    Option Nat × World :=
  if pkt.type = .MZW_LOGIN_PKT then
    let avatar : OBJECT := pkt.param1
    let name := data.map (fun bytes => cstring bytes after)
    let logged := player_login w connfd avatar name self
    match logged.1 with
    | some p =>
      let w1 := proto_send_packet logged.2 connfd ⟨.MZW_READY_PKT, 0, 0, 0, 0⟩ none
      (some (p.avatar - 65), player_reset VIEW_DEPTH w1 (p.avatar - 65) rand uninit)
    | none => (none, proto_send_packet logged.2 connfd ⟨.MZW_INUSE_PKT, 0, 0, 0, 0⟩ none)
  else (none, w)

/-! ## Auxiliary notions for the statements about the player module -/

/-- The state with the packets `l` appended to the packets written so far. -/
def World.addSent (w : World) (l : List SentPacket) : World :=
  { w with sent := w.sent ++ l }

/-- The fields of a player record other than the cached view and its depth. -/
structure PlayerCore where
  avatar : OBJECT
  name : List Nat
  fd : Int
  row : Int
  col : Int
  gaze : Nat
  score : Int
  refcount : Int
  thread_id : Nat
  hit_pending : Nat
deriving DecidableEq, Repr

/-- The record without its cached view. -/
def PLAYER.core (p : PLAYER) : PlayerCore :=
  ⟨p.avatar, p.name, p.fd, p.row, p.col, p.gaze, p.score, p.refcount, p.thread_id,
    p.hit_pending⟩

/-- The later state has the packets of the earlier one, followed by further
packets. -/
def World.sentExt (w w' : World) : Prop :=
  ∃ l : List SentPacket, w'.sent = w.sent ++ l

/-- The view that `player_update_view` computes afresh for a record: the result of
`maze_get_view` from the record's location (or from the indeterminate `uninit`
when the record has no location) along its gaze, to depth `VIEW_DEPTH`. -/
def player_fresh_view (VIEW_DEPTH : Nat) (m : Maze) (player : PLAYER) (uninit : Int × Int) :
    ViewResult :=
  match player_get_location m player with
  | some l => maze_get_view m l.1 l.2.1 player.gaze (VIEW_DEPTH : Int)
  | none => maze_get_view m uninit.1 uninit.2 player.gaze (VIEW_DEPTH : Int)

/-- The CLEAR packet on connection `fd`. -/
def clearPacket (fd : Int) : SentPacket :=
  ⟨fd, ⟨.MZW_CLEAR_PKT, 0, 0, 0, 0⟩, none⟩

/-- The SHOW packet on connection `fd` for cell `(d, w)` of the view `V`:
`param1 = V[d][w]`, `param2 = w`, `param3 = d`, no payload. -/
def showPacket (fd : Int) (V : List (List OBJECT)) (d w : Nat) : SentPacket :=
  ⟨fd, ⟨.MZW_SHOW_PKT, (viewAt V d w).getD 0, w, d, 0⟩, none⟩

/-- The packets of a full update for a view `V` of depth `n`: CLEAR, then one SHOW
packet per cell in row-major order (cell number `k` is row `k / 3`, column
`k % 3`). -/
def fullUpdatePackets (fd : Int) (V : List (List OBJECT)) (n : Nat) : List SentPacket :=
  clearPacket fd :: (List.range (3 * n)).map (fun k => showPacket fd V (k / 3) (k % 3))

/-- The packets of an incremental update from the cached view to the view `V` of
the same depth `n`: in row-major order, one SHOW packet for exactly the cells
whose value in `V` differs from the cached one. -/
def diffPackets (fd : Int) (V cached : List (List OBJECT)) (n : Nat) : List SentPacket :=
  ((List.range (3 * n)).filter
    (fun k => (viewAt V (k / 3) (k % 3)).getD 0 ≠ (viewAt cached (k / 3) (k % 3)).getD 0)).map
    (fun k => showPacket fd V (k / 3) (k % 3))

/-- The two states hold, slot by slot, records with the same value of the
projection `π` (and the same slots are occupied). -/
def World.agree {α : Type} (π : PLAYER → α) (w w' : World) : Prop :=
  ∀ k : Nat, (w'.getPlayer k).map π = (w.getPlayer k).map π

/-- The identity, connection, position and gaze of a record. -/
def PLAYER.place (p : PLAYER) : OBJECT × Int × Int × Int × Nat :=
  (p.avatar, p.fd, p.row, p.col, p.gaze)

/-- The record with its `hit_pending` flag cleared: everything but that flag. -/
def PLAYER.noHit (p : PLAYER) : PLAYER := { p with hit_pending := 0 }

/-- The record with its `hit_pending` flag and its reference count cleared:
everything but these two fields. -/
def PLAYER.noHitRef (p : PLAYER) : PLAYER := { p with hit_pending := 0, refcount := 0 }

/-- A 4 x 5 maze with a solid border of `#` and no avatar, as built from a
template. -/
def emptyMaze : Maze :=
  { maze_rows := 4, maze_cols := 5,
    maze_cells := [[35, 35, 35, 35, 35],
                   [35, 32, 32, 32, 35],
                   [35, 32, 32, 32, 35],
                   [35, 35, 35, 35, 35]] }

/-- The initial state on `emptyMaze`: nobody logged in, nothing sent. -/
def world0 : World := ⟨emptyMaze, players_init, [], []⟩

/-- The bytes of `"Alice"`. -/
def nameAlice : List Nat := [65, 108, 105, 99, 101]

/-- The bytes of `"Anna"`. -/
def nameAnna : List Nat := [65, 110, 110, 97]

/-- The bytes of `"Bravo"`. -/
def nameBravo : List Nat := [66, 114, 97, 118, 111]

/-- The record of Alice (avatar `A`, connection 7, thread 100) placed at (1,1)
facing EAST with score `score`, with the view it has been sent for a view depth
of 4. -/
def recAlice (score : Int) : PLAYER :=
  { avatar := 65, name := nameAlice, fd := 7, row := 1, col := 1, gaze := EAST,
    score := score,
    prev_view := some [[35, 65, 32], [35, 32, 32], [35, 32, 32], [35, 35, 35]],
    prev_depth := 4, refcount := 1, thread_id := 100, hit_pending := 0 }

/-- The state with only Alice logged in and placed at (1,1); `score` is her
score. -/
def worldAlice (score : Int) : World :=
  { maze := demoMazeA, players := (players_init.set 0 (some (recAlice score))),
    sent := [], shutdowns := [] }
where
  demoMazeA : Maze :=
    { maze_rows := 4, maze_cols := 5,
      maze_cells := [[35, 35, 35, 35, 35],
                     [35, 65, 32, 32, 35],
                     [35, 32, 32, 32, 35],
                     [35, 35, 35, 35, 35]] }

/-- The record of Bravo (avatar `B`, connection 8, thread 101) placed at (1,3)
facing WEST, with the view it has been sent for a view depth of 4. -/
def recBravo : PLAYER :=
  { avatar := 66, name := nameBravo, fd := 8, row := 1, col := 3, gaze := WEST,
    score := 0,
    prev_view := some [[35, 66, 35], [35, 32, 35], [35, 65, 32], [35, 35, 35]],
    prev_depth := 4, refcount := 1, thread_id := 101, hit_pending := 0 }

/-- The state with Alice at (1,1) facing EAST with score `score` and Bravo at (1,3)
facing WEST, the corridor between them clear. -/
def worldDuel (score : Int) : World :=
  { maze := duelMaze,
    players := ((players_init.set 0 (some (recAlice score))).set 1 (some recBravo)),
    sent := [], shutdowns := [] }
where
  duelMaze : Maze :=
    { maze_rows := 4, maze_cols := 5,
      maze_cells := [[35, 35, 35, 35, 35],
                     [35, 65, 32, 66, 35],
                     [35, 32, 32, 32, 35],
                     [35, 35, 35, 35, 35]] }

/-! ## Reachable states and their invariant -/

/-- The fields of a record that the invariant of the server state speaks about:
avatar, position and reference count. -/
def PLAYER.key (p : PLAYER) : OBJECT × Int × Int × Int :=
  (p.avatar, p.row, p.col, p.refcount)

/-- Two states with the same maze, the same number of slots and, slot by slot,
records with the same avatar, position and reference count. -/
def World.keyEq (w w' : World) : Prop :=
  w'.maze = w.maze ∧ w'.players.length = w.players.length ∧ w.agree PLAYER.key w'

/-- The invariant of the server state. The maze is rectangular and the table has
26 slots; the record in slot `k` has avatar `'A' + k` and a non-zero reference
count, and is either not placed (position (-1, -1)) or stands on an in-bounds cell
that holds its avatar; and every maze cell that holds an avatar letter is the
position of the record published under that letter. With `lifted = some i` the
statement describes the states inside an operation in which the avatar of the
record in slot `i` has been taken off the maze: no cell holds the letter of slot
`i`, and the cell at the position of that record, if it has one, is EMPTY. -/
def World.Inv (lifted : Option Nat) (w : World) : Prop :=
  w.maze.wf ∧ w.players.length = NUM_AVATARS ∧
  (∀ (k : Nat) (p : PLAYER), w.getPlayer k = some p →
    p.avatar = 65 + k ∧ p.refcount ≠ 0 ∧
    ((p.row = -1 ∧ p.col = -1) ∨
      (w.maze.inBounds p.row p.col ∧
        w.maze.cell p.row p.col = (if lifted = some k then EMPTY else p.avatar)))) ∧
  (∀ r c : Int, w.maze.inBounds r c → IS_AVATAR (w.maze.cell r c) = true →
    lifted ≠ some (w.maze.cell r c - 65) ∧
    ∃ p : PLAYER, w.getPlayer (w.maze.cell r c - 65) = some p ∧ p.row = r ∧ p.col = c)

/-- The states reachable from an initial state (a maze built from a template
without uppercase letters, the empty player table) by a sequence of calls of
`player_login`, `player_reset`, `player_move`, `player_rotate`,
`player_fire_laser`, `player_check_for_laser_hit` and `player_logout`, each applied
to the record of a slot with arbitrary values for its other arguments. -/
inductive Reachable (VIEW_DEPTH : Nat) : World → Prop where
  | init (template : List (List OBJECT)) (m : Maze) :
      maze_init template = some m →
      (∀ cells_row ∈ template, ∀ c ∈ cells_row, IS_AVATAR c = false) →
      Reachable VIEW_DEPTH ⟨m, players_init, [], []⟩
  | login (w : World) (clientfd : Int) (avatar : OBJECT) (name : Option (List Nat))
      (self : Nat) :
      Reachable VIEW_DEPTH w →
      Reachable VIEW_DEPTH (player_login w clientfd avatar name self).2
  | reset (w : World) (i rand : Nat) (uninit : Int × Int) :
      Reachable VIEW_DEPTH w →
      Reachable VIEW_DEPTH (player_reset VIEW_DEPTH w i rand uninit)
  | move (w : World) (i : Nat) (dir : Int) (uninit : Int × Int) :
      Reachable VIEW_DEPTH w →
      Reachable VIEW_DEPTH (player_move VIEW_DEPTH w i dir uninit).2
  | rotate (w : World) (i : Nat) (dir : Int) (uninit : Int × Int) :
      Reachable VIEW_DEPTH w →
      Reachable VIEW_DEPTH (player_rotate VIEW_DEPTH w i dir uninit)
  | fire (w w' : World) (i : Nat) :
      Reachable VIEW_DEPTH w → player_fire_laser w i = some w' →
      Reachable VIEW_DEPTH w'
  | hit (w : World) (i rand : Nat) (uninit : Int × Int) :
      Reachable VIEW_DEPTH w →
      Reachable VIEW_DEPTH (player_check_for_laser_hit VIEW_DEPTH w i rand uninit)
  | logout (w : World) (i : Nat) (uninit : Int × Int) :
      Reachable VIEW_DEPTH w →
      Reachable VIEW_DEPTH (player_logout VIEW_DEPTH w i uninit)

/-- The state after Alice has logged in on `world0` and been placed, and Bravo has
then logged in and been placed, with a view depth of 4. -/
def twoPlayers : World :=
  player_reset 4
    (player_login
      (player_reset 4 (player_login world0 7 65 (some nameAlice) 100).2 0 0 (0, 0))
      8 66 (some nameBravo) 101).2
    1 5 (0, 0)

/-! ## Auxiliary notions for the statements about packets and views -/

/-- A packet of a view update: CLEAR or SHOW. -/
def SentPacket.isView (pk : SentPacket) : Prop :=
  pk.pkt.type = .MZW_CLEAR_PKT ∨ pk.pkt.type = .MZW_SHOW_PKT

instance (pk : SentPacket) : Decidable pk.isView := by
  unfold SentPacket.isView
  exact inferInstance

/-- The later state differs from the earlier one by view updates only: the maze,
the shutdowns and the length of the table are the same, the records are the same
up to their cached views, and the packets sent in between are CLEAR and SHOW
packets. -/
def World.viewsOnly (w w' : World) : Prop :=
  w'.maze = w.maze ∧ w'.shutdowns = w.shutdowns ∧ w'.players.length = w.players.length ∧
  w.agree PLAYER.core w' ∧
  ∃ l : List SentPacket, w'.sent = w.sent ++ l ∧ ∀ pk ∈ l, pk.isView

/-! ## The wire codec (`src/protocol.c`) on byte streams -/

/-- Modelled from the spec: `protocol.h` is not among the sources. The header
type `MZW_PACKET` with all seven fields as the numbers they hold: `type`,
`param1`, `param2`, `param3` (one byte each), `size` (two bytes),
`timestamp_sec` and `timestamp_nsec` (four bytes each). -/
structure MZW_HEADER where
  type : Nat
  param1 : Nat
  param2 : Nat
  param3 : Nat
  size : Nat
  timestamp_sec : Nat
  timestamp_nsec : Nat
deriving DecidableEq, Repr

/-- The fields of a header are in the range of their C types. -/
def MZW_HEADER.wf (h : MZW_HEADER) : Prop :=
  h.type < 256 ∧ h.param1 < 256 ∧ h.param2 < 256 ∧ h.param3 < 256 ∧ h.size < 65536 ∧
  h.timestamp_sec < 4294967296 ∧ h.timestamp_nsec < 4294967296

instance (h : MZW_HEADER) : Decidable h.wf := by
  unfold MZW_HEADER.wf
  exact inferInstance

/-- Modelled from the spec: `protocol.h` is not among the sources. The value of
`sizeof(MZW_PACKET)`, the "fixed 16-byte header". -/
def sizeof_MZW_PACKET : Nat := 16

/-- The library function `htons`, as the two bytes that the field holding its
result has in memory: the value in network (big-endian) order. -/
def htons (x : Nat) : List Nat := [x / 256 % 256, x % 256]

/-- The library function `ntohs` applied to a field whose two bytes in memory are
`b`. -/
def ntohs (b : List Nat) : Nat := b.getD 0 0 * 256 + b.getD 1 0

/-- The library function `htonl`, as the four bytes that the field holding its
result has in memory: the value in network (big-endian) order. -/
def htonl (x : Nat) : List Nat :=
  [x / 16777216 % 256, x / 65536 % 256, x / 256 % 256, x % 256]

/-- The library function `ntohl` applied to a field whose four bytes in memory are
`b`. -/
def ntohl (b : List Nat) : Nat :=
  b.getD 0 0 * 16777216 + b.getD 1 0 * 65536 + b.getD 2 0 * 256 + b.getD 3 0

/-- The sixteen bytes of the local `netpkt` of `proto_send_packet`
(protocol.c:26-34). Modelled from the spec: the layout of the type comes from the
absent `protocol.h`; the fields lie in the order of the spec's header, each at
its natural alignment, so that two padding bytes follow `size`. Their contents
`pad` are indeterminate. -/
def netpkt_bytes (pkt : MZW_HEADER) (pad : Nat × Nat) : List Nat :=
  [pkt.type, pkt.param1, pkt.param2, pkt.param3] ++ htons pkt.size ++ [pad.1, pad.2] ++
    htonl pkt.timestamp_sec ++ htonl pkt.timestamp_nsec

/-- The function `proto_send_packet` (protocol.c:22-44) as the bytes it writes to
the descriptor, together with its return value. `pkt` and `data` are `none` for
NULL pointers; `rio_writen` is taken to write every byte it is given (a loopback
transport). -/
def proto_send_packet_bytes (pkt : Option MZW_HEADER) (data : Option (List Nat))
    (pad : Nat × Nat) : Int × List Nat :=
  match pkt with
  | none => (-1, [])
  | some pkt =>
    let netpkt := netpkt_bytes pkt pad
    match data with
    | some bytes => if pkt.size > 0 then (0, netpkt ++ bytes.take pkt.size) else (0, netpkt)
    | none => (0, netpkt)

/-- The static function `readn` (protocol.c:6-20) on a descriptor whose remaining
input, up to end-of-file, is `input`, when no `read` fails: the bytes stored in
the buffer (their number is the return value) and the input left. -/
def readn (input : List Nat) (n : Nat) : List Nat × List Nat :=
  (input.take n, input.drop n)

/-- What `proto_recv_packet` leaves behind: its return value, the header stored
in `*pkt` (if it got that far), the payload stored in `*datap` (`none` for NULL,
also when nothing was stored), and the input left on the descriptor. -/
structure RecvResult where
  ret : Int
  pkt : Option MZW_HEADER
  data : Option (List Nat)
  rest : List Nat
deriving DecidableEq, Repr

/-- The function `proto_recv_packet` (protocol.c:46-75), called with non-NULL
`pkt` and `datap`, on a descriptor whose remaining input is `input`. `Malloc` is
taken to succeed. -/
def proto_recv_packet_bytes (input : List Nat) : RecvResult :=
  let hdr := readn input sizeof_MZW_PACKET
  if hdr.1.length ≠ sizeof_MZW_PACKET then ⟨-1, none, none, hdr.2⟩
  else
    let netpkt := hdr.1
    let pkt : MZW_HEADER :=
      ⟨netpkt.getD 0 0, netpkt.getD 1 0, netpkt.getD 2 0, netpkt.getD 3 0,
        ntohs ((netpkt.drop 4).take 2), ntohl ((netpkt.drop 8).take 4),
        ntohl ((netpkt.drop 12).take 4)⟩
    if pkt.size > 0 then
      let body := readn hdr.2 pkt.size
      if body.1.length ≠ pkt.size then ⟨-1, some pkt, none, body.2⟩
      else ⟨0, some pkt, some body.1, body.2⟩
    else ⟨0, some pkt, none, hdr.2⟩

/-! ## The client registry (`src/client_registry.c`) -/

/-- The C type `struct client_registry` (client_registry.c:7-12): the array of
descriptors (-1 marks a free entry), the count of registered clients, and the
value of the semaphore `empty`. The mutex is not represented. -/
structure CLIENT_REGISTRY where
  client_fds : List Int
  client_count : Int
  empty : Nat
deriving DecidableEq, Repr

/-- The function `creg_init` (client_registry.c:14-27). `MAX_CLIENTS` is
`FD_SETSIZE`, a constant of the system headers (1024 on Linux). -/
def creg_init (MAX_CLIENTS : Nat) : CLIENT_REGISTRY :=
  ⟨List.replicate MAX_CLIENTS (-1), 0, 0⟩

/-- The loop of `creg_register` (client_registry.c:37-43) over the entries from
the current index on: the entries after the first free one has been filled, or
`none` when no entry is free. -/
def creg_register_loop : List Int → Int → Option (List Int)
  | [], _ => none
  | x :: rest, fd =>
    if x = -1 then some (fd :: rest)
    else (creg_register_loop rest fd).map (fun t => x :: t)

/-- The function `creg_register` (client_registry.c:35-45). -/
def creg_register (cr : CLIENT_REGISTRY) (fd : Int) : CLIENT_REGISTRY :=
  match creg_register_loop cr.client_fds fd with
  | some fds => { cr with client_fds := fds, client_count := cr.client_count + 1 }
  | none => cr

/-- The loop of `creg_unregister` (client_registry.c:49-55) over the entries from
the current index on: the entries after the first one equal to `fd` has been
freed, or `none` when no entry equals `fd`. -/
def creg_unregister_loop : List Int → Int → Option (List Int)
  | [], _ => none
  | x :: rest, fd =>
    if x = fd then some (-1 :: rest)
    else (creg_unregister_loop rest fd).map (fun t => x :: t)

/-- The function `creg_unregister` (client_registry.c:47-61): after the loop, the
semaphore is posted when `client_count` is 0. -/
def creg_unregister (cr : CLIENT_REGISTRY) (fd : Int) : CLIENT_REGISTRY :=
  let cr1 : CLIENT_REGISTRY := match creg_unregister_loop cr.client_fds fd with
    | some fds => { cr with client_fds := fds, client_count := cr.client_count - 1 }
    | none => cr
  if cr1.client_count = 0 then { cr1 with empty := cr1.empty + 1 } else cr1

/-- The function `creg_wait_for_empty` (client_registry.c:63-65), the operation
`P` on the semaphore: `none` when the caller blocks (the semaphore is 0),
otherwise the registry after the call has returned. -/
def creg_wait_for_empty (cr : CLIENT_REGISTRY) : Option CLIENT_REGISTRY :=
  if cr.empty = 0 then none else some { cr with empty := cr.empty - 1 }

/-- The handles registered: the entries of the array other than -1. -/
def CLIENT_REGISTRY.registered (cr : CLIENT_REGISTRY) : List Int :=
  cr.client_fds.filter (fun fd => fd ≠ -1)

/-! ## References to records that have left the table -/

/-- The function `player_unref` (player.c:263-281) called with a pointer to a
record that is no longer in the table (`player_logout` has set its slot to NULL,
a reference is still held): the record afterwards (`none` once it has been
freed) and the state. -/
def player_unref_detached (w : World) (player : PLAYER) : Option PLAYER × World :=
  let player1 : PLAYER := { player with refcount := player.refcount - 1 }
  if player1.refcount = 0 then (none, w.setSlot (player1.avatar - 65) none)
  else (some player1, w)

/-- The record that `player_login` returns for Alice (avatar `A`, connection 7,
thread 100) on an empty table; its reference count is 1. -/
def loginAlice : PLAYER :=
  { avatar := 65, name := nameAlice, fd := 7, row := -1, col := -1, gaze := EAST, score := 0,
    prev_view := none, prev_depth := 0, refcount := 1, thread_id := 100, hit_pending := 0 }

/-- The record that `player_login` returns for Anna (requested avatar `A`,
connection 8, thread 101) while slot `A` is free. -/
def loginAnna : PLAYER :=
  { avatar := 65, name := nameAnna, fd := 8, row := -1, col := -1, gaze := EAST, score := 0,
    prev_view := none, prev_depth := 0, refcount := 1, thread_id := 101, hit_pending := 0 }

/-- The state in which Alice has logged in on `world0`, her `player_logout` has
set slot `A` to NULL and has not yet called `player_unref`, and Anna has then
logged in with avatar `A`. -/
def worldAnnaAfterAlice : World :=
  (player_login ((player_login world0 7 65 (some nameAlice) 100).2.setSlot 0 none)
    8 65 (some nameAnna) 101).2

/-! ## Counting the outcomes of the random placement (specification side) -/

/-- The number of values `x` of `rand()` among `0..RAND_MAX` for which
`maze_set_player_random` succeeds and places the avatar in cell `(r, c)`.
`RAND_MAX` is the constant of the C library. -/
def selectionCount (RAND_MAX : Nat) (m : Maze) (avatar : OBJECT) (r c : Int) : Nat :=
  Nat.count
    (fun x => (maze_set_player_random m avatar x 0 0).ret = 0 ∧
      (maze_set_player_random m avatar x 0 0).row = r ∧
      (maze_set_player_random m avatar x 0 0).col = c)
    (RAND_MAX + 1)

/-- The fields of a record that a SCORE packet about it, or to it, is made of:
avatar, name, connection and score. -/
def PLAYER.scoreInfo (p : PLAYER) : OBJECT × List Nat × Int × Int :=
  (p.avatar, p.name, p.fd, p.score)

/-! ## The display of a client (specification side) -/

/-- What a client displays: the cell shown at depth `d`, column `w`, if any. -/
abbrev Display := Nat → Nat → Option OBJECT

/-- The display that shows nothing. -/
def Display.empty : Display := fun _ _ => none

/-- A client applying one packet to its display: CLEAR empties the display,
SHOW with `param1 = c`, `param2 = w`, `param3 = d` sets cell `(d, w)` to `c`, and
any other packet leaves the display as it is. -/
def applyPacket (disp : Display) (pk : SentPacket) : Display :=
  match pk.pkt.type with
  | .MZW_CLEAR_PKT => Display.empty
  | .MZW_SHOW_PKT =>
    fun d w => if d = pk.pkt.param3 ∧ w = pk.pkt.param2 then some pk.pkt.param1 else disp d w
  | _ => disp

/-- A client applying packets in the order received. -/
def applyPackets (disp : Display) (l : List SentPacket) : Display :=
  l.foldl applyPacket disp

/-- The display that shows a cached snapshot: nothing when there is no cache,
otherwise the cells `(d, w)` of the cached view for `d` below the cached depth
and `w < 3`. -/
def displayOfCache (prev_view : Option (List (List OBJECT))) (prev_depth : Int) : Display :=
  match prev_view with
  | none => Display.empty
  | some cached =>
    fun d w => if (d : Int) < prev_depth ∧ w < 3 then some ((viewAt cached d w).getD 0) else none

/-- The duel state in which the view cached for Alice is the one of depth 3 she
was sent while avatar `C` stood in the cell where Bravo stands now. -/
def worldDuelStale : World :=
  (worldDuel 0).modifyPlayer 0 (fun p =>
    { p with prev_view := some [[35, 65, 32], [35, 32, 32], [35, 67, 32]], prev_depth := 3 })

/-! ## Reading and writing cells -/

theorem setCell_maze_rows (m : Maze) (row col : Int) (v : OBJECT) :
    (m.setCell row col v).maze_rows = m.maze_rows := by
  unfold Maze.setCell
  split <;> rfl

theorem setCell_maze_cols (m : Maze) (row col : Int) (v : OBJECT) :
    (m.setCell row col v).maze_cols = m.maze_cols := by
  unfold Maze.setCell
  split <;> rfl

theorem setCell_inBounds (m : Maze) (row col : Int) (v : OBJECT) (r c : Int) :
    (m.setCell row col v).inBounds r c ↔ m.inBounds r c := by
  unfold Maze.inBounds
  rw [setCell_maze_rows, setCell_maze_cols]

theorem setCell_wf (m : Maze) (row col : Int) (v : OBJECT) (h : m.wf) :
    (m.setCell row col v).wf := by
  unfold Maze.setCell
  split
  · exact h
  · obtain ⟨h1, h2⟩ := h
    refine ⟨by simpa using h1, ?_⟩
    intro cells_row hmem
    simp only at hmem
    obtain ⟨i, hi, rfl⟩ := List.getElem_of_mem hmem
    have hi2 : i < m.maze_cells.length := by simpa using hi
    rw [List.getElem_modify]
    split
    · simpa using h2 _ (List.getElem_mem hi2)
    · exact h2 _ (List.getElem_mem hi2)

/-- In a rectangular maze the stored grid is exactly the set of index pairs that
pass the bounds test. -/
theorem cellAt?_eq_some_cell (m : Maze) (h : m.wf) (r c : Int) (hb : m.inBounds r c) :
    m.cellAt? r c = some (m.cell r c) := by
  obtain ⟨h1, h2⟩ := h
  unfold Maze.inBounds at hb
  unfold Maze.cell Maze.cellAt?
  have hr : r.toNat < m.maze_cells.length := by omega
  have hc : c.toNat < (m.maze_cells[r.toNat]).length := by
    rw [h2 _ (List.getElem_mem hr)]; omega
  rw [if_neg (by omega)]
  simp [List.getElem?_eq_getElem hr, List.getElem?_eq_getElem hc]

theorem cellAt?_eq_none (m : Maze) (h : m.wf) (r c : Int) (hb : ¬ m.inBounds r c) :
    m.cellAt? r c = none := by
  obtain ⟨h1, h2⟩ := h
  unfold Maze.inBounds at hb
  unfold Maze.cellAt?
  split
  · rfl
  · rename_i hneg
    by_cases hr : r.toNat < m.maze_cells.length
    · have hc : (m.maze_cells[r.toNat]).length ≤ c.toNat := by
        rw [h2 _ (List.getElem_mem hr)]; omega
      simp [List.getElem?_eq_getElem hr, hc]
    · simp [List.getElem?_eq_none (Nat.le_of_not_lt hr)]

/-- A write does not change what any other index reads. -/
theorem cellAt?_setCell_ne (m : Maze) (row col : Int) (v : OBJECT) (r c : Int)
    (hne : ¬ (r = row ∧ c = col)) :
    (m.setCell row col v).cellAt? r c = m.cellAt? r c := by
  unfold Maze.setCell
  split
  · rfl
  · rename_i hneg
    unfold Maze.cellAt?
    split
    · rfl
    · rename_i hneg2
      simp only
      by_cases hrow : row.toNat = r.toNat
      · have hc : col.toNat ≠ c.toNat := by omega
        rw [hrow, List.getElem?_modify_eq]
        cases hx : m.maze_cells[r.toNat]? with
        | none => rfl
        | some cells_row => simp [List.getElem?_set_ne hc]
      · rw [List.getElem?_modify_ne _ _ hrow]

theorem cell_setCell_ne (m : Maze) (row col : Int) (v : OBJECT) (r c : Int)
    (hne : ¬ (r = row ∧ c = col)) :
    (m.setCell row col v).cell r c = m.cell r c := by
  unfold Maze.cell
  rw [cellAt?_setCell_ne m row col v r c hne]

/-- A write inside the grid of a rectangular maze is read back. -/
theorem cellAt?_setCell_self (m : Maze) (h : m.wf) (row col : Int) (v : OBJECT)
    (hb : m.inBounds row col) :
    (m.setCell row col v).cellAt? row col = some v := by
  obtain ⟨h1, h2⟩ := h
  unfold Maze.inBounds at hb
  have hr : row.toNat < m.maze_cells.length := by omega
  have hc : col.toNat < (m.maze_cells[row.toNat]).length := by
    rw [h2 _ (List.getElem_mem hr)]; omega
  unfold Maze.setCell Maze.cellAt?
  rw [if_neg (by omega), if_neg (by omega)]
  simp [List.getElem?_eq_getElem hr, hc]

theorem cell_setCell_self (m : Maze) (h : m.wf) (row col : Int) (v : OBJECT)
    (hb : m.inBounds row col) :
    (m.setCell row col v).cell row col = v := by
  unfold Maze.cell
  rw [cellAt?_setCell_self m h row col v hb]
  rfl

/-- The maze built by `maze_init` is rectangular. -/
theorem maze_init_wf (template : List (List OBJECT)) (m : Maze)
    (h : maze_init template = some m) : m.wf := by
  unfold maze_init at h
  cases template with
  | nil =>
    simp at h
    subst h
    exact ⟨rfl, by simp⟩
  | cons first rest =>
    simp only [List.length_cons, Nat.add_one_ne_zero, if_false, List.headD_cons,
      List.drop_succ_cons, List.drop_zero] at h
    split at h
    · exact absurd h (by simp)
    · rename_i hany
      simp only [Option.some.injEq] at h
      subst h
      refine ⟨rfl, ?_⟩
      intro cells_row hmem
      simp only [List.any_eq_true, bne_iff_ne, ne_eq, not_exists, not_and, not_not] at hany
      rcases List.mem_cons.mp hmem with rfl | hmem
      · rfl
      · exact hany _ hmem

theorem IS_EMPTY_iff (c : OBJECT) : IS_EMPTY c = true ↔ c = EMPTY := by
  unfold IS_EMPTY
  exact beq_iff_eq

theorem IS_AVATAR_iff (c : OBJECT) : IS_AVATAR c = true ↔ 65 ≤ c ∧ c ≤ 90 := by
  unfold IS_AVATAR
  simp

/-! ## The operations keep the maze rectangular -/

theorem maze_set_player_wf (m : Maze) (h : m.wf) (avatar : OBJECT) (row col : Int) :
    (maze_set_player m avatar row col).2.wf := by
  unfold maze_set_player
  split
  · exact h
  · exact setCell_wf m row col avatar h

theorem maze_remove_player_wf (m : Maze) (h : m.wf) (avatar : OBJECT) (row col : Int) :
    (maze_remove_player m avatar row col).wf := by
  unfold maze_remove_player
  split
  · exact setCell_wf m row col EMPTY h
  · exact h

theorem maze_move_wf (m : Maze) (h : m.wf) (row col dir : Int) :
    (maze_move m row col dir).2.wf := by
  unfold maze_move
  split
  · exact h
  · simp only
    split
    · exact h
    · split
      · exact h
      · exact setCell_wf _ _ _ _ (setCell_wf m row col EMPTY h)

theorem maze_set_player_random_wf (m : Maze) (h : m.wf) (avatar : OBJECT) (rand : Nat)
    (rowp colp : Int) : (maze_set_player_random m avatar rand rowp colp).maze.wf := by
  unfold maze_set_player_random
  split
  · exact h
  · simp only
    split
    · exact h
    · exact setCell_wf m _ _ avatar h

/-! ## `maze_move` -/

/-- C1. After `maze_move(row, col, d)` returns OK (0) on a rectangular maze: the
origin cell is EMPTY, the destination cell `(row + dr[d], col + dc[d])` holds
exactly the character that the origin held before the call, every other cell
reads as before, and the dimensions are unchanged. (A call that returns OK has
an in-bounds origin and a direction in 0..3, so neither is assumed.) -/
theorem maze_move_ok_effect (m : Maze) (hwf : m.wf) (row col dir : Int)
    (hok : (maze_move m row col dir).1 = 0) :
    (maze_move m row col dir).2.cellAt? row col = some EMPTY ∧
    (maze_move m row col dir).2.cellAt? (row + dr dir.toNat) (col + dc dir.toNat)
      = some (m.cell row col) ∧
    m.cellAt? row col = some (m.cell row col) ∧
    (∀ r c : Int, ¬ (r = row ∧ c = col) →
      ¬ (r = row + dr dir.toNat ∧ c = col + dc dir.toNat) →
      (maze_move m row col dir).2.cellAt? r c = m.cellAt? r c) ∧
    (maze_move m row col dir).2.maze_rows = m.maze_rows ∧
    (maze_move m row col dir).2.maze_cols = m.maze_cols := by
  unfold maze_move at hok ⊢
  split at hok
  · exact absurd hok one_ne_zero
  · rename_i h1
    simp only at hok ⊢
    split at hok
    · exact absurd hok one_ne_zero
    · rename_i h2
      split at hok
      · exact absurd hok one_ne_zero
      · rename_i h3
        rw [if_neg h1, if_neg h2, if_neg h3]
        simp only
        have hb : m.inBounds row col := by
          unfold Maze.inBounds
          intro hx
          exact h1 (by tauto)
        have hdest : m.inBounds (row + dr dir.toNat) (col + dc dir.toNat) := by
          unfold Maze.inBounds
          intro hx
          exact h3 (by tauto)
        have hempty : m.cell (row + dr dir.toNat) (col + dc dir.toNat) = EMPTY := by
          rw [← IS_EMPTY_iff]
          by_contra hx
          exact h3 (by tauto)
        have havatar : IS_AVATAR (m.cell row col) = true := by
          by_contra hx
          exact h2 hx
        have hne : ¬ (row = row + dr dir.toNat ∧ col = col + dc dir.toNat) := by
          rintro ⟨e1, e2⟩
          rw [← e1, ← e2] at hempty
          rw [hempty] at havatar
          exact absurd havatar (by decide)
        refine ⟨?_, ?_, cellAt?_eq_some_cell m hwf row col hb, ?_, ?_, ?_⟩
        · rw [cellAt?_setCell_ne _ _ _ _ _ _ hne]
          exact cellAt?_setCell_self m hwf row col EMPTY hb
        · exact cellAt?_setCell_self _ (setCell_wf m row col EMPTY hwf) _ _ _
            ((setCell_inBounds m row col EMPTY _ _).mpr hdest)
        · intro r c hn1 hn2
          rw [cellAt?_setCell_ne _ _ _ _ _ _ hn2, cellAt?_setCell_ne _ _ _ _ _ _ hn1]
        · rw [setCell_maze_rows, setCell_maze_rows]
        · rw [setCell_maze_cols, setCell_maze_cols]

/-- C2. For a direction in 0..3, `maze_move(row, col, d)` returns OK (0) exactly
when `(row, col)` is in bounds, the cell there is an avatar (`'A'..'Z'`, codes
65..90), and the destination `(row + dr[d], col + dc[d])` is in bounds and EMPTY;
in every other case it returns BLOCKED (1). The deltas are NORTH = (-1, 0),
WEST = (0, -1), SOUTH = (1, 0), EAST = (0, 1). -/
theorem maze_move_ok_iff (m : Maze) (row col dir : Int) (hd0 : 0 ≤ dir) (hd4 : dir < 4) :
    ((maze_move m row col dir).1 = 0 ↔
      (m.inBounds row col ∧ (65 ≤ m.cell row col ∧ m.cell row col ≤ 90) ∧
        m.inBounds (row + dr dir.toNat) (col + dc dir.toNat) ∧
        m.cell (row + dr dir.toNat) (col + dc dir.toNat) = EMPTY)) ∧
    ((maze_move m row col dir).1 ≠ 0 → (maze_move m row col dir).1 = 1) ∧
    (dr NORTH, dc NORTH) = (-1, 0) ∧ (dr WEST, dc WEST) = (0, -1) ∧
    (dr SOUTH, dc SOUTH) = (1, 0) ∧ (dr EAST, dc EAST) = (0, 1) := by
  refine ⟨?_, ?_, by decide, by decide, by decide, by decide⟩
  · unfold maze_move Maze.inBounds
    rw [← IS_AVATAR_iff, ← IS_EMPTY_iff]
    have h4 : ((NUM_DIRECTIONS : Nat) : Int) = 4 := rfl
    rw [h4]
    by_cases h1 : row < 0 ∨ row ≥ (m.maze_rows : Int) ∨ col < 0 ∨ col ≥ (m.maze_cols : Int)
    · rw [if_pos (by tauto)]
      simp only [one_ne_zero, false_iff]
      tauto
    · rw [if_neg (by omega)]
      simp only
      by_cases h2 : IS_AVATAR (m.cell row col) = true
      · rw [if_neg (by simpa using h2)]
        split
        · rename_i h3
          simp only [one_ne_zero, false_iff]
          tauto
        · rename_i h3
          simp only [true_iff]
          tauto
      · rw [if_pos h2]
        simp only [one_ne_zero, false_iff]
        tauto
  · unfold maze_move
    intro hne
    split
    · rfl
    · simp only
      split
      · rfl
      · split
        · rfl
        · rename_i h1 h2 h3
          rw [if_neg h1] at hne
          simp only at hne
          rw [if_neg h2, if_neg h3] at hne
          exact absurd rfl hne

/-- C3. For every maze and every `(row, col, dir)`, out-of-range values included:
whenever `maze_move` returns BLOCKED (non-zero) the state after the call is the
state before it. In particular, for a direction in 0..3 whose destination cell is
inside the grid and not EMPTY (a wall), the call returns 1 and changes nothing. -/
theorem maze_move_blocked_unchanged (m : Maze) (row col dir : Int) :
    ((maze_move m row col dir).1 ≠ 0 → (maze_move m row col dir).2 = m) ∧
    (0 ≤ dir → dir < 4 → m.inBounds (row + dr dir.toNat) (col + dc dir.toNat) →
      m.cell (row + dr dir.toNat) (col + dc dir.toNat) ≠ EMPTY →
      maze_move m row col dir = (1, m)) := by
  constructor
  · unfold maze_move
    intro hne
    split
    · rfl
    · simp only
      split
      · rfl
      · split
        · rfl
        · rename_i h1 h2 h3
          rw [if_neg h1] at hne
          simp only at hne
          rw [if_neg h2, if_neg h3] at hne
          exact absurd rfl hne
  · intro _ _ _ hwall
    unfold maze_move
    split
    · rfl
    · simp only
      split
      · rfl
      · rw [if_pos]
        right; right; right; right
        rw [IS_EMPTY_iff]
        exact hwall

/-! ## `maze_set_player` and `maze_remove_player` -/

/-- C4. On a rectangular maze `maze_set_player` returns OK (0) exactly when
`(row, col)` is in bounds and that cell is EMPTY, and returns OCCUPIED (1)
otherwise; on OK the cell holds the avatar and every other cell (and the
dimensions) are unchanged; on OCCUPIED the whole state is unchanged. -/
theorem maze_set_player_spec (m : Maze) (hwf : m.wf) (avatar : OBJECT) (row col : Int) :
    ((maze_set_player m avatar row col).1 = 0 ↔
      (m.inBounds row col ∧ m.cellAt? row col = some EMPTY)) ∧
    ((maze_set_player m avatar row col).1 ≠ 0 → (maze_set_player m avatar row col).1 = 1) ∧
    ((maze_set_player m avatar row col).1 = 0 →
      (maze_set_player m avatar row col).2.cellAt? row col = some avatar ∧
      (∀ r c : Int, ¬ (r = row ∧ c = col) →
        (maze_set_player m avatar row col).2.cellAt? r c = m.cellAt? r c) ∧
      (maze_set_player m avatar row col).2.maze_rows = m.maze_rows ∧
      (maze_set_player m avatar row col).2.maze_cols = m.maze_cols) ∧
    ((maze_set_player m avatar row col).1 = 1 → (maze_set_player m avatar row col).2 = m) := by
  unfold maze_set_player
  by_cases hb : m.inBounds row col
  · have hcell := cellAt?_eq_some_cell m hwf row col hb
    have hb2 := hb
    unfold Maze.inBounds at hb2
    by_cases he : m.cell row col = EMPTY
    · have hie : IS_EMPTY (m.cell row col) = true := (IS_EMPTY_iff _).mpr he
      rw [if_neg (by tauto)]
      refine ⟨?_, ?_, ?_, ?_⟩
      · simp only [true_iff]
        exact ⟨hb, by rw [hcell, he]⟩
      · intro hx; exact absurd rfl hx
      · intro _
        exact ⟨cellAt?_setCell_self m hwf row col avatar hb,
          fun r c hne => cellAt?_setCell_ne m row col avatar r c hne,
          setCell_maze_rows m row col avatar, setCell_maze_cols m row col avatar⟩
      · intro hx; exact absurd hx (by simp)
    · have hie : ¬ (IS_EMPTY (m.cell row col) = true) := fun hx => he ((IS_EMPTY_iff _).mp hx)
      rw [if_pos (by tauto)]
      refine ⟨?_, ?_, ?_, ?_⟩
      · simp only [one_ne_zero, false_iff, not_and]
        intro _ hx
        rw [hcell] at hx
        exact he (Option.some.inj hx)
      · intro _; rfl
      · intro hx; exact absurd hx one_ne_zero
      · intro _; rfl
  · have hb2 := hb
    unfold Maze.inBounds at hb2
    rw [if_pos (by tauto)]
    refine ⟨?_, ?_, ?_, ?_⟩
    · simp only [one_ne_zero, false_iff, not_and]
      intro hx; exact absurd hx hb
    · intro _; rfl
    · intro hx; exact absurd hx one_ne_zero
    · intro _; rfl

/-- C7. On a rectangular maze: if `(row, col)` is in bounds and the cell holds
exactly the given character, `maze_remove_player` sets that cell to EMPTY and
changes no other cell (nor the dimensions); otherwise, out of bounds or the cell
holding anything else, the state is unchanged. -/
theorem maze_remove_player_spec (m : Maze) (hwf : m.wf) (avatar : OBJECT) (row col : Int) :
    ((m.inBounds row col ∧ m.cellAt? row col = some avatar) →
      (maze_remove_player m avatar row col).cellAt? row col = some EMPTY ∧
      (∀ r c : Int, ¬ (r = row ∧ c = col) →
        (maze_remove_player m avatar row col).cellAt? r c = m.cellAt? r c) ∧
      (maze_remove_player m avatar row col).maze_rows = m.maze_rows ∧
      (maze_remove_player m avatar row col).maze_cols = m.maze_cols) ∧
    (¬ (m.inBounds row col ∧ m.cellAt? row col = some avatar) →
      maze_remove_player m avatar row col = m) := by
  unfold maze_remove_player
  constructor
  · rintro ⟨hb, hc⟩
    have hb2 := hb
    unfold Maze.inBounds at hb2
    rw [cellAt?_eq_some_cell m hwf row col hb] at hc
    rw [if_pos ⟨by omega, by omega, by omega, by omega, Option.some.inj hc⟩]
    exact ⟨cellAt?_setCell_self m hwf row col EMPTY hb,
      fun r c hne => cellAt?_setCell_ne m row col EMPTY r c hne,
      setCell_maze_rows m row col EMPTY, setCell_maze_cols m row col EMPTY⟩
  · intro hn
    rw [if_neg]
    rintro ⟨h1, h2, h3, h4, h5⟩
    have hb : m.inBounds row col := by
      unfold Maze.inBounds; omega
    exact hn ⟨hb, by rw [cellAt?_eq_some_cell m hwf row col hb, h5]⟩

/-! ## `maze_set_player_random` -/

/-- The nested loops visit exactly the index pairs that pass the bounds test. -/
theorem mem_scanOrder (m : Maze) (p : Position) :
    p ∈ m.scanOrder ↔ m.inBounds p.row p.col := by
  unfold Maze.scanOrder Maze.inBounds
  simp only [List.mem_flatMap, List.mem_range, List.mem_map]
  constructor
  · rintro ⟨i, hi, j, hj, rfl⟩
    show ¬ ((i : Int) < 0 ∨ (i : Int) ≥ (m.maze_rows : Int) ∨ (j : Int) < 0 ∨
      (j : Int) ≥ (m.maze_cols : Int))
    omega
  · intro h
    cases p with
    | mk r c =>
      simp only at h
      refine ⟨r.toNat, by omega, c.toNat, by omega, ?_⟩
      congr <;> omega

/-- C5. For every maze with no EMPTY cell inside its bounds (a maze with zero
rows or zero columns included), every avatar and every value of `rand()`:
`maze_set_player_random` returns NO_SPACE (1, non-zero) and leaves the state
unchanged. -/
theorem maze_set_player_random_no_space (m : Maze) (avatar : OBJECT) (rand : Nat)
    (rowp colp : Int)
    (hfull : ∀ r : Nat, r < m.maze_rows → ∀ c : Nat, c < m.maze_cols →
      m.cell (r : Int) (c : Int) ≠ EMPTY) :
    (maze_set_player_random m avatar rand rowp colp).ret = 1 ∧
    (maze_set_player_random m avatar rand rowp colp).ret ≠ 0 ∧
    (maze_set_player_random m avatar rand rowp colp).maze = m := by
  have hcount : m.empty_count = 0 := by
    unfold Maze.empty_count
    rw [List.countP_eq_zero]
    intro p hp
    have hin := (mem_scanOrder m p).mp hp
    unfold Maze.inBounds at hin
    have := hfull p.row.toNat (by omega) p.col.toNat (by omega)
    rw [Int.toNat_of_nonneg (by omega), Int.toNat_of_nonneg (by omega)] at this
    simpa using this
  unfold maze_set_player_random
  split
  · exact ⟨rfl, one_ne_zero, rfl⟩
  · simp only
    rw [if_pos hcount]
    exact ⟨rfl, one_ne_zero, rfl⟩

theorem countP_flatMap_range {α : Type} (q : α → Bool) (f : Nat → List α) (n : Nat) :
    ((List.range n).flatMap f).countP q = ∑ i ∈ Finset.range n, (f i).countP q := by
  induction n with
  | zero => simp
  | succ n ih =>
    rw [List.range_succ, List.flatMap_append, List.countP_append, ih, Finset.sum_range_succ]
    simp

theorem countP_map_range {α : Type} (q : α → Bool) (g : Nat → α) (n : Nat) :
    ((List.range n).map g).countP q = ∑ j ∈ Finset.range n, if q (g j) = true then 1 else 0 := by
  induction n with
  | zero => simp
  | succ n ih =>
    rw [List.range_succ, List.map_append, List.countP_append, ih, Finset.sum_range_succ]
    simp [List.countP_cons]

/-- Counting over the loop order is counting over the set of grid indices. -/
theorem countP_scanOrder (m : Maze) (q : Position → Bool) :
    m.scanOrder.countP q =
      ((Finset.range m.maze_rows ×ˢ Finset.range m.maze_cols).filter
        (fun p => q (Position.mk (p.1 : Int) (p.2 : Int)) = true)).card := by
  unfold Maze.scanOrder
  rw [countP_flatMap_range, Finset.card_filter, Finset.sum_product]
  apply Finset.sum_congr rfl
  intro i _
  rw [countP_map_range]

/-- The loops visit the cells in strictly increasing row-major order. -/
theorem scanOrder_sorted (m : Maze) : m.scanOrder.Pairwise Position.before := by
  unfold Maze.scanOrder
  rw [List.pairwise_flatMap]
  constructor
  · intro i _
    rw [List.pairwise_map]
    refine List.Pairwise.imp ?_ (List.pairwise_lt_range m.maze_cols)
    intro a b hab
    right
    exact ⟨rfl, by simpa using hab⟩
  · refine List.Pairwise.imp ?_ (List.pairwise_lt_range m.maze_rows)
    intro a b hab x hx y hy
    simp only [List.mem_map, List.mem_range] at hx hy
    obtain ⟨_, _, rfl⟩ := hx
    obtain ⟨_, _, rfl⟩ := hy
    left
    simpa using hab

/-- In a list sorted by row-major order, exactly `k` entries come before the
entry at index `k`. -/
theorem countP_before_getElem (E : List Position) (hs : E.Pairwise Position.before) :
    ∀ (k : Nat) (hk : k < E.length),
      E.countP (fun a => decide (a.before (E.get ⟨k, hk⟩))) = k := by
  induction E with
  | nil => intro k hk; exact absurd hk (by simp)
  | cons a t ih =>
    rw [List.pairwise_cons] at hs
    obtain ⟨ha, ht⟩ := hs
    intro k hk
    cases k with
    | zero =>
      rw [List.countP_eq_zero]
      intro b hb
      simp only [List.get_eq_getElem, List.getElem_cons_zero, decide_eq_true_eq]
      rcases List.mem_cons.mp hb with rfl | hb
      · unfold Position.before; omega
      · have := ha b hb
        unfold Position.before at this ⊢
        omega
    | succ k =>
      have hk2 : k < t.length := by simpa using hk
      have hmem : t.get ⟨k, hk2⟩ ∈ t := List.get_mem t k hk2
      have hab := ha _ hmem
      simp only [List.get_eq_getElem, List.getElem_cons_succ] at hab ⊢
      have := ih ht k hk2
      simp only [List.get_eq_getElem] at this
      rw [List.countP_cons, this, if_pos (by simpa using hab)]

theorem empty_count_eq_length (m : Maze) : m.empty_count = m.empties.length := by
  unfold Maze.empty_count Maze.empties
  rw [List.countP_eq_length_filter]

theorem empty_count_eq_numEmpty (m : Maze) : m.empty_count = m.numEmpty := by
  unfold Maze.empty_count Maze.numEmpty
  rw [countP_scanOrder]
  simp

/-- The cell chosen by index `pick` of the scratch array: it is inside the grid,
EMPTY, and has exactly `pick` EMPTY cells before it in row-major order. -/
theorem empties_getD (m : Maze) (pick : Nat) (hp : pick < m.empties.length) :
    m.inBounds (m.empties.getD pick ⟨0, 0⟩).row (m.empties.getD pick ⟨0, 0⟩).col ∧
    m.cell (m.empties.getD pick ⟨0, 0⟩).row (m.empties.getD pick ⟨0, 0⟩).col = EMPTY ∧
    m.numEmptyBefore (m.empties.getD pick ⟨0, 0⟩).row (m.empties.getD pick ⟨0, 0⟩).col
      = pick := by
  have hget : m.empties.getD pick ⟨0, 0⟩ = m.empties.get ⟨pick, hp⟩ := by
    rw [List.getD_eq_getElem?_getD, List.getElem?_eq_getElem hp]
    rfl
  rw [hget]
  have hmem : m.empties.get ⟨pick, hp⟩ ∈ m.empties := List.get_mem _ _ _
  have hsorted : m.empties.Pairwise Position.before := by
    unfold Maze.empties
    exact List.Pairwise.filter _ (scanOrder_sorted m)
  have hcount := countP_before_getElem m.empties hsorted pick hp
  generalize m.empties.get ⟨pick, hp⟩ = x at hmem hcount ⊢
  have hmem2 : x ∈ m.scanOrder ∧ (m.cell x.row x.col == EMPTY) = true := by
    unfold Maze.empties at hmem
    exact List.mem_filter.mp hmem
  refine ⟨(mem_scanOrder m _).mp hmem2.1, by simpa using hmem2.2, ?_⟩
  have hbefore : m.numEmptyBefore x.row x.col
      = m.empties.countP (fun a => decide (a.before x)) := by
    unfold Maze.numEmptyBefore Maze.empties
    rw [List.countP_filter, countP_scanOrder]
    congr 1
    apply Finset.filter_congr
    intro q _
    simp
  rw [hbefore, hcount]

/-- C6. For every rectangular maze with `n ≥ 1` EMPTY cells, every avatar and
every value `x` of `rand()`: `maze_set_player_random` returns OK (0) and stores in
`(*rowp, *colp)` the coordinates of the `(x mod n)`-th EMPTY cell in row-major
order, that is, an in-bounds cell that was EMPTY before the call and has exactly
`x mod n` EMPTY cells before it; after the call that cell holds the avatar and
every other cell (and the dimensions) are unchanged. -/
theorem maze_set_player_random_spec (m : Maze) (hwf : m.wf) (avatar : OBJECT) (rand : Nat)
    (rowp colp : Int) (hn : 1 ≤ m.numEmpty) :
    (maze_set_player_random m avatar rand rowp colp).ret = 0 ∧
    m.inBounds (maze_set_player_random m avatar rand rowp colp).row
      (maze_set_player_random m avatar rand rowp colp).col ∧
    m.cellAt? (maze_set_player_random m avatar rand rowp colp).row
      (maze_set_player_random m avatar rand rowp colp).col = some EMPTY ∧
    m.numEmptyBefore (maze_set_player_random m avatar rand rowp colp).row
      (maze_set_player_random m avatar rand rowp colp).col = rand % m.numEmpty ∧
    (maze_set_player_random m avatar rand rowp colp).maze.cellAt?
      (maze_set_player_random m avatar rand rowp colp).row
      (maze_set_player_random m avatar rand rowp colp).col = some avatar ∧
    (∀ r c : Int,
      ¬ (r = (maze_set_player_random m avatar rand rowp colp).row ∧
         c = (maze_set_player_random m avatar rand rowp colp).col) →
      (maze_set_player_random m avatar rand rowp colp).maze.cellAt? r c = m.cellAt? r c) ∧
    (maze_set_player_random m avatar rand rowp colp).maze.maze_rows = m.maze_rows ∧
    (maze_set_player_random m avatar rand rowp colp).maze.maze_cols = m.maze_cols := by
  have hcount : m.empty_count = m.numEmpty := empty_count_eq_numEmpty m
  have hlen : m.empties.length = m.numEmpty := by
    rw [← empty_count_eq_length, hcount]
  have hpick : rand % m.numEmpty < m.empties.length := by
    rw [hlen]
    exact Nat.mod_lt _ hn
  obtain ⟨hb, he, hk⟩ := empties_getD m (rand % m.numEmpty) hpick
  have hdims : ¬ (m.maze_rows = 0 ∨ m.maze_cols = 0) := by
    have hb2 := hb
    unfold Maze.inBounds at hb2
    omega
  unfold maze_set_player_random
  rw [if_neg hdims]
  simp only
  rw [if_neg (by omega), hcount]
  simp only
  refine ⟨trivial, hb, ?_, hk, cellAt?_setCell_self m hwf _ _ avatar hb,
    fun r c hne => cellAt?_setCell_ne m _ _ avatar r c hne,
    setCell_maze_rows m _ _ avatar, setCell_maze_cols m _ _ avatar⟩
  rw [cellAt?_eq_some_cell m hwf _ _ hb, he]

/-! ## `maze_find_target` -/

theorem dr_dc_cases (d : Nat) (hd : d < 4) :
    (dr d = -1 ∧ dc d = 0) ∨ (dr d = 0 ∧ dc d = -1) ∨ (dr d = 1 ∧ dc d = 0) ∨
      (dr d = 0 ∧ dc d = 1) := by
  interval_cases d <;> decide

/-- The scan loop leaves through one of its exits as soon as its fuel exceeds the
number of grid cells left on the ray. -/
theorem maze_find_target_loop_some (m : Maze) (d : Nat) (hd : d < 4) :
    ∀ (fuel : Nat) (r c : Int), (m.inBounds r c → rayLen m d r c < fuel) → 0 < fuel →
      ∃ o, maze_find_target_loop m d fuel r c = some o := by
  intro fuel
  induction fuel with
  | zero => intro r c _ h0; exact absurd h0 (by decide)
  | succ fuel ih =>
    intro r c hlen _
    unfold maze_find_target_loop
    split
    · rename_i hb
      simp only
      split
      · exact ⟨_, rfl⟩
      · have hin : m.inBounds r c := by unfold Maze.inBounds; omega
        have hl := hlen hin
        have hfuel : 0 < fuel := by
          unfold rayLen at hl
          interval_cases d <;> simp only at hl <;> omega
        apply ih _ _ _ hfuel
        intro hin2
        unfold Maze.inBounds at hin2
        unfold rayLen at hl ⊢
        interval_cases d <;> simp only [dr, dc, List.getD_cons_zero, List.getD_cons_succ] at hl hin2 ⊢ <;> omega
    · exact ⟨_, rfl⟩

/-- While the cells met are inside the grid and EMPTY, the scan loop only
advances: after `j` such cells it stands `j` steps further with `j` less fuel. -/
theorem maze_find_target_loop_advance (m : Maze) (d : Nat) :
    ∀ (j fuel : Nat) (r c : Int),
      (∀ i : Nat, i < j → m.inBounds (r + (i : Int) * dr d) (c + (i : Int) * dc d) ∧
        m.cell (r + (i : Int) * dr d) (c + (i : Int) * dc d) = EMPTY) →
      maze_find_target_loop m d (fuel + j) r c
        = maze_find_target_loop m d fuel (r + (j : Int) * dr d) (c + (j : Int) * dc d) := by
  intro j
  induction j with
  | zero => intro fuel r c _; simp
  | succ j ih =>
    intro fuel r c h
    have h0 := h 0 (Nat.succ_pos j)
    simp only [Nat.cast_zero, zero_mul, add_zero] at h0
    obtain ⟨hb, he⟩ := h0
    unfold Maze.inBounds at hb
    rw [show fuel + (j + 1) = (fuel + j) + 1 by omega]
    conv_lhs => unfold maze_find_target_loop
    rw [if_pos (by omega)]
    simp only
    rw [if_neg (by rw [IS_EMPTY_iff]; exact fun hx => hx he)]
    rw [ih fuel (r + dr d) (c + dc d)]
    · congr 1 <;> push_cast <;> ring
    · intro i hi
      have := h (i + 1) (by omega)
      have e1 : r + dr d + (i : Int) * dr d = r + ((i + 1 : Nat) : Int) * dr d := by
        push_cast; ring
      have e2 : c + dc d + (i : Int) * dc d = c + ((i + 1 : Nat) : Int) * dc d := by
        push_cast; ring
      rw [e1, e2]
      exact this

/-- A run of `j` consecutive grid cells along a direction fits in the grid. -/
theorem ray_inBounds_bound (m : Maze) (d : Nat) (hd : d < 4) (r c : Int) (j : Nat)
    (h : ∀ i : Nat, i < j → m.inBounds (r + (i : Int) * dr d) (c + (i : Int) * dc d)) :
    j ≤ m.maze_rows + m.maze_cols := by
  cases j with
  | zero => omega
  | succ j =>
    have h0 := h 0 (by omega)
    have hj := h j (by omega)
    unfold Maze.inBounds at h0 hj
    simp only [Nat.cast_zero, zero_mul, add_zero] at h0
    rcases dr_dc_cases d hd with ⟨e1, e2⟩ | ⟨e1, e2⟩ | ⟨e1, e2⟩ | ⟨e1, e2⟩ <;>
      rw [e1, e2] at hj <;> omega

/-- The scan never reads a cell that lies behind its starting point: changing the
cell at `(row, col)` does not change a scan standing `j ≥ 1` steps ahead of it. -/
theorem maze_find_target_loop_setCell (m : Maze) (d : Nat) (hd : d < 4) (row col : Int)
    (v : OBJECT) :
    ∀ (fuel : Nat) (r c : Int) (j : Nat), 1 ≤ j → r = row + (j : Int) * dr d →
      c = col + (j : Int) * dc d →
      maze_find_target_loop (m.setCell row col v) d fuel r c
        = maze_find_target_loop m d fuel r c := by
  intro fuel
  induction fuel with
  | zero => intro r c j _ _ _; rfl
  | succ fuel ih =>
    intro r c j hj hr hc
    have hne : ¬ (r = row ∧ c = col) := by
      rcases dr_dc_cases d hd with ⟨e1, e2⟩ | ⟨e1, e2⟩ | ⟨e1, e2⟩ | ⟨e1, e2⟩ <;>
        rw [e1] at hr <;> rw [e2] at hc <;> omega
    unfold maze_find_target_loop
    rw [setCell_maze_rows, setCell_maze_cols, cell_setCell_ne m row col v r c hne]
    have hrec := ih (r + dr d) (c + dc d) (j + 1) (by omega)
      (by rw [hr]; push_cast; ring) (by rw [hc]; push_cast; ring)
    rw [hrec]

/-- If the cells at distances `1 .. k-1` from `(row, col)` are inside the grid and
EMPTY, the scan of `maze_find_target` reaches distance `k` with fuel to spare. -/
theorem maze_find_target_reaches (m : Maze) (row col : Int) (d : Nat) (hd : d < 4) (k : Nat)
    (hk : 1 ≤ k)
    (h : ∀ j : Nat, 1 ≤ j → j < k →
      m.inBounds (row + (j : Int) * dr d) (col + (j : Int) * dc d) ∧
      m.cell (row + (j : Int) * dr d) (col + (j : Int) * dc d) = EMPTY) :
    ∃ f : Nat, maze_find_target m row col d
      = maze_find_target_loop m d (f + 1) (row + (k : Int) * dr d) (col + (k : Int) * dc d) := by
  have hshift : ∀ i : Nat, i < k - 1 →
      m.inBounds (row + dr d + (i : Int) * dr d) (col + dc d + (i : Int) * dc d) ∧
      m.cell (row + dr d + (i : Int) * dr d) (col + dc d + (i : Int) * dc d) = EMPTY := by
    intro i hi
    have := h (i + 1) (by omega) (by omega)
    have e1 : row + dr d + (i : Int) * dr d = row + ((i + 1 : Nat) : Int) * dr d := by
      push_cast; ring
    have e2 : col + dc d + (i : Int) * dc d = col + ((i + 1 : Nat) : Int) * dc d := by
      push_cast; ring
    rw [e1, e2]
    exact this
  have hbound : k - 1 ≤ m.maze_rows + m.maze_cols :=
    ray_inBounds_bound m d hd (row + dr d) (col + dc d) (k - 1) (fun i hi => (hshift i hi).1)
  refine ⟨m.maze_rows + m.maze_cols - (k - 1), ?_⟩
  unfold maze_find_target
  have hfuel : m.maze_rows + m.maze_cols + 1
      = (m.maze_rows + m.maze_cols - (k - 1) + 1) + (k - 1) := by omega
  rw [hfuel, maze_find_target_loop_advance m d (k - 1) _ _ _ hshift]
  congr 1
  · have : ((k - 1 : Nat) : Int) = (k : Int) - 1 := by omega
    rw [this]; ring
  · have : ((k - 1 : Nat) : Int) = (k : Int) - 1 := by omega
    rw [this]; ring

/-- C8. For every maze, in-bounds start `(row, col)` and direction `d` in 0..3,
`maze_find_target` returns a value. If `k ≥ 1` is the least distance at which the
cell `(row + k*dr[d], col + k*dc[d])` is not an in-bounds EMPTY cell (all cells at
distances `1 .. k-1` are in bounds and EMPTY), then: when that cell is in bounds
and an avatar (`'A'..'Z'`) the avatar is returned; when it is in bounds and not
an avatar (nor EMPTY), or when it is outside the grid, EMPTY is returned. The
start cell is never examined: the result does not depend on its contents. The
function only reads the grid, so there is no state after the call other than the
state before it. -/
theorem maze_find_target_spec (m : Maze) (row col : Int) (d : Nat) (hd : d < 4)
    (_hstart : m.inBounds row col) :
    (∃ o, maze_find_target m row col d = some o) ∧
    (∀ k : Nat, 1 ≤ k →
      (∀ j : Nat, 1 ≤ j → j < k →
        m.inBounds (row + (j : Int) * dr d) (col + (j : Int) * dc d) ∧
        m.cell (row + (j : Int) * dr d) (col + (j : Int) * dc d) = EMPTY) →
      (m.inBounds (row + (k : Int) * dr d) (col + (k : Int) * dc d) →
        m.cell (row + (k : Int) * dr d) (col + (k : Int) * dc d) ≠ EMPTY →
        maze_find_target m row col d
          = some (if 65 ≤ m.cell (row + (k : Int) * dr d) (col + (k : Int) * dc d) ∧
                    m.cell (row + (k : Int) * dr d) (col + (k : Int) * dc d) ≤ 90
                  then m.cell (row + (k : Int) * dr d) (col + (k : Int) * dc d)
                  else EMPTY)) ∧
      (¬ m.inBounds (row + (k : Int) * dr d) (col + (k : Int) * dc d) →
        maze_find_target m row col d = some EMPTY)) ∧
    (∀ v : OBJECT,
      maze_find_target (m.setCell row col v) row col d = maze_find_target m row col d) := by
  refine ⟨?_, ?_, ?_⟩
  · unfold maze_find_target
    apply maze_find_target_loop_some m d hd _ _ _ _ (by omega)
    intro hin
    unfold Maze.inBounds at hin
    unfold rayLen
    interval_cases d <;> simp only [dr, dc, List.getD_cons_zero, List.getD_cons_succ] at hin ⊢ <;> omega
  · intro k hk h
    obtain ⟨f, hf⟩ := maze_find_target_reaches m row col d hd k hk h
    rw [hf]
    constructor
    · intro hin hne
      unfold Maze.inBounds at hin
      unfold maze_find_target_loop
      rw [if_pos (by omega)]
      simp only
      rw [if_pos (by rw [IS_EMPTY_iff]; exact hne)]
      simp only [IS_AVATAR_iff]
    · intro hout
      unfold Maze.inBounds at hout
      unfold maze_find_target_loop
      rw [if_neg (by omega)]
  · intro v
    unfold maze_find_target
    rw [setCell_maze_rows, setCell_maze_cols]
    exact maze_find_target_loop_setCell m d hd row col v _ _ _ 1 (le_refl 1) (by simp) (by simp)

/-! ## `maze_get_view` -/

/-- What the loop of `maze_get_view` started at counter `distance` produces: the
returned depth is `distance` plus the number of rows written; row `i` written
belongs to loop counter `distance + i`, whose corridor cell is inside the grid,
and holds the three cells read for that counter; and every grid read made is one
of the three reads of such a counter. -/
theorem maze_get_view_loop_spec (m : Maze) (row col : Int) (gaze : Nat) :
    ∀ (remaining distance : Nat) (res : ViewResult),
      maze_get_view_loop m row col gaze remaining distance = res →
      res.distance = distance + res.view.length ∧
      res.view.length ≤ remaining ∧
      (∀ i : Nat, i < res.view.length →
        m.inBounds (row + dr gaze * ((distance + i : Nat) : Int))
          (col + dc gaze * ((distance + i : Nat) : Int)) ∧
        res.view[i]? = some
          [m.cell (row + dr gaze * ((distance + i : Nat) : Int) + dr (TURN_LEFT gaze))
             (col + dc gaze * ((distance + i : Nat) : Int) + dc (TURN_LEFT gaze)),
           m.cell (row + dr gaze * ((distance + i : Nat) : Int))
             (col + dc gaze * ((distance + i : Nat) : Int)),
           m.cell (row + dr gaze * ((distance + i : Nat) : Int) + dr (TURN_RIGHT gaze))
             (col + dc gaze * ((distance + i : Nat) : Int) + dc (TURN_RIGHT gaze))]) ∧
      (∀ p ∈ res.reads, ∃ i : Nat, i < res.view.length ∧
        (p = (row + dr gaze * ((distance + i : Nat) : Int) + dr (TURN_LEFT gaze),
              col + dc gaze * ((distance + i : Nat) : Int) + dc (TURN_LEFT gaze)) ∨
         p = (row + dr gaze * ((distance + i : Nat) : Int),
              col + dc gaze * ((distance + i : Nat) : Int)) ∨
         p = (row + dr gaze * ((distance + i : Nat) : Int) + dr (TURN_RIGHT gaze),
              col + dc gaze * ((distance + i : Nat) : Int) + dc (TURN_RIGHT gaze)))) := by
  intro remaining
  induction remaining with
  | zero =>
    intro distance res hres
    unfold maze_get_view_loop at hres
    subst hres
    simp
  | succ n ih =>
    intro distance res hres
    unfold maze_get_view_loop at hres
    simp only at hres
    split at hres
    · subst hres
      simp
    · rename_i hin
      have hin0 : m.inBounds (row + dr gaze * ((distance + 0 : Nat) : Int))
          (col + dc gaze * ((distance + 0 : Nat) : Int)) := by
        unfold Maze.inBounds
        simpa using hin
      split at hres
      · subst hres
        refine ⟨by simp, by simp, ?_, ?_⟩
        · intro i hi
          have hi0 : i = 0 := by simpa using hi
          subst hi0
          exact ⟨hin0, by simp⟩
        · intro p hp
          refine ⟨0, by simp, ?_⟩
          simpa using hp
      · obtain ⟨h1, h2, h3, h4⟩ := ih (distance + 1) _ rfl
        subst hres
        refine ⟨?_, ?_, ?_, ?_⟩
        · simp only [List.length_cons]
          omega
        · simp only [List.length_cons]
          omega
        · intro i hi
          cases i with
          | zero => exact ⟨hin0, by simp⟩
          | succ i =>
            have hi2 : i < (maze_get_view_loop m row col gaze n (distance + 1)).view.length := by
              simpa using hi
            have e : distance + (i + 1) = distance + 1 + i := by omega
            rw [e]
            simpa using h3 i hi2
        · intro p hp
          simp only [List.mem_append] at hp
          rcases hp with hp | hp
          · refine ⟨0, by simp, ?_⟩
            simpa using hp
          · obtain ⟨i, hi, hcase⟩ := h4 p hp
            refine ⟨i + 1, by simpa using hi, ?_⟩
            have e : distance + (i + 1) = distance + 1 + i := by omega
            rw [e]
            exact hcase

/-- Every loop counter that writes a view row makes exactly three grid reads. -/
theorem maze_get_view_loop_reads_length (m : Maze) (row col : Int) (gaze : Nat) :
    ∀ (remaining distance : Nat),
      (maze_get_view_loop m row col gaze remaining distance).reads.length
        = 3 * (maze_get_view_loop m row col gaze remaining distance).view.length := by
  intro remaining
  induction remaining with
  | zero => intro distance; simp [maze_get_view_loop]
  | succ n ih =>
    intro distance
    unfold maze_get_view_loop
    simp only
    split
    · simp
    · split
      · simp
      · simp only [List.length_append, List.length_cons, List.length_nil, ih (distance + 1)]
        omega

/-- C9. For every rectangular maze, start `(row, col)`, gaze `g` in 0..3 and
`max_depth`, with `n` the depth returned by `maze_get_view`: for every `d < n` the
corridor index `(row + dr[g]*d, col + dc[g]*d)` is inside the grid and
`VIEW[d].CORRIDOR` is the maze cell there; and whenever the neighbouring index
lies inside the grid, `VIEW[d].LEFT_WALL` is the cell one step in direction
`turn_left(g)` from the corridor cell and `VIEW[d].RIGHT_WALL` the cell one step
in direction `turn_right(g)` from it. -/
theorem maze_get_view_cells (m : Maze) (hwf : m.wf) (row col : Int) (g : Nat) (_hg : g < 4)
    (depth : Int) (d : Nat) (hd : d < (maze_get_view m row col g depth).distance) :
    m.inBounds (row + dr g * (d : Int)) (col + dc g * (d : Int)) ∧
    viewAt (maze_get_view m row col g depth).view d CORRIDOR
      = some (m.cell (row + dr g * (d : Int)) (col + dc g * (d : Int))) ∧
    m.cellAt? (row + dr g * (d : Int)) (col + dc g * (d : Int))
      = some (m.cell (row + dr g * (d : Int)) (col + dc g * (d : Int))) ∧
    (m.inBounds (row + dr g * (d : Int) + dr (TURN_LEFT g))
        (col + dc g * (d : Int) + dc (TURN_LEFT g)) →
      viewAt (maze_get_view m row col g depth).view d LEFT_WALL
        = m.cellAt? (row + dr g * (d : Int) + dr (TURN_LEFT g))
            (col + dc g * (d : Int) + dc (TURN_LEFT g))) ∧
    (m.inBounds (row + dr g * (d : Int) + dr (TURN_RIGHT g))
        (col + dc g * (d : Int) + dc (TURN_RIGHT g)) →
      viewAt (maze_get_view m row col g depth).view d RIGHT_WALL
        = m.cellAt? (row + dr g * (d : Int) + dr (TURN_RIGHT g))
            (col + dc g * (d : Int) + dc (TURN_RIGHT g))) := by
  unfold maze_get_view at hd ⊢
  obtain ⟨h1, _, h3, _⟩ := maze_get_view_loop_spec m row col g depth.toNat 0 _ rfl
  have hlen : d < (maze_get_view_loop m row col g depth.toNat 0).view.length := by omega
  obtain ⟨hin, hrow⟩ := h3 d hlen
  simp only [Nat.zero_add] at hin hrow
  refine ⟨hin, ?_, cellAt?_eq_some_cell m hwf _ _ hin, ?_, ?_⟩
  · unfold viewAt
    rw [hrow]
    rfl
  · intro hl
    unfold viewAt
    rw [hrow, cellAt?_eq_some_cell m hwf _ _ hl]
    rfl
  · intro hr
    unfold viewAt
    rw [hrow, cellAt?_eq_some_cell m hwf _ _ hr]
    rfl

/-- C10. For every rectangular maze whose outermost rows and columns hold only
wall cells (neither EMPTY nor an avatar), every start `(row, col)` that is in
bounds and holds EMPTY or an avatar, every gaze in 0..3 and every `max_depth`:
every index `(r, c)` of a read `maze_cells[r][c]` made by `maze_get_view`
(corridor, left wall and right wall of each depth, three reads per view row) is
inside the grid, so the read yields the stored cell and never takes the
out-of-bounds branch of the indexing function. -/
theorem maze_get_view_reads_inBounds (m : Maze) (hwf : m.wf)
    (hborder : ∀ r : Nat, r < m.maze_rows → ∀ c : Nat, c < m.maze_cols →
      (r = 0 ∨ r + 1 = m.maze_rows ∨ c = 0 ∨ c + 1 = m.maze_cols) →
      m.cell (r : Int) (c : Int) ≠ EMPTY ∧ IS_AVATAR (m.cell (r : Int) (c : Int)) = false)
    (row col : Int) (hb : m.inBounds row col)
    (hstart : m.cell row col = EMPTY ∨ IS_AVATAR (m.cell row col) = true)
    (g : Nat) (hg : g < 4) (depth : Int) :
    (∀ p ∈ (maze_get_view m row col g depth).reads,
      m.inBounds p.1 p.2 ∧ m.cellAt? p.1 p.2 = some (m.cell p.1 p.2)) ∧
    (maze_get_view m row col g depth).reads.length
      = 3 * (maze_get_view m row col g depth).distance := by
  have hb2 := hb
  unfold Maze.inBounds at hb2
  have hinterior : 1 ≤ row ∧ row + 1 < (m.maze_rows : Int) ∧ 1 ≤ col ∧
      col + 1 < (m.maze_cols : Int) := by
    by_contra hcon
    have hedge : row.toNat = 0 ∨ row.toNat + 1 = m.maze_rows ∨ col.toNat = 0 ∨
        col.toNat + 1 = m.maze_cols := by omega
    have := hborder row.toNat (by omega) col.toNat (by omega) hedge
    rw [Int.toNat_of_nonneg (by omega), Int.toNat_of_nonneg (by omega)] at this
    rcases hstart with he | ha
    · exact this.1 he
    · rw [ha] at this
      exact absurd this.2 (by decide)
  unfold maze_get_view
  obtain ⟨h1, _, h3, h4⟩ := maze_get_view_loop_spec m row col g depth.toNat 0 _ rfl
  constructor
  · intro p hp
    obtain ⟨i, hi, hcase⟩ := h4 p hp
    obtain ⟨hin, _⟩ := h3 i hi
    have hpin : m.inBounds p.1 p.2 := by
      unfold Maze.inBounds at hin ⊢
      simp only [Nat.zero_add] at hin hcase
      interval_cases g <;>
        simp only [dr, dc, TURN_LEFT, TURN_RIGHT, NUM_DIRECTIONS, List.getD_cons_zero,
          List.getD_cons_succ, Nat.reduceAdd, Nat.reduceMod] at hin hcase <;>
        rcases hcase with rfl | rfl | rfl <;> simp only <;> omega
    exact ⟨hpin, cellAt?_eq_some_cell m hwf _ _ hpin⟩
  · rw [maze_get_view_loop_reads_length, h1]
    omega

/-! ## The operations on concrete mazes -/

/-- Moving `A` east from (1,1) in the demo maze: the move succeeds and the origin
is EMPTY afterwards. -/
theorem maze_move_ok_effect_witness :
    demoMaze.wf ∧ (maze_move demoMaze 1 1 3).1 = 0 ∧
    (maze_move demoMaze 1 1 3).2.cellAt? 1 1 = some EMPTY ∧
    (maze_move demoMaze 1 1 3).2.cellAt? (1 + dr (3 : Int).toNat) (1 + dc (3 : Int).toNat)
      = some (demoMaze.cell 1 1) :=
  ⟨by decide, by decide,
    (maze_move_ok_effect demoMaze (by decide) 1 1 3 (by decide)).1,
    (maze_move_ok_effect demoMaze (by decide) 1 1 3 (by decide)).2.1⟩

/-- Moving `A` north from (1,1) in the demo maze runs into the border wall: the
call does not return OK, so it returns 1. -/
theorem maze_move_ok_iff_witness :
    (0 : Int) ≤ 0 ∧ (0 : Int) < 4 ∧ (maze_move demoMaze 1 1 0).1 = 1 :=
  ⟨by decide, by decide,
    (maze_move_ok_iff demoMaze 1 1 0 (by decide) (by decide)).2.1 (by decide)⟩

/-- Moving `A` north from (1,1) in the demo maze is blocked by the border wall at
(0,1) and leaves the maze as it was. -/
theorem maze_move_blocked_unchanged_witness :
    maze_move demoMaze 1 1 0 = (1, demoMaze) :=
  (maze_move_blocked_unchanged demoMaze 1 1 0).2 (by decide) (by decide) (by decide)
    (by decide)

/-- Placing `C` on the EMPTY cell (1,2) of the demo maze succeeds and the cell
then holds `C`. -/
theorem maze_set_player_spec_witness :
    demoMaze.wf ∧ (maze_set_player demoMaze 67 1 2).1 = 0 ∧
    (maze_set_player demoMaze 67 1 2).2.cellAt? 1 2 = some 67 :=
  ⟨by decide, by decide,
    ((maze_set_player_spec demoMaze (by decide) 67 1 2).2.2.1 (by decide)).1⟩

/-- Random placement on the 2 x 2 maze without EMPTY cells fails and changes
nothing. -/
theorem maze_set_player_random_no_space_witness :
    (maze_set_player_random fullMaze 66 5 0 0).ret = 1 ∧
    (maze_set_player_random fullMaze 66 5 0 0).maze = fullMaze :=
  ⟨(maze_set_player_random_no_space fullMaze 66 5 0 0 (by decide)).1,
    (maze_set_player_random_no_space fullMaze 66 5 0 0 (by decide)).2.2⟩

/-- The demo maze has four EMPTY cells. -/
theorem demoMaze_numEmpty : demoMaze.numEmpty = 4 := by
  rw [← empty_count_eq_numEmpty]
  decide

/-- Random placement of `C` in the demo maze (four EMPTY cells) with `rand() = 7`:
the call succeeds and the chosen cell has `7 mod 4 = 3` EMPTY cells before it. -/
theorem maze_set_player_random_spec_witness :
    demoMaze.wf ∧ 1 ≤ demoMaze.numEmpty ∧
    (maze_set_player_random demoMaze 67 7 0 0).ret = 0 ∧
    demoMaze.numEmptyBefore (maze_set_player_random demoMaze 67 7 0 0).row
      (maze_set_player_random demoMaze 67 7 0 0).col = 7 % demoMaze.numEmpty :=
  ⟨by decide, by rw [demoMaze_numEmpty]; decide,
    (maze_set_player_random_spec demoMaze (by decide) 67 7 0 0
      (by rw [demoMaze_numEmpty]; decide)).1,
    (maze_set_player_random_spec demoMaze (by decide) 67 7 0 0
      (by rw [demoMaze_numEmpty]; decide)).2.2.2.1⟩

/-- Removing `B` from (2,3) in the demo maze empties that cell. -/
theorem maze_remove_player_spec_witness :
    demoMaze.wf ∧ demoMaze.inBounds 2 3 ∧ demoMaze.cellAt? 2 3 = some 66 ∧
    (maze_remove_player demoMaze 66 2 3).cellAt? 2 3 = some EMPTY :=
  ⟨by decide, by decide, by decide,
    ((maze_remove_player_spec demoMaze (by decide) 66 2 3).1 ⟨by decide, by decide⟩).1⟩

/-- Looking east from (2,1) in the demo maze: the cell at distance 1 is EMPTY and
the cell at distance 2 holds `B`, which is the target found. -/
theorem maze_find_target_spec_witness :
    3 < 4 ∧ demoMaze.inBounds 2 1 ∧ maze_find_target demoMaze 2 1 3 = some 66 :=
  ⟨by decide, by decide,
    ((maze_find_target_spec demoMaze 2 1 3 (by decide) (by decide)).2.1 2 (by decide)
      (by
        intro j h1 h2
        obtain rfl : j = 1 := by omega
        decide)).1 (by decide) (by decide)⟩

/-- The view east from (1,1) in the demo maze has depth 4; its corridor cell at
depth 2 is the maze cell (1,3). -/
theorem maze_get_view_cells_witness :
    demoMaze.wf ∧ 3 < 4 ∧ 2 < (maze_get_view demoMaze 1 1 3 16).distance ∧
    viewAt (maze_get_view demoMaze 1 1 3 16).view 2 CORRIDOR
      = some (demoMaze.cell (1 + dr 3 * ((2 : Nat) : Int)) (1 + dc 3 * ((2 : Nat) : Int))) :=
  ⟨by decide, by decide, by decide,
    (maze_get_view_cells demoMaze (by decide) 1 1 3 (by decide) 16 2 (by decide)).2.1⟩

/-- The view east from (1,1) in the demo maze, whose border is solid: all twelve
reads are inside the grid. -/
theorem maze_get_view_reads_inBounds_witness :
    demoMaze.wf ∧ demoMaze.inBounds 1 1 ∧
    (∀ p ∈ (maze_get_view demoMaze 1 1 3 16).reads,
      demoMaze.inBounds p.1 p.2 ∧ demoMaze.cellAt? p.1 p.2 = some (demoMaze.cell p.1 p.2)) ∧
    (maze_get_view demoMaze 1 1 3 16).reads.length
      = 3 * (maze_get_view demoMaze 1 1 3 16).distance :=
  ⟨by decide, by decide,
    maze_get_view_reads_inBounds demoMaze (by decide) (by decide) 1 1 (by decide)
      (by decide) 3 (by decide) 16⟩

/-! ## The player table -/

theorem getPlayer_setSlot_self (w : World) (i : Nat) (v : Option PLAYER)
    (hi : i < w.players.length) : (w.setSlot i v).getPlayer i = v := by
  unfold World.getPlayer World.setSlot
  simp [hi]

theorem getPlayer_setSlot_ne (w : World) (i j : Nat) (v : Option PLAYER) (hne : i ≠ j) :
    (w.setSlot i v).getPlayer j = w.getPlayer j := by
  unfold World.getPlayer World.setSlot
  simp [List.getElem?_set_ne hne]

theorem getPlayer_lt (w : World) (i : Nat) (p : PLAYER) (h : w.getPlayer i = some p) :
    i < w.players.length := by
  unfold World.getPlayer at h
  by_contra hcon
  rw [List.getElem?_eq_none (Nat.le_of_not_lt hcon)] at h
  exact absurd h (by simp)

theorem getPlayer_mem (w : World) (i : Nat) (p : PLAYER) (h : w.getPlayer i = some p) :
    some p ∈ w.players := by
  have hlt := getPlayer_lt w i p h
  unfold World.getPlayer at h
  rw [List.getElem?_eq_getElem hlt] at h
  simp only [Option.join] at h
  have hmem := List.getElem_mem hlt
  have heq : w.players[i] = some p := by
    cases hx : w.players[i] with
    | none => rw [hx] at h; simp at h
    | some q => rw [hx] at h; simpa using h
  rw [heq] at hmem
  exact hmem

theorem setSlot_wf (w : World) (i : Nat) (v : Option PLAYER) (h : w.wf) : (w.setSlot i v).wf := by
  unfold World.wf World.setSlot at *
  simpa using h

theorem getPlayer_modifyPlayer (w : World) (i j : Nat) (f : PLAYER → PLAYER) :
    (w.modifyPlayer i f).getPlayer j
      = if j = i then (w.getPlayer i).map f else w.getPlayer j := by
  unfold World.modifyPlayer
  cases hp : w.getPlayer i with
  | none =>
    simp only
    split
    · rename_i hji; rw [hji, hp]; rfl
    · rfl
  | some p =>
    simp only
    split
    · rename_i hji
      rw [hji, getPlayer_setSlot_self w i _ (getPlayer_lt w i p hp)]
      rfl
    · rename_i hji
      exact getPlayer_setSlot_ne w i j _ (fun hx => hji hx.symm)

theorem modifyPlayer_sent (w : World) (i : Nat) (f : PLAYER → PLAYER) :
    (w.modifyPlayer i f).sent = w.sent := by
  unfold World.modifyPlayer
  split <;> rfl

theorem modifyPlayer_maze (w : World) (i : Nat) (f : PLAYER → PLAYER) :
    (w.modifyPlayer i f).maze = w.maze := by
  unfold World.modifyPlayer
  split <;> rfl

theorem modifyPlayer_shutdowns (w : World) (i : Nat) (f : PLAYER → PLAYER) :
    (w.modifyPlayer i f).shutdowns = w.shutdowns := by
  unfold World.modifyPlayer
  split <;> rfl

theorem modifyPlayer_length (w : World) (i : Nat) (f : PLAYER → PLAYER) :
    (w.modifyPlayer i f).players.length = w.players.length := by
  unfold World.modifyPlayer
  split
  · simp [World.setSlot]
  · rfl

/-- The search loop over `valid_avatars` finds the lowest letter that passes the
test, or nothing when no letter passes it. -/
theorem find?_range_spec (q : Nat → Bool) :
    ∀ (n s : Nat),
      (∀ a, (List.range' s n).find? q = some a →
        s ≤ a ∧ a < s + n ∧ q a = true ∧ ∀ b, s ≤ b → b < a → q b = false) ∧
      ((List.range' s n).find? q = none → ∀ b, s ≤ b → b < s + n → q b = false) := by
  intro n
  induction n with
  | zero =>
    intro s
    constructor
    · intro a h; simp at h
    · intro _ b h1 h2; omega
  | succ n ih =>
    intro s
    rw [List.range'_succ, List.find?_cons]
    cases hq : q s with
    | true =>
      constructor
      · intro a h
        simp only [Option.some.injEq] at h
        subst h
        exact ⟨le_refl _, by omega, hq, fun b h1 h2 => by omega⟩
      · intro h; simp at h
    | false =>
      obtain ⟨ih1, ih2⟩ := ih (s + 1)
      constructor
      · intro a h
        obtain ⟨h1, h2, h3, h4⟩ := ih1 a h
        refine ⟨by omega, by omega, h3, ?_⟩
        intro b hb1 hb2
        by_cases hbs : b = s
        · rw [hbs]; exact hq
        · exact h4 b (by omega) hb2
      · intro h b hb1 hb2
        by_cases hbs : b = s
        · rw [hbs]; exact hq
        · exact ih2 h b (by omega) (by omega)

theorem valid_avatars_eq : valid_avatars = List.range' 65 26 := by decide

/-! ## `player_login` -/

/-- The letter selected at login is an avatar only if its slot is free. -/
theorem player_login_real_avatar_free (w : World) (avatar : OBJECT) (name : Option (List Nat))
    (real_name : List Nat)
    (h : IS_AVATAR (player_login_real_avatar w avatar name real_name) = true) :
    w.getPlayer (player_login_real_avatar w avatar name real_name - 65) = none := by
  unfold player_login_real_avatar at h ⊢
  simp only at h ⊢
  generalize (if avatar ≥ 97 ∧ avatar ≤ 122 then avatar - 32 else avatar) = req at h ⊢
  generalize (if name.isSome ∧ (name.getD []).headD 0 ≠ 0 then real_name.headD 0 else 0)
    = first at h ⊢
  by_cases h1 : IS_AVATAR req = true ∧ (w.getPlayer (req - 65)).isNone
  · rw [if_pos h1]
    exact Option.isNone_iff_eq_none.mp h1.2
  · rw [if_neg h1] at h ⊢
    by_cases h2 : IS_AVATAR first = true ∧ (w.getPlayer (first - 65)).isNone
    · rw [if_pos h2]
      exact Option.isNone_iff_eq_none.mp h2.2
    · rw [if_neg h2] at h ⊢
      cases hf : valid_avatars.find?
          (fun potential_avatar => (w.getPlayer (potential_avatar - 65)).isNone) with
      | none =>
        rw [hf] at h
        exact absurd h (by decide)
      | some a =>
        have := List.find?_some hf
        simpa using this

/-- What a call of `player_login` that returns a record has done: the record is
the freshly initialised one, its avatar is a letter whose slot was free, and the
only change to the state is the publication of the record in that slot. -/
theorem player_login_some (w : World) (clientfd : Int) (avatar : OBJECT)
    (name : Option (List Nat)) (self : Nat) (p : PLAYER) (w' : World)
    (h : player_login w clientfd avatar name self = (some p, w')) :
    (65 ≤ p.avatar ∧ p.avatar ≤ 90) ∧
    w.getPlayer (p.avatar - 65) = none ∧
    w' = w.setSlot (p.avatar - 65) (some p) ∧
    p = { avatar := p.avatar, name := p.name, fd := clientfd, row := -1, col := -1,
          gaze := EAST, score := 0, prev_view := none, prev_depth := 0, refcount := 1,
          thread_id := self, hit_pending := 0 } ∧
    p.name = (if name.isSome ∧ (name.getD []).headD 0 ≠ 0 then name.getD [] else Anonymous) ∧
    p.avatar = player_login_real_avatar w avatar name p.name := by
  unfold player_login at h
  simp only at h
  by_cases hn : name.isSome ∧ (name.getD []).headD 0 ≠ 0 ∧
      ((name.getD []).headD 0 < 65 ∨ (name.getD []).headD 0 > 90)
  · rw [if_pos hn] at h
    simp at h
  · rw [if_neg hn] at h
    by_cases ha : avatar ≠ 0 ∧ ¬ ((avatar ≥ 65 ∧ avatar ≤ 90) ∨ (avatar ≥ 97 ∧ avatar ≤ 122))
    · rw [if_pos ha] at h
      simp at h
    · rw [if_neg ha] at h
      generalize hrn : (if name.isSome ∧ (name.getD []).headD 0 ≠ 0 then name.getD []
        else Anonymous) = rn at h ⊢
      by_cases h3 : IS_AVATAR (player_login_real_avatar w avatar name rn) = true
      · rw [if_neg (not_not.mpr h3)] at h
        simp only [Prod.mk.injEq, Option.some.injEq] at h
        obtain ⟨hp, hw⟩ := h
        have hfree := player_login_real_avatar_free w avatar name _ h3
        subst hp
        exact ⟨(IS_AVATAR_iff _).mp h3, hfree, hw.symm, rfl, rfl, rfl⟩
      · rw [if_pos h3] at h
        simp at h

/-- A call of `player_login` that returns NULL leaves the state as it was. -/
theorem player_login_none (w : World) (clientfd : Int) (avatar : OBJECT)
    (name : Option (List Nat)) (self : Nat) (w' : World)
    (h : player_login w clientfd avatar name self = (none, w')) : w' = w := by
  unfold player_login at h
  simp only at h
  by_cases hn : name.isSome ∧ (name.getD []).headD 0 ≠ 0 ∧
      ((name.getD []).headD 0 < 65 ∨ (name.getD []).headD 0 > 90)
  · rw [if_pos hn] at h
    simp only [Prod.mk.injEq, true_and] at h; exact h.symm
  · rw [if_neg hn] at h
    by_cases ha : avatar ≠ 0 ∧ ¬ ((avatar ≥ 65 ∧ avatar ≤ 90) ∨ (avatar ≥ 97 ∧ avatar ≤ 122))
    · rw [if_pos ha] at h
      simp only [Prod.mk.injEq, true_and] at h; exact h.symm
    · rw [if_neg ha] at h
      generalize hrn : (if name.isSome ∧ (name.getD []).headD 0 ≠ 0 then name.getD []
        else Anonymous) = rn at h ⊢
      by_cases h3 : IS_AVATAR (player_login_real_avatar w avatar name rn) = true
      · rw [if_neg (not_not.mpr h3)] at h
        simp at h
      · rw [if_pos h3] at h
        simp only [Prod.mk.injEq, true_and] at h; exact h.symm

/-- The avatar selection ends with a letter exactly when some slot is free. -/
theorem player_login_real_avatar_isAvatar_iff (w : World) (avatar : OBJECT)
    (name : Option (List Nat)) (real_name : List Nat) :
    IS_AVATAR (player_login_real_avatar w avatar name real_name) = true ↔
      ∃ i, i < 26 ∧ w.getPlayer i = none := by
  constructor
  · intro h
    have hfree := player_login_real_avatar_free w avatar name real_name h
    have h' := (IS_AVATAR_iff _).mp h
    refine ⟨_, ?_, hfree⟩
    unfold OBJECT at *
    omega
  · rintro ⟨i, hi, hfree⟩
    unfold player_login_real_avatar
    simp only
    generalize (if avatar ≥ 97 ∧ avatar ≤ 122 then avatar - 32 else avatar) = req
    generalize (if name.isSome ∧ (name.getD []).headD 0 ≠ 0 then real_name.headD 0 else 0)
      = first
    by_cases h1 : IS_AVATAR req = true ∧ (w.getPlayer (req - 65)).isNone
    · rw [if_pos h1]; exact h1.1
    · rw [if_neg h1]
      by_cases h2 : IS_AVATAR first = true ∧ (w.getPlayer (first - 65)).isNone
      · rw [if_pos h2]; exact h2.1
      · rw [if_neg h2, valid_avatars_eq]
        obtain ⟨hs, hn⟩ := find?_range_spec
          (fun potential_avatar => (w.getPlayer (potential_avatar - 65)).isNone) 26 65
        cases hf : (List.range' 65 26).find?
            (fun potential_avatar => (w.getPlayer (potential_avatar - 65)).isNone) with
        | none =>
          have := hn hf (i + 65) (by omega) (by omega)
          simp only [Nat.add_sub_cancel] at this
          rw [hfree] at this
          exact absurd this (by decide)
        | some a =>
          obtain ⟨ha1, ha2, _, _⟩ := hs a hf
          rw [Option.getD_some, IS_AVATAR_iff]
          unfold OBJECT at *
          omega

/-- For a name that passes the name test, `player_login` returns NULL exactly when
the requested byte is neither 0 nor a letter, or no slot is free. -/
theorem player_login_none_iff (w : World) (clientfd : Int) (avatar : OBJECT)
    (name : Option (List Nat)) (self : Nat)
    (hname : ¬ (name.isSome ∧ (name.getD []).headD 0 ≠ 0 ∧
      ((name.getD []).headD 0 < 65 ∨ (name.getD []).headD 0 > 90))) :
    (player_login w clientfd avatar name self).1 = none ↔
      ((avatar ≠ 0 ∧ ¬ ((65 ≤ avatar ∧ avatar ≤ 90) ∨ (97 ≤ avatar ∧ avatar ≤ 122))) ∨
        ∀ i, i < 26 → w.getPlayer i ≠ none) := by
  unfold player_login
  simp only
  rw [if_neg hname]
  by_cases ha : avatar ≠ 0 ∧ ¬ ((avatar ≥ 65 ∧ avatar ≤ 90) ∨ (avatar ≥ 97 ∧ avatar ≤ 122))
  · rw [if_pos ha]
    simp only [true_iff]
    left
    exact ha
  · rw [if_neg ha]
    generalize (if name.isSome ∧ (name.getD []).headD 0 ≠ 0 then name.getD []
      else Anonymous) = rn
    have hiff := player_login_real_avatar_isAvatar_iff w avatar name rn
    by_cases h3 : IS_AVATAR (player_login_real_avatar w avatar name rn) = true
    · rw [if_neg (not_not.mpr h3)]
      obtain ⟨i, hi, hfree⟩ := hiff.mp h3
      constructor
      · intro hx
        simp at hx
      · rintro (hx | hx)
        · exact absurd hx ha
        · exact absurd hfree (hx i hi)
    · rw [if_pos h3]
      simp only [true_iff]
      right
      intro i hi hfree
      exact h3 (hiff.mpr ⟨i, hi, hfree⟩)

/-- The three stages of the avatar selection, in the order in which they are
tried. -/
theorem player_login_real_avatar_cases (w : World) (avatar : OBJECT)
    (name : Option (List Nat)) (real_name : List Nat) (req first : OBJECT)
    (hreq : req = if avatar ≥ 97 ∧ avatar ≤ 122 then avatar - 32 else avatar)
    (hfirst : first = if name.isSome ∧ (name.getD []).headD 0 ≠ 0 then real_name.headD 0
      else 0) :
    ((IS_AVATAR req = true ∧ w.getPlayer (req - 65) = none) →
      player_login_real_avatar w avatar name real_name = req) ∧
    (¬ (IS_AVATAR req = true ∧ w.getPlayer (req - 65) = none) →
      (IS_AVATAR first = true ∧ w.getPlayer (first - 65) = none) →
      player_login_real_avatar w avatar name real_name = first) ∧
    (¬ (IS_AVATAR req = true ∧ w.getPlayer (req - 65) = none) →
      ¬ (IS_AVATAR first = true ∧ w.getPlayer (first - 65) = none) →
      player_login_real_avatar w avatar name real_name =
        ((List.range' 65 26).find?
          (fun potential_avatar => (w.getPlayer (potential_avatar - 65)).isNone)).getD 0) := by
  unfold player_login_real_avatar
  simp only
  rw [← hreq, ← hfirst, valid_avatars_eq]
  simp only [Option.isNone_iff_eq_none]
  refine ⟨?_, ?_, ?_⟩
  · intro h1
    rw [if_pos h1]
  · intro h1 h2
    rw [if_neg h1, if_pos h2]
  · intro h1 h2
    rw [if_neg h1, if_neg h2]

/-- C11. For every state of the player table and every requested avatar byte:
`player_login` with a non-empty name whose first byte is not an uppercase letter
returns NULL and leaves the whole state, hence all 26 slots, unchanged; with an
absent (NULL) or empty name the name test rejects nothing (the call returns NULL
only for a requested byte that is neither 0 nor a letter, or a full table) and
the record returned carries the display name `"Anonymous"`. -/
theorem player_login_name_policy (w : World) (clientfd : Int) (avatar : OBJECT) (self : Nat) :
    (∀ (c : Nat) (rest : List Nat), c ≠ 0 → (c < 65 ∨ c > 90) →
      player_login w clientfd avatar (some (c :: rest)) self = (none, w)) ∧
    (∀ name : Option (List Nat), (name = none ∨ name = some []) →
      ((player_login w clientfd avatar name self).1 = none ↔
        ((avatar ≠ 0 ∧ ¬ ((65 ≤ avatar ∧ avatar ≤ 90) ∨ (97 ≤ avatar ∧ avatar ≤ 122))) ∨
          ∀ i, i < 26 → w.getPlayer i ≠ none)) ∧
      (∀ p : PLAYER, (player_login w clientfd avatar name self).1 = some p →
        p.name = Anonymous)) := by
  constructor
  · intro c rest hc hbad
    unfold player_login
    simp only
    rw [if_pos]
    exact ⟨rfl, hc, hbad⟩
  · intro name hname
    have hempty : ¬ (name.isSome ∧ (name.getD []).headD 0 ≠ 0) := by
      rcases hname with rfl | rfl <;> simp
    constructor
    · exact player_login_none_iff w clientfd avatar name self (fun hx => hempty ⟨hx.1, hx.2.1⟩)
    · intro p hp
      have hsome := player_login_some w clientfd avatar name self p
        (player_login w clientfd avatar name self).2 (by rw [← hp])
      rw [hsome.2.2.2.2.1, if_neg hempty]

/-- The rejection of the name `"bob"` (first byte `b`, code 98) on the empty
table. -/
theorem player_login_name_policy_witness :
    player_login ⟨demoMaze, players_init, [], []⟩ 7 0 (some [98, 111, 98]) 100
      = (none, ⟨demoMaze, players_init, [], []⟩) :=
  (player_login_name_policy ⟨demoMaze, players_init, [], []⟩ 7 0 100).1 98 [111, 98]
    (by decide) (by decide)

/-- C12. For every state of the player table with at least one free slot, every
name that is absent, empty or begins with an uppercase letter, and every requested
avatar that is 0 or an ASCII letter, `player_login` returns a record, whose avatar
is: (1) the upper-cased requested avatar `L` if the request is the letter `L` (or
its lower-case form `L + 32`) and the slot of `L` is free; else (2) the first byte
of the name if the name is non-empty and the slot of that letter is free; else (3)
the lowest letter of `'A'..'Z'` whose slot is free. -/
theorem player_login_avatar_policy (w : World) (clientfd : Int) (avatar : OBJECT)
    (name : Option (List Nat)) (self : Nat)
    (hfree : ∃ i, i < 26 ∧ w.getPlayer i = none)
    (hname : name = none ∨ name = some [] ∨
      ∃ (c : Nat) (rest : List Nat), name = some (c :: rest) ∧ 65 ≤ c ∧ c ≤ 90)
    (havatar : avatar = 0 ∨ (65 ≤ avatar ∧ avatar ≤ 90) ∨ (97 ≤ avatar ∧ avatar ≤ 122)) :
    ∃ p : PLAYER, (player_login w clientfd avatar name self).1 = some p ∧
      (∀ L : Nat, 65 ≤ L → L ≤ 90 → (avatar = L ∨ avatar = L + 32) →
        w.getPlayer (L - 65) = none → p.avatar = L) ∧
      (¬ (∃ L : Nat, 65 ≤ L ∧ L ≤ 90 ∧ (avatar = L ∨ avatar = L + 32) ∧
            w.getPlayer (L - 65) = none) →
        ∀ (c : Nat) (rest : List Nat), name = some (c :: rest) →
          w.getPlayer (c - 65) = none → p.avatar = c) ∧
      (¬ (∃ L : Nat, 65 ≤ L ∧ L ≤ 90 ∧ (avatar = L ∨ avatar = L + 32) ∧
            w.getPlayer (L - 65) = none) →
        ¬ (∃ (c : Nat) (rest : List Nat), name = some (c :: rest) ∧
            w.getPlayer (c - 65) = none) →
        (65 ≤ p.avatar ∧ p.avatar ≤ 90 ∧ w.getPlayer (p.avatar - 65) = none ∧
          ∀ L : Nat, 65 ≤ L → L < p.avatar → w.getPlayer (L - 65) ≠ none)) := by
  unfold OBJECT at *
  have hname' : ¬ (name.isSome ∧ (name.getD []).headD 0 ≠ 0 ∧
      ((name.getD []).headD 0 < 65 ∨ (name.getD []).headD 0 > 90)) := by
    rcases hname with rfl | rfl | ⟨c, rest, rfl, h1, h2⟩
    · simp
    · simp
    · simp only [Option.isSome_some, Option.getD_some, List.headD_cons, true_and, not_and]
      intro _
      omega
  have hsome : (player_login w clientfd avatar name self).1 ≠ none := by
    intro hx
    rcases (player_login_none_iff w clientfd avatar name self hname').mp hx with hbad | hfull
    · unfold OBJECT at *
      omega
    · obtain ⟨i, hi, hfr⟩ := hfree
      exact hfull i hi hfr
  obtain ⟨p, hp⟩ := Option.ne_none_iff_exists'.mp hsome
  obtain ⟨hletter, hslot, _, _, hpname, hpav⟩ := player_login_some w clientfd avatar name self p
    (player_login w clientfd avatar name self).2 (by rw [← hp])
  obtain ⟨hc1, hc2, hc3⟩ := player_login_real_avatar_cases w avatar name p.name
    (if avatar ≥ 97 ∧ avatar ≤ 122 then avatar - 32 else avatar)
    (if name.isSome ∧ (name.getD []).headD 0 ≠ 0 then p.name.headD 0 else 0) rfl rfl
  rw [← hpav] at hc1 hc2 hc3
  -- the request, upper-cased, is an avatar with a free slot only as described in (1)
  have hreq_back : (IS_AVATAR (if avatar ≥ 97 ∧ avatar ≤ 122 then avatar - 32 else avatar) = true ∧
      w.getPlayer ((if avatar ≥ 97 ∧ avatar ≤ 122 then avatar - 32 else avatar) - 65) = none) →
      ∃ L : Nat, 65 ≤ L ∧ L ≤ 90 ∧ (avatar = L ∨ avatar = L + 32) ∧
        w.getPlayer (L - 65) = none := by
    rintro ⟨h1, h2⟩
    rw [IS_AVATAR_iff] at h1
    refine ⟨_, h1.1, h1.2, ?_, h2⟩
    split <;> omega
  -- the first byte of the name is an avatar with a free slot only as described in (2)
  have hfirst_back : (IS_AVATAR (if name.isSome ∧ (name.getD []).headD 0 ≠ 0 then
        p.name.headD 0 else 0) = true ∧
      w.getPlayer ((if name.isSome ∧ (name.getD []).headD 0 ≠ 0 then p.name.headD 0 else 0)
        - 65) = none) →
      ∃ (c : Nat) (rest : List Nat), name = some (c :: rest) ∧ w.getPlayer (c - 65) = none := by
    rintro ⟨h1, h2⟩
    rcases hname with rfl | rfl | ⟨c, rest, rfl, _, _⟩
    · simp at h1
      exact absurd h1 (by decide)
    · simp at h1
      exact absurd h1 (by decide)
    · have hc0 : c ≠ 0 := by omega
      simp only [Option.isSome_some, Option.getD_some, List.headD_cons, ne_eq, hc0,
        not_false_eq_true, and_self, if_true] at hpname h2
      rw [hpname] at h2
      exact ⟨c, rest, rfl, by simpa using h2⟩
  refine ⟨p, hp, ?_, ?_, ?_⟩
  · intro L hL1 hL2 hav hfr
    have hreq : (if avatar ≥ 97 ∧ avatar ≤ 122 then avatar - 32 else avatar) = L := by
      split <;> omega
    rw [hreq] at hc1
    exact hc1 ⟨(IS_AVATAR_iff L).mpr ⟨hL1, hL2⟩, hfr⟩
  · intro hno1 c rest hnm hfr
    subst hnm
    have hupper : 65 ≤ c ∧ c ≤ 90 := by
      rcases hname with hx | hx | ⟨c', rest', hx, h1, h2⟩
      · simp at hx
      · simp at hx
      · simp only [Option.some.injEq, List.cons.injEq] at hx
        omega
    have hc0 : c ≠ 0 := by omega
    simp only [Option.isSome_some, Option.getD_some, List.headD_cons, ne_eq, hc0,
      not_false_eq_true, and_self, if_true] at hpname hc2
    rw [hpname] at hc2
    simp only [List.headD_cons] at hc2
    exact hc2 (fun hx => hno1 (hreq_back hx)) ⟨(IS_AVATAR_iff c).mpr hupper, hfr⟩
  · intro hno1 hno2
    have hp3 := hc3 (fun hx => hno1 (hreq_back hx)) (fun hx => hno2 (hfirst_back hx))
    obtain ⟨hs, hn⟩ := find?_range_spec
      (fun potential_avatar => (w.getPlayer (potential_avatar - 65)).isNone) 26 65
    cases hf : (List.range' 65 26).find?
        (fun potential_avatar => (w.getPlayer (potential_avatar - 65)).isNone) with
    | none =>
      rw [hf] at hp3
      simp only [Option.getD_none] at hp3
      unfold OBJECT at *
      omega
    | some a =>
      rw [hf] at hp3
      simp only [Option.getD_some] at hp3
      obtain ⟨ha1, ha2, ha3, ha4⟩ := hs a hf
      refine ⟨hletter.1, hletter.2, hslot, ?_⟩
      intro L hL1 hL2
      have hLa : L < a := by
        unfold OBJECT at *
        omega
      have := ha4 L hL1 hLa
      intro hx
      rw [hx] at this
      exact absurd this (by decide)

/-- C12 on the two instances named in the specification: on the empty table an
empty name with requested avatar 0 yields `A`; with only `A` occupied the request
`(0, "Bravo")` yields `B`. -/
theorem player_login_avatar_policy_witness :
    (∃ p : PLAYER, (player_login world0 7 0 (some []) 100).1 = some p ∧ p.avatar = 65) ∧
    (∃ p : PLAYER, (player_login (worldAlice 0) 8 0 (some nameBravo) 101).1 = some p ∧
      p.avatar = 66) := by
  constructor
  · obtain ⟨p, hp, _, _, h3⟩ := player_login_avatar_policy world0 7 0 (some []) 100
      ⟨0, by decide, by decide⟩ (Or.inr (Or.inl rfl)) (Or.inl rfl)
    refine ⟨p, hp, ?_⟩
    obtain ⟨h65, _, _, hlow⟩ := h3 (by rintro ⟨L, h1, _, h2 | h2, _⟩ <;> simp only [OBJECT] at h2 <;> omega)
      (by rintro ⟨c, rest, hx, _⟩; simp at hx)
    by_contra hne
    have hlt : 65 < p.avatar := by
      unfold OBJECT at *
      omega
    exact hlow 65 (le_refl _) hlt (by decide)
  · obtain ⟨p, hp, _, h2, _⟩ := player_login_avatar_policy (worldAlice 0) 8 0
      (some nameBravo) 101 ⟨1, by decide, by decide⟩
      (Or.inr (Or.inr ⟨66, [114, 97, 118, 111], rfl, by decide, by decide⟩)) (Or.inl rfl)
    exact ⟨p, hp, h2 (by rintro ⟨L, h1, _, h2 | h2, _⟩ <;> simp only [OBJECT] at h2 <;> omega) 66 [114, 97, 118, 111] rfl
      (by decide)⟩

/-- C13 (the claim as stated fails). On the empty table a login with the requested
avatar byte `'1'` (49) and no name is rejected although every slot is free: the
rejection is not equivalent to "all 26 slots are occupied". -/
theorem player_login_reject_not_only_full :
    ¬ ((player_login world0 7 49 none 100).1 = none ↔
        ∀ i, i < 26 → world0.getPlayer i ≠ none) := by
  intro h
  exact h.mp (by decide) 0 (by decide) (by decide)

/-- C13 (amended). For every state of the player table, every requested avatar
byte and every name that is absent, empty or begins with an uppercase letter:
`player_login` returns NULL if and only if the requested byte is neither 0 nor an
ASCII letter, or all 26 slots are occupied. -/
theorem player_login_reject_iff (w : World) (clientfd : Int) (avatar : OBJECT)
    (name : Option (List Nat)) (self : Nat)
    (hname : name = none ∨ name = some [] ∨
      ∃ (c : Nat) (rest : List Nat), name = some (c :: rest) ∧ 65 ≤ c ∧ c ≤ 90) :
    (player_login w clientfd avatar name self).1 = none ↔
      ((avatar ≠ 0 ∧ ¬ ((65 ≤ avatar ∧ avatar ≤ 90) ∨ (97 ≤ avatar ∧ avatar ≤ 122))) ∨
        ∀ i, i < 26 → w.getPlayer i ≠ none) := by
  apply player_login_none_iff
  rcases hname with rfl | rfl | ⟨c, rest, rfl, h1, h2⟩
  · simp
  · simp
  · simp only [Option.isSome_some, Option.getD_some, List.headD_cons, true_and, not_and]
    intro _
    omega

/-- The amended C13 on the empty table with the name `"Alice"`: the byte `'1'` is
rejected, the byte `'a'` is not. -/
theorem player_login_reject_iff_witness :
    (player_login world0 7 49 (some nameAlice) 100).1 = none ∧
    (player_login world0 7 97 (some nameAlice) 100).1 ≠ none := by
  have hname : some nameAlice = none ∨ some nameAlice = some [] ∨
      ∃ (c : Nat) (rest : List Nat), some nameAlice = some (c :: rest) ∧ 65 ≤ c ∧ c ≤ 90 :=
    Or.inr (Or.inr ⟨65, [108, 105, 99, 101], rfl, by decide, by decide⟩)
  constructor
  · exact (player_login_reject_iff world0 7 49 (some nameAlice) 100 hname).mpr
      (Or.inl (by decide))
  · intro hx
    rcases (player_login_reject_iff world0 7 97 (some nameAlice) 100 hname).mp hx with h | h
    · exact absurd h (by decide)
    · exact h 0 (by decide) (by decide)

/-- C15. For every call of `player_login` that returns a record (on a table of 26
slots): the record has refcount 1, gaze EAST, score 0, no cached previous view
(`prev_view` NULL, `prev_depth` 0), a clear `hit_pending` flag and position
(-1, -1), which is outside every maze, so it is not placed; its avatar is a letter
`'A'..'Z'`; the record is published in the slot of its avatar, that slot was free
before the call, every other slot is unchanged, and the maze (as well as the
packets sent and the shutdowns) is unchanged. -/
theorem player_login_record (w : World) (hwf : w.wf) (clientfd : Int) (avatar : OBJECT)
    (name : Option (List Nat)) (self : Nat) (p : PLAYER) (w' : World)
    (h : player_login w clientfd avatar name self = (some p, w')) :
    p.refcount = 1 ∧ p.gaze = EAST ∧ p.score = 0 ∧ p.prev_view = none ∧ p.prev_depth = 0 ∧
    p.hit_pending = 0 ∧ p.row = -1 ∧ p.col = -1 ∧
    (∀ m : Maze, player_get_location m p = none) ∧
    p.fd = clientfd ∧ p.thread_id = self ∧
    (65 ≤ p.avatar ∧ p.avatar ≤ 90) ∧
    w'.getPlayer (p.avatar - 65) = some p ∧
    w.getPlayer (p.avatar - 65) = none ∧
    (∀ j : Nat, j ≠ p.avatar - 65 → w'.getPlayer j = w.getPlayer j) ∧
    w'.maze = w.maze ∧ w'.sent = w.sent ∧ w'.shutdowns = w.shutdowns := by
  obtain ⟨hletter, hfree, hw', hp, _, _⟩ := player_login_some w clientfd avatar name self p w' h
  have hlen : p.avatar - 65 < w.players.length := by
    unfold World.wf NUM_AVATARS at hwf
    unfold OBJECT at *
    omega
  have hrow : p.row = -1 := by rw [hp]
  have hcol : p.col = -1 := by rw [hp]
  refine ⟨by rw [hp], by rw [hp], by rw [hp], by rw [hp], by rw [hp], by rw [hp], hrow, hcol,
    ?_, by rw [hp], by rw [hp], hletter, ?_, hfree, ?_, ?_, ?_, ?_⟩
  · intro m
    unfold player_get_location
    simp only
    rw [if_pos (by omega)]
  · rw [hw']
    exact getPlayer_setSlot_self w _ _ hlen
  · intro j hj
    rw [hw']
    exact getPlayer_setSlot_ne w _ _ _ (Ne.symm hj)
  · rw [hw']; rfl
  · rw [hw']; rfl
  · rw [hw']; rfl

/-- The login of Alice on the empty table: the record is published in slot 0. -/
theorem player_login_record_witness :
    world0.wf ∧
    (player_login world0 7 65 (some nameAlice) 100).2.getPlayer 0
      = (player_login world0 7 65 (some nameAlice) 100).1 ∧
    (player_login world0 7 65 (some nameAlice) 100).2.maze = world0.maze := by
  have hlogin : player_login world0 7 65 (some nameAlice) 100
      = (some { avatar := 65, name := nameAlice, fd := 7, row := -1, col := -1, gaze := EAST,
                score := 0, prev_view := none, prev_depth := 0, refcount := 1,
                thread_id := 100, hit_pending := 0 },
          (player_login world0 7 65 (some nameAlice) 100).2) := by decide
  have h := player_login_record world0 (by decide) 7 65 (some nameAlice) 100 _ _ hlogin
  refine ⟨by decide, ?_, h.2.2.2.2.2.2.2.2.2.2.2.2.2.2.2.1⟩
  rw [hlogin]
  exact h.2.2.2.2.2.2.2.2.2.2.2.2.1

/-! ## Sending packets -/

theorem player_send_packet_eq (w : World) (player : PLAYER) (pkt : MZW_PACKET)
    (data : Option (List Nat)) :
    player_send_packet w player pkt data
      = w.addSent [⟨player.fd, pkt,
          if pkt.size > 0 then data.map (fun bytes => bytes.take pkt.size) else none⟩] := rfl

theorem addSent_nil (w : World) : w.addSent [] = w := by
  unfold World.addSent
  simp

theorem addSent_addSent (w : World) (a b : List SentPacket) :
    (w.addSent a).addSent b = w.addSent (a ++ b) := by
  unfold World.addSent
  simp

theorem getPlayer_addSent (w : World) (l : List SentPacket) (i : Nat) :
    (w.addSent l).getPlayer i = w.getPlayer i := rfl

theorem foldl_addSent {α : Type} (g : α → List SentPacket) :
    ∀ (l : List α) (w : World),
      l.foldl (fun acc x => acc.addSent (g x)) w = w.addSent (l.flatMap g) := by
  intro l
  induction l with
  | nil => intro w; simp [addSent_nil]
  | cons x t ih =>
    intro w
    rw [List.foldl_cons, ih, addSent_addSent, List.flatMap_cons]

theorem toU8_natCast (k : Nat) (h : k < 256) : toU8 (k : Int) = k := by
  unfold toU8
  omega

/-- Inside the range of `int` an arithmetic result is stored as it is. -/
theorem wrapInt_of_range (x : Int) (h1 : INT_MIN ≤ x) (h2 : x ≤ INT_MAX) : wrapInt x = x := by
  unfold INT_MIN at h1
  unfold INT_MAX at h2
  unfold wrapInt
  omega

/-- The value of an `int` is always inside the range of the type. -/
theorem wrapInt_range (x : Int) : INT_MIN ≤ wrapInt x ∧ wrapInt x ≤ INT_MAX := by
  unfold INT_MIN INT_MAX wrapInt
  omega

/-- The low byte of an `int` does not depend on the wrap-around. -/
theorem toU8_wrapInt (x : Int) : toU8 (wrapInt x) = toU8 x := by
  unfold toU8 wrapInt
  congr 1
  omega

/-- Row by row and column by column is the same order as cell number by cell
number, cell `k` being row `k / 3`, column `k % 3`. -/
theorem flatMap_rows_cols {β : Type} (G : Nat → Nat → List β) (n : Nat) :
    (List.range n).flatMap (fun d => (List.range 3).flatMap (fun wi => G d wi))
      = (List.range (3 * n)).flatMap (fun k => G (k / 3) (k % 3)) := by
  have hr : List.range 3 = [0, 1, 2] := by decide
  simp only [hr, List.flatMap_cons, List.flatMap_nil, List.append_nil]
  induction n with
  | zero => simp
  | succ n ih =>
    have h3 : 3 * (n + 1) = 3 * n + 1 + 1 + 1 := by omega
    have e0 : 3 * n / 3 = n := by omega
    have e1 : (3 * n + 1) / 3 = n := by omega
    have e2 : (3 * n + 1 + 1) / 3 = n := by omega
    have m0 : 3 * n % 3 = 0 := by omega
    have m1 : (3 * n + 1) % 3 = 1 := by omega
    have m2 : (3 * n + 1 + 1) % 3 = 2 := by omega
    rw [List.range_succ, List.flatMap_append, ih, h3, List.range_succ, List.range_succ,
      List.range_succ]
    simp only [List.flatMap_append, List.flatMap_cons, List.flatMap_nil, List.append_nil,
      e0, e1, e2, m0, m1, m2, List.append_assoc]

theorem flatMap_ite_singleton {α β : Type} (c : α → Prop) [DecidablePred c] (h : α → β)
    (l : List α) :
    l.flatMap (fun k => if c k then [] else [h k]) = (l.filter (fun k => ¬ c k)).map h := by
  induction l with
  | nil => simp
  | cons x t ih =>
    rw [List.flatMap_cons, ih, List.filter_cons]
    by_cases hc : c x <;> simp [hc]

theorem flatMap_singleton_map {α β : Type} (h : α → β) (l : List α) :
    l.flatMap (fun k => [h k]) = l.map h := by
  induction l with
  | nil => simp
  | cons x t ih => rw [List.flatMap_cons, ih]; simp

/-! ## `player_update_view` -/

theorem ite_addSent (c : Prop) [Decidable c] (w : World) (l : List SentPacket) :
    (if c then w else w.addSent l) = w.addSent (if c then [] else l) := by
  by_cases hc : c <;> simp [hc, addSent_nil]

theorem maze_get_view_length (m : Maze) (row col : Int) (gaze : Nat) (depth : Int) :
    (maze_get_view m row col gaze depth).view.length
      = (maze_get_view m row col gaze depth).distance ∧
    (maze_get_view m row col gaze depth).distance ≤ depth.toNat := by
  unfold maze_get_view
  obtain ⟨h1, h2, _, _⟩ := maze_get_view_loop_spec m row col gaze depth.toNat 0 _ rfl
  omega

/-- The view computed afresh has as many rows as the depth returned, and that
depth is at most `VIEW_DEPTH`. -/
theorem player_fresh_view_length (VIEW_DEPTH : Nat) (m : Maze) (player : PLAYER)
    (uninit : Int × Int) :
    (player_fresh_view VIEW_DEPTH m player uninit).view.length
      = (player_fresh_view VIEW_DEPTH m player uninit).distance ∧
    (player_fresh_view VIEW_DEPTH m player uninit).distance ≤ VIEW_DEPTH := by
  unfold player_fresh_view
  split
  · rename_i l _
    have := maze_get_view_length m l.1 l.2.1 player.gaze (VIEW_DEPTH : Int)
    simpa using this
  · have := maze_get_view_length m uninit.1 uninit.2 player.gaze (VIEW_DEPTH : Int)
    simpa using this

/-- The function `player_update_view` as one step: the packets of its two loops
are appended to the connection log, and the cached view of the record is
replaced. -/
theorem player_update_view_eq (VIEW_DEPTH : Nat) (w : World) (i : Nat) (uninit : Int × Int)
    (player : PLAYER) (hp : w.getPlayer i = some player) :
    player_update_view VIEW_DEPTH w i uninit =
      (w.addSent
        (if (player.prev_view.isNone || player.prev_depth !=
              ((player_fresh_view VIEW_DEPTH w.maze player uninit).distance : Int)) = true then
          clearPacket player.fd ::
            (List.range (player_fresh_view VIEW_DEPTH w.maze player uninit).distance).flatMap
              (fun d => (List.range 3).flatMap (fun wi =>
                [(⟨player.fd, ⟨.MZW_SHOW_PKT,
                    (viewAt (player_fresh_view VIEW_DEPTH w.maze player uninit).view d wi).getD 0,
                    toU8 wi, toU8 d, 0⟩, none⟩ : SentPacket)]))
        else
          (List.range (player_fresh_view VIEW_DEPTH w.maze player uninit).distance).flatMap
            (fun d => (List.range 3).flatMap (fun wi =>
              if (viewAt (player_fresh_view VIEW_DEPTH w.maze player uninit).view d wi).getD 0
                  = (if (d : Int) < player.prev_depth then
                      (viewAt (player.prev_view.getD []) d wi).getD 0 else 0) then []
              else
                [(⟨player.fd, ⟨.MZW_SHOW_PKT,
                    (viewAt (player_fresh_view VIEW_DEPTH w.maze player uninit).view d wi).getD 0,
                    toU8 wi, toU8 d, 0⟩, none⟩ : SentPacket)])))).modifyPlayer i
        (fun p => { p with
          prev_view := some (player_fresh_view VIEW_DEPTH w.maze player uninit).view,
          prev_depth := ((player_fresh_view VIEW_DEPTH w.maze player uninit).distance : Int) }) := by
  have hres : player_fresh_view VIEW_DEPTH w.maze player uninit
      = maze_get_view w.maze
          (match player_get_location w.maze player with
            | some l => l.1
            | none => uninit.1)
          (match player_get_location w.maze player with
            | some l => l.2.1
            | none => uninit.2) player.gaze (VIEW_DEPTH : Int) := by
    unfold player_fresh_view
    cases player_get_location w.maze player <;> rfl
  rw [hres]
  unfold player_update_view
  rw [hp]
  simp only [player_send_packet_eq, VIEW_WIDTH, gt_iff_lt, lt_self_iff_false, if_false,
    ite_addSent, foldl_addSent, clearPacket]
  congr 1
  split
  · rw [addSent_addSent]
    rfl
  · rfl

/-- C19. For every published player and the view `V` of depth `n` computed afresh
for it (with `VIEW_DEPTH ≤ 256`, so that a depth fits the one-byte field `param3`):
if the record has no cached previous view or the cached depth differs from `n`,
`player_update_view` sends on the player's connection exactly CLEAR followed by the
`3 * n` SHOW packets of the cells `(d, w)` in row-major order, each with
`param1 = V[d][w]`, `param2 = w`, `param3 = d`; otherwise it sends, in row-major
order, a SHOW packet for exactly the cells whose value in `V` differs from the
cached one, and no CLEAR. In both cases the cached view afterwards is `V` with
cached depth `n`, `V` has `n` rows, and nothing else in the record changes. -/
theorem player_update_view_spec (VIEW_DEPTH : Nat) (hdepth : VIEW_DEPTH ≤ 256) (w : World)
    (i : Nat) (uninit : Int × Int) (player : PLAYER) (hp : w.getPlayer i = some player) :
    ((player.prev_view = none ∨
        player.prev_depth ≠ ((player_fresh_view VIEW_DEPTH w.maze player uninit).distance : Int)) →
      (player_update_view VIEW_DEPTH w i uninit).sent
        = w.sent ++ fullUpdatePackets player.fd
            (player_fresh_view VIEW_DEPTH w.maze player uninit).view
            (player_fresh_view VIEW_DEPTH w.maze player uninit).distance) ∧
    (∀ cached : List (List OBJECT), player.prev_view = some cached →
      player.prev_depth = ((player_fresh_view VIEW_DEPTH w.maze player uninit).distance : Int) →
      (player_update_view VIEW_DEPTH w i uninit).sent
        = w.sent ++ diffPackets player.fd
            (player_fresh_view VIEW_DEPTH w.maze player uninit).view cached
            (player_fresh_view VIEW_DEPTH w.maze player uninit).distance) ∧
    (∃ p' : PLAYER, (player_update_view VIEW_DEPTH w i uninit).getPlayer i = some p' ∧
      p'.prev_view = some (player_fresh_view VIEW_DEPTH w.maze player uninit).view ∧
      p'.prev_depth = ((player_fresh_view VIEW_DEPTH w.maze player uninit).distance : Int) ∧
      p'.core = player.core) ∧
    (player_fresh_view VIEW_DEPTH w.maze player uninit).view.length
      = (player_fresh_view VIEW_DEPTH w.maze player uninit).distance := by
  obtain ⟨hlen, hle⟩ := player_fresh_view_length VIEW_DEPTH w.maze player uninit
  rw [player_update_view_eq VIEW_DEPTH w i uninit player hp]
  generalize player_fresh_view VIEW_DEPTH w.maze player uninit = res at hlen hle ⊢
  have hshow : ∀ k, k ∈ List.range (3 * res.distance) →
      (⟨player.fd, ⟨.MZW_SHOW_PKT, (viewAt res.view (k / 3) (k % 3)).getD 0,
          toU8 ((k % 3 : Nat) : Int), toU8 ((k / 3 : Nat) : Int), 0⟩, none⟩ : SentPacket)
        = showPacket player.fd res.view (k / 3) (k % 3) := by
    intro k hk
    rw [List.mem_range] at hk
    unfold showPacket
    rw [toU8_natCast _ (by omega), toU8_natCast _ (by omega)]
  refine ⟨?_, ?_, ?_, hlen⟩
  · intro hfull
    have hcond : (player.prev_view.isNone || player.prev_depth != (res.distance : Int)) = true := by
      rcases hfull with h | h
      · rw [h]; rfl
      · simp [h]
    rw [modifyPlayer_sent, if_pos hcond]
    unfold World.addSent fullUpdatePackets
    simp only
    rw [flatMap_rows_cols, flatMap_singleton_map]
    congr 2
    exact List.map_congr_left hshow
  · intro cached hcached hsame
    have hcond : ¬ ((player.prev_view.isNone || player.prev_depth != (res.distance : Int)) = true) := by
      rw [hcached, hsame]
      simp
    rw [modifyPlayer_sent, if_neg hcond]
    unfold World.addSent diffPackets
    simp only
    rw [flatMap_rows_cols, flatMap_ite_singleton]
    congr 1
    rw [hcached, hsame]
    simp only [Option.getD_some]
    have hfilter : (List.range (3 * res.distance)).filter
          (fun k => decide (¬ (viewAt res.view (k / 3) (k % 3)).getD 0 =
            if ((k / 3 : Nat) : Int) < (res.distance : Int) then
              (viewAt cached (k / 3) (k % 3)).getD 0 else 0))
        = (List.range (3 * res.distance)).filter
          (fun k => decide ((viewAt res.view (k / 3) (k % 3)).getD 0 ≠
            (viewAt cached (k / 3) (k % 3)).getD 0)) := by
      apply List.filter_congr
      intro k hk
      rw [List.mem_range] at hk
      rw [if_pos (by omega)]
    rw [hfilter]
    apply List.map_congr_left
    intro k hk
    exact hshow k (List.mem_of_mem_filter hk)
  · refine ⟨{ player with prev_view := some res.view, prev_depth := (res.distance : Int) },
      ?_, rfl, rfl, rfl⟩
    rw [getPlayer_modifyPlayer, if_pos rfl, getPlayer_addSent, hp]
    rfl

set_option maxRecDepth 100000 in
/-- C19 at two states of the duel, for Alice at (1,1) facing EAST with Bravo two
cells ahead, where the fresh view has depth 3. In `worldDuel 0` her cached view
has depth 4: the update sends CLEAR and the 9 SHOW packets of the fresh view in
row-major order. In `worldDuelStale` her cached view has depth 3 and differs from
the fresh one in the cell (depth 2, column 1) only: the update sends the one SHOW
packet of that cell and no CLEAR. In both the cache afterwards is the fresh view
with depth 3. -/
theorem player_update_view_spec_witness :
    (4 : Nat) ≤ 256 ∧ (worldDuel 0).getPlayer 0 = some (recAlice 0) ∧
    (recAlice 0).prev_depth
      ≠ ((player_fresh_view 4 (worldDuel 0).maze (recAlice 0) (0, 0)).distance : Int) ∧
    (player_update_view 4 (worldDuel 0) 0 (0, 0)).sent
      = (worldDuel 0).sent ++ fullUpdatePackets (recAlice 0).fd
          (player_fresh_view 4 (worldDuel 0).maze (recAlice 0) (0, 0)).view
          (player_fresh_view 4 (worldDuel 0).maze (recAlice 0) (0, 0)).distance ∧
    (worldDuel 0).sent ++ fullUpdatePackets (recAlice 0).fd
          (player_fresh_view 4 (worldDuel 0).maze (recAlice 0) (0, 0)).view
          (player_fresh_view 4 (worldDuel 0).maze (recAlice 0) (0, 0)).distance
      = [⟨7, ⟨.MZW_CLEAR_PKT, 0, 0, 0, 0⟩, none⟩,
         ⟨7, ⟨.MZW_SHOW_PKT, 35, 0, 0, 0⟩, none⟩, ⟨7, ⟨.MZW_SHOW_PKT, 65, 1, 0, 0⟩, none⟩,
         ⟨7, ⟨.MZW_SHOW_PKT, 32, 2, 0, 0⟩, none⟩, ⟨7, ⟨.MZW_SHOW_PKT, 35, 0, 1, 0⟩, none⟩,
         ⟨7, ⟨.MZW_SHOW_PKT, 32, 1, 1, 0⟩, none⟩, ⟨7, ⟨.MZW_SHOW_PKT, 32, 2, 1, 0⟩, none⟩,
         ⟨7, ⟨.MZW_SHOW_PKT, 35, 0, 2, 0⟩, none⟩, ⟨7, ⟨.MZW_SHOW_PKT, 66, 1, 2, 0⟩, none⟩,
         ⟨7, ⟨.MZW_SHOW_PKT, 32, 2, 2, 0⟩, none⟩] ∧
    (player_update_view 4 worldDuelStale 0 (0, 0)).sent
      = worldDuelStale.sent ++ diffPackets 7
          (player_fresh_view 4 (worldDuel 0).maze (recAlice 0) (0, 0)).view
          [[35, 65, 32], [35, 32, 32], [35, 67, 32]]
          (player_fresh_view 4 (worldDuel 0).maze (recAlice 0) (0, 0)).distance ∧
    worldDuelStale.sent ++ diffPackets 7
          (player_fresh_view 4 (worldDuel 0).maze (recAlice 0) (0, 0)).view
          [[35, 65, 32], [35, 32, 32], [35, 67, 32]]
          (player_fresh_view 4 (worldDuel 0).maze (recAlice 0) (0, 0)).distance
      = [⟨7, ⟨.MZW_SHOW_PKT, 66, 1, 2, 0⟩, none⟩] ∧
    (∃ p' : PLAYER, (player_update_view 4 (worldDuel 0) 0 (0, 0)).getPlayer 0 = some p' ∧
      p'.prev_view = some [[35, 65, 32], [35, 32, 32], [35, 66, 32]] ∧ p'.prev_depth = 3) :=
  have hfull := player_update_view_spec 4 (by decide) (worldDuel 0) 0 (0, 0) (recAlice 0)
    (by decide)
  have hdiff := player_update_view_spec 4 (by decide) worldDuelStale 0 (0, 0)
    { recAlice 0 with
      prev_view := some [[35, 65, 32], [35, 32, 32], [35, 67, 32]], prev_depth := 3 }
    (by decide)
  ⟨by decide, by decide, by decide, hfull.1 (Or.inr (by decide)), by decide,
    hdiff.2.1 [[35, 65, 32], [35, 32, 32], [35, 67, 32]] rfl (by decide), by decide,
    by
      obtain ⟨p', h1, h2, h3, _⟩ := hfull.2.2.1
      refine ⟨p', h1, ?_, ?_⟩
      · rw [h2]
        decide
      · rw [h3]
        decide⟩

/-! ## Broadcasts -/

/-- The loop that sends one packet to every published player: the packets go out in
slot order, one per occupied slot, on the connection of the record in the slot. -/
theorem foldl_broadcast (pkt : MZW_PACKET) (data : Option (List Nat)) :
    ∀ (l : List Nat) (w : World),
      l.foldl (fun acc k => match acc.getPlayer k with
          | some p => player_send_packet acc p pkt data
          | none => acc) w
        = w.addSent (l.filterMap (fun k => (w.getPlayer k).map (fun p =>
            (⟨p.fd, pkt, if pkt.size > 0 then data.map (fun bytes => bytes.take pkt.size)
              else none⟩ : SentPacket)))) := by
  intro l
  induction l with
  | nil => intro w; simp [addSent_nil]
  | cons k t ih =>
    intro w
    rw [List.foldl_cons, List.filterMap_cons]
    cases hk : w.getPlayer k with
    | none =>
      simp only [Option.map_none']
      exact ih w
    | some p =>
      simp only [Option.map_some']
      rw [player_send_packet_eq, ih, addSent_addSent]
      simp only [getPlayer_addSent, List.singleton_append]

/-! ## `player_send_chat` -/

/-- What `player_send_chat` sends for a published player: one CHAT packet per
published player, whose size field is the length of name, `[`, avatar, `] ` and
message reduced modulo 65536, and whose payload is that many leading bytes of the
composed text. -/
theorem player_send_chat_sent (w : World) (i : Nat) (msg : List Nat) (len : Nat)
    (player : PLAYER) (hp : w.getPlayer i = some player) :
    (player_send_chat w i msg len).sent = w.sent ++
      (List.range NUM_AVATARS).filterMap (fun k => (w.getPlayer k).map (fun p =>
        (⟨p.fd, ⟨.MZW_CHAT_PKT, 0, 0, 0, (player.name.length + 4 + len) % 65536⟩,
          if (player.name.length + 4 + len) % 65536 > 0 then
            some ((player.name ++ [91, player.avatar, 93, 32] ++ msg.take len).take
              ((player.name.length + 4 + len) % 65536))
          else none⟩ : SentPacket))) := by
  unfold player_send_chat
  rw [hp]
  simp only
  rw [foldl_broadcast]
  rfl

/-- The nearby statement that does hold: when name, `[`, avatar, `] ` and message
together are at most 65535 bytes long (and at least `len` bytes are given),
`player_send_chat` sends to every published player exactly one CHAT packet whose
payload is `name ++ "[" ++ avatar ++ "] " ++ message` and whose size field is the
length of that payload. -/
theorem player_send_chat_short (w : World) (i : Nat) (msg : List Nat) (len : Nat)
    (player : PLAYER) (hp : w.getPlayer i = some player) (hmsg : msg.length = len)
    (hfit : player.name.length + 4 + len ≤ 65535) :
    (player_send_chat w i msg len).sent = w.sent ++
      (List.range NUM_AVATARS).filterMap (fun k => (w.getPlayer k).map (fun p =>
        (⟨p.fd, ⟨.MZW_CHAT_PKT, 0, 0, 0, player.name.length + 4 + len⟩,
          some (player.name ++ [91, player.avatar, 93, 32] ++ msg)⟩ : SentPacket))) ∧
    (player.name ++ [91, player.avatar, 93, 32] ++ msg).length
      = player.name.length + 4 + len := by
  have hlen : (player.name ++ [91, player.avatar, 93, 32] ++ msg).length
      = player.name.length + 4 + len := by
    simp only [List.length_append, List.length_cons, List.length_nil, hmsg]
  refine ⟨?_, hlen⟩
  rw [player_send_chat_sent w i msg len player hp]
  have hmod : (player.name.length + 4 + len) % 65536 = player.name.length + 4 + len :=
    Nat.mod_eq_of_lt (by omega)
  have htake : msg.take len = msg := by
    rw [← hmsg]; exact List.take_length msg
  rw [hmod, htake, if_pos (by omega), ← hlen, List.take_length]

/-- C20 (the code fails the claim). Alice (name `"Alice"`, avatar `A`, alone on the
server) sends a message of 65535 bytes `h`: the composed text has 65544 bytes, but
the CHAT packet that goes out has the size field 8 and carries only the 8 bytes
`"Alice[A]"`, not the text, and its size field is not the length of the text. -/
theorem player_send_chat_long_message :
    (player_send_chat (worldAlice 0) 0 (List.replicate 65535 104) 65535).sent
      = [⟨7, ⟨.MZW_CHAT_PKT, 0, 0, 0, 8⟩, some [65, 108, 105, 99, 101, 91, 65, 93]⟩] ∧
    (nameAlice ++ [91, 65, 93, 32] ++ List.replicate 65535 104).length = 65544 := by
  constructor
  · rw [player_send_chat_sent (worldAlice 0) 0 _ 65535 (recAlice 0) (by decide)]
    decide
  · rw [List.length_append, List.length_append, List.length_replicate]
    rfl

/-! ## `player_fire_laser` -/

theorem agree_refl {α : Type} (π : PLAYER → α) (w : World) : w.agree π w :=
  fun _ => rfl

theorem agree_trans {α : Type} (π : PLAYER → α) (a b c : World) (h1 : a.agree π b)
    (h2 : b.agree π c) : a.agree π c :=
  fun k => (h2 k).trans (h1 k)

theorem modifyPlayer_agree {α : Type} (π : PLAYER → α) (w : World) (i : Nat)
    (f : PLAYER → PLAYER) (hf : ∀ p, π (f p) = π p) : w.agree π (w.modifyPlayer i f) := by
  intro k
  rw [getPlayer_modifyPlayer]
  split
  · rename_i hk
    rw [hk]
    cases w.getPlayer i with
    | none => rfl
    | some p => simp [hf]
  · rfl

/-- The signal handler changes nothing but one `hit_pending` flag. -/
theorem player_laser_handler_agree (w : World) (me : Nat) :
    w.agree PLAYER.noHit (player_laser_handler w me) ∧
    (player_laser_handler w me).maze = w.maze ∧
    (player_laser_handler w me).sent = w.sent ∧
    (player_laser_handler w me).shutdowns = w.shutdowns ∧
    (player_laser_handler w me).players.length = w.players.length := by
  unfold player_laser_handler
  split
  · exact ⟨modifyPlayer_agree _ w _ _ (fun _ => rfl), modifyPlayer_maze _ _ _,
      modifyPlayer_sent _ _ _, modifyPlayer_shutdowns _ _ _, modifyPlayer_length _ _ _⟩
  · exact ⟨agree_refl _ w, rfl, rfl, rfl, rfl⟩

/-- Taking a reference on the record of a letter, signalling its thread and
dropping the reference again changes, when no published record has reference
count 0, nothing but one `hit_pending` flag. -/
theorem player_fire_laser_victim (w : World) (target : OBJECT)
    (href : ∀ (k : Nat) (q : PLAYER), w.getPlayer k = some q → q.refcount ≠ 0) :
    ∀ w1 : World,
      w1 = (match (player_get w target).1 with
        | some v =>
          match (player_get w target).2.getPlayer v with
          | some victim =>
            player_unref (player_laser_handler (player_get w target).2 victim.thread_id) v
          | none => (player_get w target).2
        | none => (player_get w target).2) →
      w.agree PLAYER.noHit w1 ∧ w1.maze = w.maze ∧ w1.sent = w.sent ∧
        w1.shutdowns = w.shutdowns ∧ w1.players.length = w.players.length := by
  intro w1 hw1
  unfold player_get at hw1
  by_cases hav : IS_AVATAR target = true
  · rw [if_neg (not_not.mpr hav)] at hw1
    cases hv : w.getPlayer (target - 65) with
    | none =>
      rw [hv] at hw1
      simp only at hw1
      rw [hw1]
      exact ⟨agree_refl _ w, rfl, rfl, rfl, rfl⟩
    | some victim0 =>
      rw [hv] at hw1
      simp only at hw1
      have hvlt := getPlayer_lt w _ _ hv
      have hget1 : (player_ref w (target - 65)).getPlayer (target - 65)
          = some { victim0 with refcount := victim0.refcount + 1 } := by
        unfold player_ref
        rw [getPlayer_modifyPlayer, if_pos rfl, hv]
        rfl
      rw [hget1] at hw1
      simp only at hw1
      obtain ⟨hh1, hh2, hh3, hh4, hh5⟩ := player_laser_handler_agree
        (player_ref w (target - 65)) victim0.thread_id
      have href1 : w.agree PLAYER.noHitRef (player_ref w (target - 65)) :=
        modifyPlayer_agree _ w _ _ (fun _ => rfl)
      have hk := hh1 (target - 65)
      rw [hget1] at hk
      cases hv2 : (player_laser_handler (player_ref w (target - 65))
          victim0.thread_id).getPlayer (target - 65) with
      | none =>
        rw [hv2] at hk
        simp at hk
      | some victim2 =>
        rw [hv2] at hk
        simp only [Option.map_some', Option.some.injEq] at hk
        have hrc : victim2.refcount = victim0.refcount + 1 := by
          have := congrArg PLAYER.refcount hk
          simpa [PLAYER.noHit] using this
        have hne : ¬ (victim2.refcount - 1 = 0) := by
          rw [hrc]
          have := href _ _ hv
          omega
        unfold player_unref at hw1
        rw [hv2] at hw1
        simp only at hw1
        rw [if_neg hne] at hw1
        rw [hw1]
        have hlen2 : target - 65 < (player_laser_handler (player_ref w (target - 65))
            victim0.thread_id).players.length := by
          rw [hh5]
          unfold player_ref
          rw [modifyPlayer_length]
          exact hvlt
        refine ⟨?_, ?_, ?_, ?_, ?_⟩
        · intro k
          by_cases hkv : k = target - 65
          · rw [hkv, getPlayer_setSlot_self _ _ _ hlen2, hv]
            simp only [Option.map_some', Option.some.injEq]
            have hk' : victim2.noHit = PLAYER.noHit { victim0 with refcount := victim0.refcount + 1 } := hk
            cases victim2
            cases victim0
            simp only [PLAYER.noHit, PLAYER.mk.injEq] at hk' hrc ⊢
            refine ⟨hk'.1, hk'.2.1, hk'.2.2.1, hk'.2.2.2.1, hk'.2.2.2.2.1, hk'.2.2.2.2.2.1,
              hk'.2.2.2.2.2.2.1, hk'.2.2.2.2.2.2.2.1, hk'.2.2.2.2.2.2.2.2.1, ?_,
              hk'.2.2.2.2.2.2.2.2.2.2.1, trivial⟩
            omega
          · rw [getPlayer_setSlot_ne _ _ _ _ (Ne.symm hkv)]
            have h1 := hh1 k
            unfold player_ref at h1
            rw [getPlayer_modifyPlayer, if_neg hkv] at h1
            exact h1
        · show (player_laser_handler (player_ref w (target - 65)) victim0.thread_id).maze = w.maze
          rw [hh2]
          exact modifyPlayer_maze _ _ _
        · show (player_laser_handler (player_ref w (target - 65)) victim0.thread_id).sent = w.sent
          rw [hh3]
          exact modifyPlayer_sent _ _ _
        · show (player_laser_handler (player_ref w (target - 65)) victim0.thread_id).shutdowns
            = w.shutdowns
          rw [hh4]
          exact modifyPlayer_shutdowns _ _ _
        · show ((player_laser_handler (player_ref w (target - 65)) victim0.thread_id).players.set
            _ _).length = w.players.length
          rw [List.length_set, hh5]
          exact modifyPlayer_length _ _ _
  · rw [if_pos hav] at hw1
    simp only at hw1
    rw [hw1]
    exact ⟨agree_refl _ w, rfl, rfl, rfl, rfl⟩

theorem agree_comp {α β : Type} (π : PLAYER → α) (g : α → β) (w w' : World)
    (h : w.agree π w') : w.agree (fun p => g (π p)) w' := by
  intro k
  have := congrArg (Option.map g) (h k)
  simpa [Option.map_map, Function.comp] using this

/-- For a direction in 0..3 the scan of `maze_find_target` ends. -/
theorem maze_find_target_isSome (m : Maze) (row col : Int) (d : Nat) (hd : d < 4) :
    ∃ o, maze_find_target m row col d = some o := by
  unfold maze_find_target
  apply maze_find_target_loop_some m d hd _ _ _ _ (by omega)
  intro hin
  unfold Maze.inBounds at hin
  unfold rayLen
  interval_cases d <;>
    simp only [dr, dc, List.getD_cons_zero, List.getD_cons_succ] at hin ⊢ <;> omega

theorem player_get_location_placed (m : Maze) (player : PLAYER)
    (h : m.inBounds player.row player.col) :
    player_get_location m player = some (player.row, player.col, player.gaze) := by
  unfold player_get_location
  unfold Maze.inBounds at h
  simp only
  rw [if_neg h]

/-- C18 (amended). For every shooter placed on the maze with a gaze in 0..3 and a
score that is an `int` below `INT_MAX`, in a state where every published record
has a non-zero reference count: `player_fire_laser` returns; if `maze_find_target`
from the shooter's cell along its gaze returns an avatar, the shooter's score
increases by exactly one and every published player (shooter included) is sent
exactly one SCORE packet with `param1` = the shooter's avatar, `param2` = the new
score reduced modulo 256 (the value the one-byte field holds) and size 0; if it
returns no avatar (EMPTY), the state is unchanged, so the score is unchanged and
no packet is sent. In both cases the maze and the avatar, connection, position and
gaze of every player are unchanged. -/
theorem player_fire_laser_spec (w : World) (i : Nat) (player : PLAYER)
    (hp : w.getPlayer i = some player)
    (hplaced : w.maze.inBounds player.row player.col) (hg : player.gaze < 4)
    (hscore_range : INT_MIN ≤ player.score ∧ player.score < INT_MAX)
    (hrefs : ∀ q ∈ w.players, q.map PLAYER.refcount ≠ some 0) :
    ∃ (target : OBJECT) (w' : World),
      maze_find_target w.maze player.row player.col player.gaze = some target ∧
      player_fire_laser w i = some w' ∧
      (IS_AVATAR target = true →
        (w'.getPlayer i).map PLAYER.score = some (player.score + 1) ∧
        w'.sent = w.sent ++ (List.range NUM_AVATARS).filterMap (fun k =>
          (w.getPlayer k).map (fun p =>
            (⟨p.fd, ⟨.MZW_SCORE_PKT, player.avatar, toU8 (player.score + 1), 0, 0⟩, none⟩ :
              SentPacket)))) ∧
      (IS_AVATAR target = false → w' = w) ∧
      w'.maze = w.maze ∧ w.agree PLAYER.place w' := by
  have href : ∀ (k : Nat) (q : PLAYER), w.getPlayer k = some q → q.refcount ≠ 0 := by
    intro k q hq hzero
    have := hrefs (some q) (getPlayer_mem w k q hq)
    simp [hzero] at this
  obtain ⟨target, htarget⟩ := maze_find_target_isSome w.maze player.row player.col
    player.gaze hg
  have hloc := player_get_location_placed w.maze player hplaced
  by_cases hav : IS_AVATAR target = true
  · obtain ⟨hagree, hmaze, hsent, _, hlen⟩ := player_fire_laser_victim w target href _ rfl
    generalize hw1 : (match (player_get w target).1 with
        | some v =>
          match (player_get w target).2.getPlayer v with
          | some victim =>
            player_unref (player_laser_handler (player_get w target).2 victim.thread_id) v
          | none => (player_get w target).2
        | none => (player_get w target).2) = w1 at hagree hmaze hsent hlen
    have hi1 := hagree i
    rw [hp] at hi1
    cases hp1 : w1.getPlayer i with
    | none => rw [hp1] at hi1; simp at hi1
    | some p1 =>
      rw [hp1] at hi1
      simp only [Option.map_some', Option.some.injEq] at hi1
      have hscore : p1.score = player.score := by
        have h := congrArg (fun q : PLAYER => q.score) hi1
        exact h
      have havatar : p1.avatar = player.avatar := by
        have h := congrArg (fun q : PLAYER => q.avatar) hi1
        exact h
      have hme : (w1.modifyPlayer i (fun p => { p with score := wrapInt (p.score + 1) })).getPlayer i
          = some { p1 with score := wrapInt (p1.score + 1) } := by
        rw [getPlayer_modifyPlayer, if_pos rfl, hp1]
        rfl
      have hfire : player_fire_laser w i = some
          ((List.range NUM_AVATARS).foldl
            (fun acc k => match acc.getPlayer k with
              | some p => player_send_packet acc p
                  ⟨.MZW_SCORE_PKT, player.avatar, toU8 (player.score + 1), 0, 0⟩ none
              | none => acc)
            (w1.modifyPlayer i (fun p => { p with score := wrapInt (p.score + 1) }))) := by
        unfold player_fire_laser
        rw [hp]
        simp only
        rw [hloc]
        simp only
        rw [htarget]
        simp only
        rw [if_pos hav, hw1, hme]
        simp only [havatar, hscore, toU8_wrapInt]
      have hfd : w.agree (fun p => p.fd)
          (w1.modifyPlayer i (fun p => { p with score := wrapInt (p.score + 1) })) :=
        agree_trans _ _ _ _ (agree_comp PLAYER.noHit (fun p => p.fd) w w1 hagree)
          (modifyPlayer_agree _ w1 i _ (fun _ => rfl))
      have hplace : w.agree PLAYER.place
          (w1.modifyPlayer i (fun p => { p with score := wrapInt (p.score + 1) })) :=
        agree_trans _ _ _ _ (agree_comp PLAYER.noHit (fun p => PLAYER.place p) w w1 hagree)
          (modifyPlayer_agree _ w1 i _ (fun _ => rfl))
      refine ⟨target, _, htarget, hfire, ?_, ?_, ?_, ?_⟩
      · intro _
        rw [foldl_broadcast]
        refine ⟨?_, ?_⟩
        · rw [getPlayer_addSent, hme]
          have hwrap : wrapInt (player.score + 1) = player.score + 1 := by
            apply wrapInt_of_range
            · unfold INT_MIN at hscore_range ⊢
              omega
            · unfold INT_MAX at hscore_range ⊢
              omega
          simp [hscore, hwrap]
        · unfold World.addSent
          simp only
          rw [modifyPlayer_sent, hsent]
          congr 1
          apply List.filterMap_congr
          intro k _
          have := hfd k
          cases h1 : (w1.modifyPlayer i (fun p => { p with score := wrapInt (p.score + 1) })).getPlayer k
            <;> cases h2 : w.getPlayer k <;> rw [h1, h2] at this <;> simp_all
      · intro hx
        rw [hav] at hx
        exact absurd hx (by decide)
      · rw [foldl_broadcast]
        show (w1.modifyPlayer i _).maze = w.maze
        rw [modifyPlayer_maze, hmaze]
      · rw [foldl_broadcast]
        intro k
        rw [getPlayer_addSent]
        exact hplace k
  · have hfire : player_fire_laser w i = some w := by
      unfold player_fire_laser
      rw [hp]
      simp only
      rw [hloc]
      simp only
      rw [htarget]
      simp only
      rw [if_neg hav]
    exact ⟨target, w, htarget, hfire, fun hx => absurd hx hav, fun _ => rfl, rfl,
      agree_refl _ w⟩

set_option maxRecDepth 100000 in
/-- C18 (the claim as stated fails). Alice, with score 255, fires at Bravo: her
score becomes 256, but the SCORE packets sent to the two players carry
`param2 = 0`, not the new score. And with score `INT_MAX` = 2147483647 her score
after the hit is -2147483648, not one more than before. -/
theorem player_fire_laser_param2_wraps :
    (player_fire_laser (worldDuel 255) 0).map
        (fun w' => ((w'.getPlayer 0).map PLAYER.score,
          w'.sent.map (fun pk => (pk.fd, pk.pkt.type, pk.pkt.param1, pk.pkt.param2))))
      = some (some 256,
          [(7, MZW_PACKET_TYPE.MZW_SCORE_PKT, 65, 0), (8, MZW_PACKET_TYPE.MZW_SCORE_PKT, 65, 0)])
    ∧ maze_find_target (worldDuel 255).maze 1 1 EAST = some 66
    ∧ (player_fire_laser (worldDuel 2147483647) 0).map
        (fun w' => (w'.getPlayer 0).map PLAYER.score)
      = some (some (-2147483648)) := by
  decide

set_option maxRecDepth 100000 in
/-- The amended C18 for Alice firing at Bravo with score 41: the hypotheses hold,
the shot finds Bravo, the call returns, her score is 42, the two players are each
sent one SCORE packet with her avatar and the byte 42, and the maze is
unchanged. -/
theorem player_fire_laser_spec_witness :
    (worldDuel 41).getPlayer 0 = some (recAlice 41) ∧
    (worldDuel 41).maze.inBounds (recAlice 41).row (recAlice 41).col ∧
    (INT_MIN ≤ (recAlice 41).score ∧ (recAlice 41).score < INT_MAX) ∧
    (∃ (target : OBJECT) (w' : World),
      maze_find_target (worldDuel 41).maze (recAlice 41).row (recAlice 41).col
        (recAlice 41).gaze = some target ∧
      IS_AVATAR target = true ∧
      player_fire_laser (worldDuel 41) 0 = some w' ∧
      (w'.getPlayer 0).map PLAYER.score = some 42 ∧
      w'.sent = [⟨7, ⟨.MZW_SCORE_PKT, 65, 42, 0, 0⟩, none⟩,
                 ⟨8, ⟨.MZW_SCORE_PKT, 65, 42, 0, 0⟩, none⟩] ∧
      w'.maze = (worldDuel 41).maze) := by
  refine ⟨by decide, by decide, by decide, ?_⟩
  obtain ⟨target, w', h1, h2, h3, _, h5, _⟩ := player_fire_laser_spec (worldDuel 41) 0
    (recAlice 41) (by decide) (by decide) (by decide) (by decide) (by decide)
  have ht : target = 66 := by
    have h : maze_find_target (worldDuel 41).maze (recAlice 41).row (recAlice 41).col
        (recAlice 41).gaze = some 66 := by decide
    rw [h] at h1
    exact (Option.some.inj h1).symm
  have hav : IS_AVATAR target = true := by rw [ht]; decide
  obtain ⟨hs, hsent⟩ := h3 hav
  refine ⟨target, w', h1, hav, h2, hs, ?_, h5⟩
  rw [hsent]
  decide

/-! ## Steps that leave the maze and the placement of the players alone -/

theorem foldl_rel {α β : Type} (R : β → β → Prop) (hrefl : ∀ b, R b b)
    (htrans : ∀ a b c, R a b → R b c → R a c) (f : β → α → β) (hf : ∀ b a, R b (f b a)) :
    ∀ (l : List α) (b : β), R b (l.foldl f b) := by
  intro l
  induction l with
  | nil => intro b; exact hrefl b
  | cons x t ih =>
    intro b
    rw [List.foldl_cons]
    exact htrans _ _ _ (hf b x) (ih (f b x))

theorem foldl_rel_from {α β : Type} (R : β → β → Prop)
    (htrans : ∀ a b c, R a b → R b c → R a c) (f : β → α → β) (hf : ∀ b a, R b (f b a))
    (l : List α) (a b : β) (hab : R a b) : R a (l.foldl f b) := by
  induction l generalizing b with
  | nil => exact hab
  | cons x t ih =>
    rw [List.foldl_cons]
    exact ih (f b x) (htrans _ _ _ hab (hf b x))

theorem keyEq_refl (w : World) : w.keyEq w := ⟨rfl, rfl, agree_refl _ w⟩

theorem keyEq_trans (a b c : World) (h1 : a.keyEq b) (h2 : b.keyEq c) : a.keyEq c :=
  ⟨h2.1.trans h1.1, h2.2.1.trans h1.2.1, agree_trans _ a b c h1.2.2 h2.2.2⟩

theorem sentExt_refl (w : World) : w.sentExt w := ⟨[], by simp⟩

theorem sentExt_trans (a b c : World) (h1 : a.sentExt b) (h2 : b.sentExt c) : a.sentExt c := by
  obtain ⟨l1, h1⟩ := h1
  obtain ⟨l2, h2⟩ := h2
  exact ⟨l1 ++ l2, by rw [h2, h1, List.append_assoc]⟩

theorem addSent_keyEq (w : World) (l : List SentPacket) : w.keyEq (w.addSent l) :=
  ⟨rfl, rfl, fun _ => rfl⟩

theorem addSent_sentExt (w : World) (l : List SentPacket) : w.sentExt (w.addSent l) :=
  ⟨l, rfl⟩

theorem modifyPlayer_keyEq (w : World) (i : Nat) (f : PLAYER → PLAYER)
    (hf : ∀ p, (f p).key = p.key) : w.keyEq (w.modifyPlayer i f) :=
  ⟨modifyPlayer_maze w i f, modifyPlayer_length w i f, modifyPlayer_agree _ w i f hf⟩

theorem modifyPlayer_sentExt (w : World) (i : Nat) (f : PLAYER → PLAYER) :
    w.sentExt (w.modifyPlayer i f) :=
  ⟨[], by rw [modifyPlayer_sent]; simp⟩

theorem player_send_packet_keyEq (w : World) (player : PLAYER) (pkt : MZW_PACKET)
    (data : Option (List Nat)) : w.keyEq (player_send_packet w player pkt data) :=
  addSent_keyEq w _

theorem player_send_packet_sentExt (w : World) (player : PLAYER) (pkt : MZW_PACKET)
    (data : Option (List Nat)) : w.sentExt (player_send_packet w player pkt data) :=
  addSent_sentExt w _

theorem player_invalidate_view_keyEq (w : World) (i : Nat) :
    w.keyEq (player_invalidate_view w i) :=
  modifyPlayer_keyEq w i _ (fun _ => rfl)

theorem player_invalidate_view_sentExt (w : World) (i : Nat) :
    w.sentExt (player_invalidate_view w i) :=
  modifyPlayer_sentExt w i _

theorem player_update_view_keyEq (VIEW_DEPTH : Nat) (w : World) (i : Nat)
    (uninit : Int × Int) : w.keyEq (player_update_view VIEW_DEPTH w i uninit) := by
  cases hp : w.getPlayer i with
  | none =>
    unfold player_update_view
    rw [hp]
    exact keyEq_refl w
  | some player =>
    rw [player_update_view_eq VIEW_DEPTH w i uninit player hp]
    exact keyEq_trans _ _ _ (addSent_keyEq w _) (modifyPlayer_keyEq _ i _ (fun _ => rfl))

theorem player_update_view_sentExt (VIEW_DEPTH : Nat) (w : World) (i : Nat)
    (uninit : Int × Int) : w.sentExt (player_update_view VIEW_DEPTH w i uninit) := by
  cases hp : w.getPlayer i with
  | none =>
    unfold player_update_view
    rw [hp]
    exact sentExt_refl w
  | some player =>
    rw [player_update_view_eq VIEW_DEPTH w i uninit player hp]
    exact sentExt_trans _ _ _ (addSent_sentExt w _) (modifyPlayer_sentExt _ i _)

theorem update_all_views_keyEq (VIEW_DEPTH : Nat) (w : World) (uninit : Int × Int) :
    w.keyEq (update_all_views VIEW_DEPTH w uninit) := by
  unfold update_all_views
  apply foldl_rel World.keyEq keyEq_refl keyEq_trans
  intro b k
  split
  · exact player_update_view_keyEq VIEW_DEPTH b k uninit
  · exact keyEq_refl b

theorem update_all_views_sentExt (VIEW_DEPTH : Nat) (w : World) (uninit : Int × Int) :
    w.sentExt (update_all_views VIEW_DEPTH w uninit) := by
  unfold update_all_views
  apply foldl_rel World.sentExt sentExt_refl sentExt_trans
  intro b k
  split
  · exact player_update_view_sentExt VIEW_DEPTH b k uninit
  · exact sentExt_refl b

/-- The invariant only depends on the maze and on the avatar, position and
reference count of the records. -/
theorem Inv_keyEq (lifted : Option Nat) (w w' : World) (h : w.keyEq w')
    (hinv : w.Inv lifted) : w'.Inv lifted := by
  obtain ⟨hmaze, hlen, hagree⟩ := h
  obtain ⟨h1, h2, h3, h4⟩ := hinv
  refine ⟨by rw [hmaze]; exact h1, by rw [hlen]; exact h2, ?_, ?_⟩
  · intro k p' hp'
    have hk := hagree k
    rw [hp'] at hk
    cases hp : w.getPlayer k with
    | none => rw [hp] at hk; simp at hk
    | some p =>
      rw [hp] at hk
      simp only [Option.map_some', Option.some.injEq, PLAYER.key, Prod.mk.injEq] at hk
      obtain ⟨e1, e2, e3, e4⟩ := hk
      have := h3 k p hp
      rw [hmaze, e1, e2, e3, e4]
      exact this
  · intro r c hin hav
    rw [hmaze] at hin hav ⊢
    obtain ⟨hl, p, hp, hr, hc⟩ := h4 r c hin hav
    refine ⟨hl, ?_⟩
    have hk := hagree (w.maze.cell r c - 65)
    rw [hp] at hk
    cases hp' : w'.getPlayer (w.maze.cell r c - 65) with
    | none => rw [hp'] at hk; simp at hk
    | some p' =>
      rw [hp'] at hk
      simp only [Option.map_some', Option.some.injEq, PLAYER.key, Prod.mk.injEq] at hk
      obtain ⟨e1, e2, e3, e4⟩ := hk
      exact ⟨p', rfl, by rw [e2]; exact hr, by rw [e3]; exact hc⟩

/-! ## The invariant under the steps that change the maze or the table -/

theorem avatar_ne_EMPTY (k : Nat) : (65 + k : Nat) ≠ EMPTY := by
  unfold EMPTY
  omega

theorem IS_AVATAR_EMPTY : IS_AVATAR EMPTY = false := by decide

theorem getPlayer_setSlot_none (w : World) (i : Nat) : (w.setSlot i none).getPlayer i = none := by
  by_cases hi : i < w.players.length
  · exact getPlayer_setSlot_self w i none hi
  · unfold World.getPlayer World.setSlot
    simp only
    rw [List.getElem?_eq_none (by simpa using hi)]
    rfl

/-- Reading a cell after a write to an in-bounds cell of a rectangular maze. -/
theorem cell_setCell (m : Maze) (hwf : m.wf) (row col : Int) (v : OBJECT)
    (hb : m.inBounds row col) (r c : Int) :
    (m.setCell row col v).cell r c = if r = row ∧ c = col then v else m.cell r c := by
  split
  · rename_i h
    rw [h.1, h.2]
    exact cell_setCell_self m hwf row col v hb
  · rename_i h
    exact cell_setCell_ne m row col v r c h

theorem maze_remove_player_eq (m : Maze) (avatar : OBJECT) (row col : Int) :
    maze_remove_player m avatar row col
      = if m.inBounds row col ∧ m.cell row col = avatar then m.setCell row col EMPTY else m := by
  unfold maze_remove_player Maze.inBounds
  by_cases h : row ≥ 0 ∧ row < (m.maze_rows : Int) ∧ col ≥ 0 ∧ col < (m.maze_cols : Int) ∧
      m.cell row col = avatar
  · rw [if_pos h, if_pos ⟨by omega, h.2.2.2.2⟩]
  · rw [if_neg h, if_neg]
    rintro ⟨h1, h2⟩
    exact h ⟨by omega, by omega, by omega, by omega, h2⟩

/-- A record without a location is not on the maze; taking the invariant to the
form in which slot `i` counts as lifted changes nothing for it. -/
theorem Inv_lift_unplaced (w : World) (i : Nat) (p : PLAYER) (hp : w.getPlayer i = some p)
    (hout : ¬ w.maze.inBounds p.row p.col) (hinv : w.Inv none) : w.Inv (some i) := by
  obtain ⟨h1, h2, h3, h4⟩ := hinv
  refine ⟨h1, h2, ?_, ?_⟩
  · intro k q hq
    obtain ⟨e1, e2, e3⟩ := h3 k q hq
    refine ⟨e1, e2, ?_⟩
    rcases e3 with e3 | e3
    · exact Or.inl e3
    · right
      refine ⟨e3.1, ?_⟩
      have hki : ¬ (some i = some k) := by
        intro hx
        have hik : i = k := Option.some.inj hx
        subst hik
        rw [hp] at hq
        have hpq : p = q := Option.some.inj hq
        subst hpq
        exact hout e3.1
      rw [if_neg hki]
      simpa using e3.2
  · intro r c hin hav
    obtain ⟨_, q, hq, hr, hc⟩ := h4 r c hin hav
    refine ⟨?_, q, hq, hr, hc⟩
    intro hx
    have hik : i = w.maze.cell r c - 65 := Option.some.inj hx
    rw [← hik, hp] at hq
    have hpq : p = q := Option.some.inj hq
    subst hpq
    rw [hr, hc] at hout
    exact hout hin

/-- Taking the avatar of the record in slot `i` off the maze (the call
`maze_remove_player(player->avatar, row, col)` at its location) leads from the
invariant, in either form, to the form in which slot `i` counts as lifted. -/
theorem Inv_lift_remove (w : World) (i : Nat) (p : PLAYER) (hp : w.getPlayer i = some p)
    (hin : w.maze.inBounds p.row p.col) (hinv : w.Inv none ∨ w.Inv (some i)) :
    World.Inv (some i) { w with maze := maze_remove_player w.maze p.avatar p.row p.col } := by
  rw [maze_remove_player_eq]
  rcases hinv with hinv | hinv
  · obtain ⟨h1, h2, h3, h4⟩ := hinv
    obtain ⟨pa, _, ppos⟩ := h3 i p hp
    have hcell : w.maze.cell p.row p.col = p.avatar := by
      rcases ppos with ppos | ppos
      · unfold Maze.inBounds at hin
        omega
      · simpa using ppos.2
    rw [if_pos ⟨hin, hcell⟩]
    refine ⟨setCell_wf _ _ _ _ h1, h2, ?_, ?_⟩
    · intro k q hq
      have hq' : w.getPlayer k = some q := hq
      obtain ⟨e1, e2, e3⟩ := h3 k q hq'
      refine ⟨e1, e2, ?_⟩
      rcases e3 with e3 | e3
      · exact Or.inl e3
      · right
        simp only [if_false, reduceCtorEq] at e3
        refine ⟨(setCell_inBounds _ _ _ _ _ _).mpr e3.1, ?_⟩
        show (w.maze.setCell p.row p.col EMPTY).cell q.row q.col = _
        rw [cell_setCell _ h1 _ _ _ hin]
        by_cases hki : i = k
        · subst hki
          rw [hp] at hq'
          have hpq : p = q := Option.some.inj hq'
          subst hpq
          simp
        · have hne : ¬ (q.row = p.row ∧ q.col = p.col) := by
            rintro ⟨hr, hc⟩
            have hx := e3.2
            rw [hr, hc, hcell, pa, e1] at hx
            have h65 : (65 + i : Nat) = 65 + k := hx
            exact hki (by omega)
          rw [if_neg hne, if_neg (fun hx => hki (Option.some.inj hx))]
          exact e3.2
    · intro r c hin' hav
      have hin2 : w.maze.inBounds r c := (setCell_inBounds _ _ _ _ _ _).mp hin'
      have hcellrc : (w.maze.setCell p.row p.col EMPTY).cell r c
          = if r = p.row ∧ c = p.col then EMPTY else w.maze.cell r c :=
        cell_setCell _ h1 _ _ _ hin r c
      have hav' : IS_AVATAR ((w.maze.setCell p.row p.col EMPTY).cell r c) = true := hav
      show some i ≠ some ((w.maze.setCell p.row p.col EMPTY).cell r c - 65) ∧
        ∃ q : PLAYER, w.getPlayer ((w.maze.setCell p.row p.col EMPTY).cell r c - 65) = some q ∧
          q.row = r ∧ q.col = c
      rw [hcellrc] at hav' ⊢
      by_cases hrc : r = p.row ∧ c = p.col
      · rw [if_pos hrc, IS_AVATAR_EMPTY] at hav'
        exact absurd hav' (by decide)
      · rw [if_neg hrc] at hav' ⊢
        obtain ⟨_, q, hq, hr, hc⟩ := h4 r c hin2 hav'
        refine ⟨?_, q, hq, hr, hc⟩
        intro hx
        have hik : i = w.maze.cell r c - 65 := Option.some.inj hx
        rw [← hik, hp] at hq
        have hpq : p = q := Option.some.inj hq
        subst hpq
        exact hrc ⟨hr.symm, hc.symm⟩
  · obtain ⟨h1, h2, h3, h4⟩ := hinv
    obtain ⟨pa, _, ppos⟩ := h3 i p hp
    have hcell : w.maze.cell p.row p.col = EMPTY := by
      rcases ppos with ppos | ppos
      · unfold Maze.inBounds at hin
        omega
      · simpa using ppos.2
    have hne : ¬ (w.maze.inBounds p.row p.col ∧ w.maze.cell p.row p.col = p.avatar) := by
      rintro ⟨_, hx⟩
      rw [hcell, pa] at hx
      exact avatar_ne_EMPTY i hx.symm
    rw [if_neg hne]
    exact ⟨h1, h2, h3, h4⟩

/-- The two outcomes of `maze_set_player_random`: either it fails, the maze is
unchanged and has no EMPTY cell; or it succeeds, and the maze is changed by
writing the avatar into an in-bounds cell that was EMPTY, whose coordinates are
returned. -/
theorem maze_set_player_random_shape (m : Maze) (avatar : OBJECT) (rand : Nat)
    (rowp colp : Int) :
    ((maze_set_player_random m avatar rand rowp colp).ret ≠ 0 ∧
      (maze_set_player_random m avatar rand rowp colp).maze = m ∧
      ∀ r c : Int, m.inBounds r c → m.cell r c ≠ EMPTY) ∨
    ((maze_set_player_random m avatar rand rowp colp).ret = 0 ∧
      m.inBounds (maze_set_player_random m avatar rand rowp colp).row
        (maze_set_player_random m avatar rand rowp colp).col ∧
      m.cell (maze_set_player_random m avatar rand rowp colp).row
        (maze_set_player_random m avatar rand rowp colp).col = EMPTY ∧
      (maze_set_player_random m avatar rand rowp colp).maze
        = m.setCell (maze_set_player_random m avatar rand rowp colp).row
            (maze_set_player_random m avatar rand rowp colp).col avatar) := by
  unfold maze_set_player_random
  by_cases hdim : m.maze_rows = 0 ∨ m.maze_cols = 0
  · rw [if_pos hdim]
    left
    refine ⟨one_ne_zero, rfl, ?_⟩
    intro r c hin
    unfold Maze.inBounds at hin
    omega
  · rw [if_neg hdim]
    simp only
    by_cases hcount : m.empty_count = 0
    · rw [if_pos hcount]
      left
      refine ⟨one_ne_zero, rfl, ?_⟩
      intro r c hin hempty
      unfold Maze.empty_count at hcount
      rw [List.countP_eq_zero] at hcount
      have := hcount ⟨r, c⟩ ((mem_scanOrder m ⟨r, c⟩).mpr hin)
      simp only [beq_iff_eq] at this
      exact this hempty
    · rw [if_neg hcount]
      right
      have hpick : rand % m.empty_count < m.empties.length := by
        rw [← empty_count_eq_length]
        exact Nat.mod_lt _ (Nat.pos_of_ne_zero hcount)
      obtain ⟨hb, he, _⟩ := empties_getD m (rand % m.empty_count) hpick
      exact ⟨rfl, hb, he, rfl⟩

/-- Placing the lifted record of slot `i`: when the random placement fails the
record was not placed and the invariant holds as it is; when it succeeds, the
invariant holds once the position of the record is set to the cell chosen. -/
theorem Inv_place (w : World) (i : Nat) (p : PLAYER) (hp : w.getPlayer i = some p)
    (rand : Nat) (rowp colp : Int) (hinv : w.Inv (some i)) :
    ((maze_set_player_random w.maze p.avatar rand rowp colp).ret ≠ 0 →
      (maze_set_player_random w.maze p.avatar rand rowp colp).maze = w.maze ∧ w.Inv none) ∧
    ((maze_set_player_random w.maze p.avatar rand rowp colp).ret = 0 →
      World.Inv none
        (({ w with maze := (maze_set_player_random w.maze p.avatar rand rowp colp).maze } :
            World).modifyPlayer i
          (fun q => { q with
            row := (maze_set_player_random w.maze p.avatar rand rowp colp).row,
            col := (maze_set_player_random w.maze p.avatar rand rowp colp).col }))) := by
  obtain ⟨h1, h2, h3, h4⟩ := hinv
  obtain ⟨pa, pref, ppos⟩ := h3 i p hp
  rcases maze_set_player_random_shape w.maze p.avatar rand rowp colp with
    ⟨hret, hmaze, hfull⟩ | ⟨hret, hin, hempty, hmaze⟩
  · refine ⟨fun _ => ⟨hmaze, h1, h2, ?_, ?_⟩, fun hx => absurd hx hret⟩
    · intro k q hq
      obtain ⟨e1, e2, e3⟩ := h3 k q hq
      refine ⟨e1, e2, ?_⟩
      rcases e3 with e3 | e3
      · exact Or.inl e3
      · right
        refine ⟨e3.1, ?_⟩
        by_cases hki : some i = some k
        · rw [if_pos hki] at e3
          exact absurd e3.2 (hfull _ _ e3.1)
        · rw [if_neg hki] at e3
          simpa using e3.2
    · intro r c hin hav
      obtain ⟨_, q, hq, hr, hc⟩ := h4 r c hin hav
      exact ⟨by simp, q, hq, hr, hc⟩
  · refine ⟨fun hx => absurd hret hx, fun _ => ?_⟩
    generalize (maze_set_player_random w.maze p.avatar rand rowp colp).row = nr at hin hempty hmaze ⊢
    generalize (maze_set_player_random w.maze p.avatar rand rowp colp).col = nc at hin hempty hmaze ⊢
    rw [hmaze]
    have hcellrc : ∀ r c : Int, (w.maze.setCell nr nc p.avatar).cell r c
        = if r = nr ∧ c = nc then p.avatar else w.maze.cell r c :=
      cell_setCell _ h1 _ _ _ hin
    have hget : ∀ k, (({ w with maze := w.maze.setCell nr nc p.avatar } : World).modifyPlayer i
        (fun q => { q with row := nr, col := nc })).getPlayer k
        = if k = i then some { p with row := nr, col := nc } else w.getPlayer k := by
      intro k
      rw [getPlayer_modifyPlayer]
      split
      · show Option.map _ (w.getPlayer i) = _
        rw [hp]; rfl
      · rfl
    refine ⟨?_, ?_, ?_, ?_⟩
    · rw [modifyPlayer_maze]
      exact setCell_wf _ _ _ _ h1
    · rw [modifyPlayer_length]
      exact h2
    · intro k q hq
      rw [hget] at hq
      rw [modifyPlayer_maze]
      show q.avatar = 65 + k ∧ q.refcount ≠ 0 ∧
        ((q.row = -1 ∧ q.col = -1) ∨
          ((w.maze.setCell nr nc p.avatar).inBounds q.row q.col ∧
            (w.maze.setCell nr nc p.avatar).cell q.row q.col
              = if (none : Option Nat) = some k then EMPTY else q.avatar))
      by_cases hki : k = i
      · rw [if_pos hki] at hq
        have hq' := Option.some.inj hq
        subst hq'
        subst hki
        refine ⟨pa, pref, Or.inr ⟨(setCell_inBounds _ _ _ _ _ _).mpr hin, ?_⟩⟩
        rw [hcellrc]
        simp
      · rw [if_neg hki] at hq
        obtain ⟨e1, e2, e3⟩ := h3 k q hq
        refine ⟨e1, e2, ?_⟩
        rcases e3 with e3 | e3
        · exact Or.inl e3
        · right
          rw [if_neg (fun hx => hki (Option.some.inj hx).symm)] at e3
          refine ⟨(setCell_inBounds _ _ _ _ _ _).mpr e3.1, ?_⟩
          have hne : ¬ (q.row = nr ∧ q.col = nc) := by
            rintro ⟨hr, hc⟩
            have hx := e3.2
            rw [hr, hc, hempty, e1] at hx
            exact avatar_ne_EMPTY k hx.symm
          rw [hcellrc, if_neg hne]
          simpa using e3.2
    · intro r c hin' hav
      rw [modifyPlayer_maze] at hin' hav ⊢
      have hin2 : w.maze.inBounds r c := (setCell_inBounds _ _ _ _ _ _).mp hin'
      have hav' : IS_AVATAR ((w.maze.setCell nr nc p.avatar).cell r c) = true := hav
      show (none : Option Nat) ≠ some ((w.maze.setCell nr nc p.avatar).cell r c - 65) ∧
        ∃ q : PLAYER, (({ w with maze := w.maze.setCell nr nc p.avatar } : World).modifyPlayer i
          (fun q => { q with row := nr, col := nc })).getPlayer
            ((w.maze.setCell nr nc p.avatar).cell r c - 65) = some q ∧ q.row = r ∧ q.col = c
      rw [hcellrc] at hav' ⊢
      refine ⟨by simp, ?_⟩
      by_cases hrc : r = nr ∧ c = nc
      · rw [if_pos hrc, hget, pa]
        simp only [Nat.add_sub_cancel_left, if_true]
        exact ⟨_, rfl, hrc.1.symm, hrc.2.symm⟩
      · rw [if_neg hrc] at hav' ⊢
        obtain ⟨hl, q, hq, hr, hc⟩ := h4 r c hin2 hav'
        rw [hget, if_neg (fun hx => hl (by rw [hx]))]
        exact ⟨q, hq, hr, hc⟩

/-- Unpublishing the lifted record of slot `i` restores the invariant. -/
theorem Inv_drop (w : World) (i : Nat) (hinv : w.Inv (some i)) :
    (w.setSlot i none).Inv none := by
  obtain ⟨h1, h2, h3, h4⟩ := hinv
  refine ⟨h1, by simpa [World.setSlot] using h2, ?_, ?_⟩
  · intro k q hq
    by_cases hki : k = i
    · rw [hki, getPlayer_setSlot_none] at hq
      exact absurd hq (by simp)
    · rw [getPlayer_setSlot_ne _ _ _ _ (Ne.symm hki)] at hq
      obtain ⟨e1, e2, e3⟩ := h3 k q hq
      refine ⟨e1, e2, ?_⟩
      rw [if_neg (fun hx => hki (Option.some.inj hx).symm)] at e3
      simpa using e3
  · intro r c hin hav
    have hm : (w.setSlot i none).maze = w.maze := rfl
    rw [hm] at hin hav ⊢
    obtain ⟨hl, q, hq, hr, hc⟩ := h4 r c hin hav
    refine ⟨by simp, q, ?_, hr, hc⟩
    rw [getPlayer_setSlot_ne _ _ _ _ (fun hx => hl (by rw [hx]))]
    exact hq

/-! ## The invariant under the operations -/

theorem player_get_location_unplaced (m : Maze) (player : PLAYER)
    (h : ¬ m.inBounds player.row player.col) : player_get_location m player = none := by
  unfold player_get_location
  unfold Maze.inBounds at h
  simp only
  rw [if_pos (not_not.mp h)]

theorem player_reset_updates_keyEq (VIEW_DEPTH : Nat) (w : World) (i : Nat)
    (uninit : Int × Int) : w.keyEq (player_reset_updates VIEW_DEPTH w i uninit) := by
  unfold player_reset_updates
  simp only
  apply foldl_rel_from World.keyEq keyEq_trans
  · intro b k
    split
    · split
      · exact keyEq_refl b
      · exact player_send_packet_keyEq _ _ _ _
    · exact keyEq_refl b
  apply foldl_rel_from World.keyEq keyEq_trans
  · intro b k
    split
    · exact player_send_packet_keyEq _ _ _ _
    · exact keyEq_refl b
  apply foldl_rel_from World.keyEq keyEq_trans
  · intro b k
    split
    · exact keyEq_trans _ _ _ (player_invalidate_view_keyEq b k)
        (player_update_view_keyEq VIEW_DEPTH _ k uninit)
    · exact keyEq_refl b
  exact keyEq_refl w

theorem player_reset_updates_sentExt (VIEW_DEPTH : Nat) (w : World) (i : Nat)
    (uninit : Int × Int) : w.sentExt (player_reset_updates VIEW_DEPTH w i uninit) := by
  unfold player_reset_updates
  simp only
  apply foldl_rel_from World.sentExt sentExt_trans
  · intro b k
    split
    · split
      · exact sentExt_refl b
      · exact player_send_packet_sentExt _ _ _ _
    · exact sentExt_refl b
  apply foldl_rel_from World.sentExt sentExt_trans
  · intro b k
    split
    · exact player_send_packet_sentExt _ _ _ _
    · exact sentExt_refl b
  apply foldl_rel_from World.sentExt sentExt_trans
  · intro b k
    split
    · exact sentExt_trans _ _ _ (player_invalidate_view_sentExt b k)
        (player_update_view_sentExt VIEW_DEPTH _ k uninit)
    · exact sentExt_refl b
  exact sentExt_refl w

/-- With slot `i` empty, the lifted form of the invariant is the invariant. -/
theorem Inv_unlift_empty (w : World) (i : Nat) (hp : w.getPlayer i = none)
    (hinv : w.Inv (some i)) : w.Inv none := by
  obtain ⟨h1, h2, h3, h4⟩ := hinv
  refine ⟨h1, h2, ?_, ?_⟩
  · intro k q hq
    obtain ⟨e1, e2, e3⟩ := h3 k q hq
    refine ⟨e1, e2, ?_⟩
    have hki : ¬ (some i = some k) := by
      intro hx
      rw [Option.some.inj hx, hq] at hp
      exact absurd hp (by simp)
    rw [if_neg hki] at e3
    simpa using e3
  · intro r c hin hav
    obtain ⟨_, q, hq, hr, hc⟩ := h4 r c hin hav
    exact ⟨by simp, q, hq, hr, hc⟩

/-- `player_reset` establishes the invariant, from the invariant or from its form
in which the avatar of the player has already been taken off the maze. -/
theorem player_reset_Inv (VIEW_DEPTH : Nat) (w : World) (i rand : Nat) (uninit : Int × Int)
    (hinv : w.Inv none ∨ w.Inv (some i)) :
    (player_reset VIEW_DEPTH w i rand uninit).Inv none := by
  unfold player_reset
  cases hp : w.getPlayer i with
  | none =>
    simp only
    rcases hinv with h | h
    · exact h
    · exact Inv_unlift_empty w i hp h
  | some p =>
    simp only
    by_cases hin : w.maze.inBounds p.row p.col
    · rw [player_get_location_placed w.maze p hin]
      simp only
      have hw1 := Inv_lift_remove w i p hp hin hinv
      obtain ⟨hfail, hok⟩ := Inv_place
        ({ w with maze := maze_remove_player w.maze p.avatar p.row p.col } : World) i p hp rand
        p.row p.col hw1
      split
      · rename_i hret
        obtain ⟨hm, hi⟩ := hfail hret
        exact Inv_keyEq none _ _ ⟨hm, rfl, fun _ => rfl⟩ hi
      · rename_i hret
        exact Inv_keyEq none _ _ (player_reset_updates_keyEq VIEW_DEPTH _ i uninit)
          (hok (not_not.mp hret))
    · rw [player_get_location_unplaced w.maze p hin]
      simp only
      have hw1 : w.Inv (some i) := by
        rcases hinv with h | h
        · exact Inv_lift_unplaced w i p hp hin h
        · exact h
      obtain ⟨hfail, hok⟩ := Inv_place w i p hp rand uninit.1 uninit.2 hw1
      split
      · rename_i hret
        obtain ⟨hm, hi⟩ := hfail hret
        exact Inv_keyEq none _ _ ⟨hm, rfl, fun _ => rfl⟩ hi
      · rename_i hret
        exact Inv_keyEq none _ _ (player_reset_updates_keyEq VIEW_DEPTH _ i uninit)
          (hok (not_not.mp hret))

/-- The two outcomes of `maze_move` for a direction given by its index: blocked
with the maze unchanged, or a move of the avatar at the origin to the EMPTY
neighbouring cell. -/
theorem maze_move_shape (m : Maze) (row col : Int) (d : Nat) :
    ((maze_move m row col (d : Int)).1 ≠ 0 ∧ (maze_move m row col (d : Int)).2 = m) ∨
    ((maze_move m row col (d : Int)).1 = 0 ∧ m.inBounds row col ∧
      IS_AVATAR (m.cell row col) = true ∧ m.inBounds (row + dr d) (col + dc d) ∧
      m.cell (row + dr d) (col + dc d) = EMPTY ∧
      (maze_move m row col (d : Int)).2
        = (m.setCell row col EMPTY).setCell (row + dr d) (col + dc d) (m.cell row col)) := by
  unfold maze_move
  simp only [Int.toNat_ofNat]
  split
  · exact Or.inl ⟨one_ne_zero, rfl⟩
  · split
    · exact Or.inl ⟨one_ne_zero, rfl⟩
    · split
      · exact Or.inl ⟨one_ne_zero, rfl⟩
      · rename_i h1 h2 h3
        right
        refine ⟨rfl, ?_, ?_, ?_, ?_, rfl⟩
        · unfold Maze.inBounds; intro hx; exact h1 (by tauto)
        · by_contra hx; exact h2 hx
        · unfold Maze.inBounds; intro hx; exact h3 (by tauto)
        · rw [← IS_EMPTY_iff]
          by_contra hx
          exact h3 (by tauto)

/-- A successful move of the placed record of slot `i` keeps the invariant. -/
theorem Inv_move (w : World) (i : Nat) (p : PLAYER) (hp : w.getPlayer i = some p) (d : Nat)
    (hinv : w.Inv none) (hok : (maze_move w.maze p.row p.col (d : Int)).1 = 0) :
    World.Inv none
      (({ w with maze := (maze_move w.maze p.row p.col (d : Int)).2 } : World).modifyPlayer i
        (fun q => { q with row := p.row + dr d, col := p.col + dc d })) := by
  obtain ⟨h1, h2, h3, h4⟩ := hinv
  obtain ⟨pa, pref, ppos⟩ := h3 i p hp
  rcases maze_move_shape w.maze p.row p.col d with ⟨hne, _⟩ | ⟨_, hin, hav, hdin, hdempty, hmaze⟩
  · exact absurd hok hne
  rw [hmaze]
  have hcell : w.maze.cell p.row p.col = p.avatar := by
    rcases ppos with ppos | ppos
    · unfold Maze.inBounds at hin
      omega
    · simpa using ppos.2
  rw [hcell]
  have hwf1 : (w.maze.setCell p.row p.col EMPTY).wf := setCell_wf _ _ _ _ h1
  have hdin1 : (w.maze.setCell p.row p.col EMPTY).inBounds (p.row + dr d) (p.col + dc d) :=
    (setCell_inBounds _ _ _ _ _ _).mpr hdin
  have hcellrc : ∀ r c : Int,
      ((w.maze.setCell p.row p.col EMPTY).setCell (p.row + dr d) (p.col + dc d) p.avatar).cell r c
        = if r = p.row + dr d ∧ c = p.col + dc d then p.avatar
          else if r = p.row ∧ c = p.col then EMPTY else w.maze.cell r c := by
    intro r c
    rw [cell_setCell _ hwf1 _ _ _ hdin1, cell_setCell _ h1 _ _ _ hin]
  have hinb : ∀ r c : Int,
      ((w.maze.setCell p.row p.col EMPTY).setCell (p.row + dr d) (p.col + dc d) p.avatar).inBounds
        r c ↔ w.maze.inBounds r c := by
    intro r c
    rw [setCell_inBounds, setCell_inBounds]
  have hwf2 : ((w.maze.setCell p.row p.col EMPTY).setCell (p.row + dr d) (p.col + dc d)
      p.avatar).wf := setCell_wf _ _ _ _ hwf1
  generalize (w.maze.setCell p.row p.col EMPTY).setCell (p.row + dr d) (p.col + dc d) p.avatar
    = m2 at hcellrc hinb hwf2 ⊢
  have hget : ∀ k, (({ w with maze := m2 } : World).modifyPlayer i
        (fun q => { q with row := p.row + dr d, col := p.col + dc d })).getPlayer k
        = if k = i then some { p with row := p.row + dr d, col := p.col + dc d }
          else w.getPlayer k := by
    intro k
    rw [getPlayer_modifyPlayer]
    split
    · show Option.map _ (w.getPlayer i) = _
      rw [hp]; rfl
    · rfl
  refine ⟨?_, ?_, ?_, ?_⟩
  · rw [modifyPlayer_maze]
    exact hwf2
  · rw [modifyPlayer_length]
    exact h2
  · intro k q hq
    rw [hget] at hq
    rw [modifyPlayer_maze]
    show q.avatar = 65 + k ∧ q.refcount ≠ 0 ∧
      ((q.row = -1 ∧ q.col = -1) ∨
        (m2.inBounds q.row q.col ∧
          m2.cell q.row q.col = if (none : Option Nat) = some k then EMPTY else q.avatar))
    by_cases hki : k = i
    · rw [if_pos hki] at hq
      have hq' := Option.some.inj hq
      subst hq'
      subst hki
      refine ⟨pa, pref, Or.inr ⟨(hinb _ _).mpr hdin, ?_⟩⟩
      rw [hcellrc]
      simp
    · rw [if_neg hki] at hq
      obtain ⟨e1, e2, e3⟩ := h3 k q hq
      refine ⟨e1, e2, ?_⟩
      rcases e3 with e3 | e3
      · exact Or.inl e3
      · right
        simp only [reduceCtorEq, if_false] at e3 ⊢
        refine ⟨(hinb _ _).mpr e3.1, ?_⟩
        have hne1 : ¬ (q.row = p.row + dr d ∧ q.col = p.col + dc d) := by
          rintro ⟨hr, hc⟩
          have hx := e3.2
          rw [hr, hc, hdempty, e1] at hx
          exact avatar_ne_EMPTY k hx.symm
        have hne2 : ¬ (q.row = p.row ∧ q.col = p.col) := by
          rintro ⟨hr, hc⟩
          have hx := e3.2
          rw [hr, hc, hcell, pa, e1] at hx
          have h65 : (65 + i : Nat) = 65 + k := hx
          exact hki (by omega)
        rw [hcellrc, if_neg hne1, if_neg hne2]
        exact e3.2
  · intro r c hin' hav'
    rw [modifyPlayer_maze] at hin' hav' ⊢
    have hin2 : w.maze.inBounds r c := (hinb r c).mp hin'
    have hav2 : IS_AVATAR (m2.cell r c) = true := hav'
    show (none : Option Nat) ≠ some (m2.cell r c - 65) ∧
      ∃ q : PLAYER, (({ w with maze := m2 } : World).modifyPlayer i
        (fun q => { q with row := p.row + dr d, col := p.col + dc d })).getPlayer
          (m2.cell r c - 65) = some q ∧ q.row = r ∧ q.col = c
    rw [hcellrc] at hav2 ⊢
    refine ⟨by simp, ?_⟩
    by_cases hrc : r = p.row + dr d ∧ c = p.col + dc d
    · rw [if_pos hrc, hget, pa]
      simp only [Nat.add_sub_cancel_left, if_true]
      exact ⟨_, rfl, hrc.1.symm, hrc.2.symm⟩
    · rw [if_neg hrc] at hav2 ⊢
      by_cases hrc2 : r = p.row ∧ c = p.col
      · rw [if_pos hrc2, IS_AVATAR_EMPTY] at hav2
        exact absurd hav2 (by decide)
      · rw [if_neg hrc2] at hav2 ⊢
        obtain ⟨_, q, hq, hr, hc⟩ := h4 r c hin2 hav2
        have hki : w.maze.cell r c - 65 ≠ i := by
          intro hx
          rw [hx, hp] at hq
          have hpq : p = q := Option.some.inj hq
          subst hpq
          exact hrc2 ⟨hr.symm, hc.symm⟩
        rw [hget, if_neg hki]
        exact ⟨q, hq, hr, hc⟩

/-- The function `player_move` keeps the invariant. -/
theorem player_move_Inv (VIEW_DEPTH : Nat) (w : World) (i : Nat) (dir : Int)
    (uninit : Int × Int) (hinv : w.Inv none) :
    (player_move VIEW_DEPTH w i dir uninit).2.Inv none := by
  unfold player_move
  cases hp : w.getPlayer i with
  | none => exact hinv
  | some p =>
    simp only
    by_cases hin : w.maze.inBounds p.row p.col
    · rw [player_get_location_placed w.maze p hin]
      simp only
      generalize (if dir = 1 then p.gaze else REVERSE p.gaze) = d
      split
      · rename_i hok
        have hI := Inv_move w i p hp d hinv hok
        dsimp only
        exact Inv_keyEq none _ _ (update_all_views_keyEq VIEW_DEPTH _ uninit) hI
      · rename_i hok
        dsimp only
        rcases maze_move_shape w.maze p.row p.col d with ⟨_, hm⟩ | ⟨h0, _⟩
        · rw [hm]
          exact hinv
        · exact absurd h0 hok
    · rw [player_get_location_unplaced w.maze p hin]
      exact hinv

theorem player_rotate_Inv (VIEW_DEPTH : Nat) (w : World) (i : Nat) (dir : Int)
    (uninit : Int × Int) (hinv : w.Inv none) :
    (player_rotate VIEW_DEPTH w i dir uninit).Inv none := by
  unfold player_rotate
  simp only
  generalize hf : (fun player : PLAYER => { player with
      gaze := if dir = 1 then TURN_LEFT player.gaze else TURN_RIGHT player.gaze }) = f
  have hk : ∀ q : PLAYER, (f q).key = q.key := by
    intro q
    rw [← hf]
    rfl
  have h1 := modifyPlayer_keyEq w i f hk
  have h2 := player_invalidate_view_keyEq (w.modifyPlayer i f) i
  have h3 := player_update_view_keyEq VIEW_DEPTH (player_invalidate_view (w.modifyPlayer i f) i)
    i uninit
  exact Inv_keyEq none _ _ (keyEq_trans _ _ _ h1 (keyEq_trans _ _ _ h2 h3)) hinv

/-- The function `player_logout` keeps the invariant. -/
theorem player_logout_Inv (VIEW_DEPTH : Nat) (w : World) (i : Nat) (uninit : Int × Int)
    (hinv : w.Inv none) : (player_logout VIEW_DEPTH w i uninit).Inv none := by
  unfold player_logout
  cases hp : w.getPlayer i with
  | none => exact hinv
  | some p =>
    simp only
    have pa : p.avatar - 65 = i := by
      have := (hinv.2.2.1 i p hp).1
      unfold OBJECT at *
      omega
    rw [pa]
    apply Inv_drop
    apply Inv_keyEq (some i) _ _ ?_ ?_
    · exact (match player_get_location w.maze p with
        | some l => update_all_views VIEW_DEPTH
            { w with maze := maze_remove_player w.maze p.avatar l.1 l.2.1 } uninit
        | none => w)
    · apply foldl_rel_from World.keyEq keyEq_trans
      · intro b k
        split
        · split
          · exact keyEq_refl b
          · exact player_send_packet_keyEq _ _ _ _
        · exact keyEq_refl b
      · exact keyEq_refl _
    · by_cases hin : w.maze.inBounds p.row p.col
      · rw [player_get_location_placed w.maze p hin]
        simp only
        exact Inv_keyEq (some i) _ _ (update_all_views_keyEq VIEW_DEPTH _ uninit)
          (Inv_lift_remove w i p hp hin (Or.inl hinv))
      · rw [player_get_location_unplaced w.maze p hin]
        exact Inv_lift_unplaced w i p hp hin hinv

/-- The function `player_check_for_laser_hit` keeps the invariant. -/
theorem player_check_for_laser_hit_Inv (VIEW_DEPTH : Nat) (w : World) (i rand : Nat)
    (uninit : Int × Int) (hinv : w.Inv none) :
    (player_check_for_laser_hit VIEW_DEPTH w i rand uninit).Inv none := by
  unfold player_check_for_laser_hit
  cases hp : w.getPlayer i with
  | none => exact hinv
  | some p =>
    simp only
    split
    · apply player_reset_Inv
      have hk1 : w.keyEq (w.modifyPlayer i (fun p => { p with hit_pending := 0 })) :=
        modifyPlayer_keyEq w i _ (fun _ => rfl)
      have hinv1 := Inv_keyEq none _ _ hk1 hinv
      have hp1 : (w.modifyPlayer i (fun p => { p with hit_pending := 0 })).getPlayer i
          = some { p with hit_pending := 0 } := by
        rw [getPlayer_modifyPlayer, if_pos rfl, hp]
        rfl
      generalize w.modifyPlayer i (fun p => { p with hit_pending := 0 }) = w1 at hinv1 hp1 ⊢
      by_cases hin : w1.maze.inBounds p.row p.col
      · rw [player_get_location_placed w1.maze p hin]
        simp only
        right
        apply Inv_keyEq (some i) _ _ (player_send_packet_keyEq _ _ _ _)
        exact Inv_keyEq (some i) _ _ (update_all_views_keyEq VIEW_DEPTH _ uninit)
          (Inv_lift_remove w1 i { p with hit_pending := 0 } hp1 hin (Or.inl hinv1))
      · rw [player_get_location_unplaced w1.maze p hin]
        left
        exact Inv_keyEq none _ _ (player_send_packet_keyEq _ _ _ _) hinv1
    · exact hinv

/-- The function `player_fire_laser`, when its scan ends, keeps the invariant. -/
theorem player_fire_laser_Inv (w w' : World) (i : Nat) (h : player_fire_laser w i = some w')
    (hinv : w.Inv none) : w'.Inv none := by
  unfold player_fire_laser at h
  cases hp : w.getPlayer i with
  | none =>
    rw [hp] at h
    simp only [Option.some.injEq] at h
    rw [← h]; exact hinv
  | some p =>
    rw [hp] at h
    simp only at h
    cases hl : player_get_location w.maze p with
    | none =>
      rw [hl] at h
      simp only [Option.some.injEq] at h
      rw [← h]; exact hinv
    | some l =>
      rw [hl] at h
      simp only at h
      cases ht : maze_find_target w.maze l.1 l.2.1 p.gaze with
      | none =>
        rw [ht] at h
        exact absurd h (by simp)
      | some target =>
        rw [ht] at h
        simp only at h
        by_cases hav : IS_AVATAR target = true
        · rw [if_pos hav] at h
          obtain ⟨ha, hm, _, _, hlen⟩ := player_fire_laser_victim w target
            (fun k q hq => (hinv.2.2.1 k q hq).2.1) _ rfl
          have hk1 := agree_comp PLAYER.noHit PLAYER.key _ _ ha
          have hinv1 := Inv_keyEq none _ _ ⟨hm, hlen, hk1⟩ hinv
          generalize (match (player_get w target).1 with
            | some v =>
              match (player_get w target).2.getPlayer v with
              | some victim =>
                player_unref (player_laser_handler (player_get w target).2 victim.thread_id) v
              | none => (player_get w target).2
            | none => (player_get w target).2) = w1 at h hinv1
          have hinv2 := Inv_keyEq none _ _
            (modifyPlayer_keyEq w1 i (fun p => { p with score := wrapInt (p.score + 1) }) (fun _ => rfl))
            hinv1
          generalize w1.modifyPlayer i (fun p => { p with score := wrapInt (p.score + 1) }) = w2
            at h hinv2
          cases hme : w2.getPlayer i with
          | none =>
            rw [hme] at h
            simp only [Option.some.injEq] at h
            rw [← h]; exact hinv2
          | some me =>
            rw [hme] at h
            simp only [Option.some.injEq] at h
            rw [← h]
            apply Inv_keyEq none _ _ ?_ hinv2
            apply foldl_rel_from World.keyEq keyEq_trans
            · intro b k
              split
              · exact player_send_packet_keyEq _ _ _ _
              · exact keyEq_refl b
            · exact keyEq_refl _
        · rw [if_neg hav] at h
          simp only [Option.some.injEq] at h
          rw [← h]; exact hinv

/-- Publishing a fresh record without a location in the free slot of its letter
keeps the invariant. -/
theorem Inv_publish (w : World) (p : PLAYER) (hav : 65 ≤ p.avatar ∧ p.avatar ≤ 90)
    (hfree : w.getPlayer (p.avatar - 65) = none) (hrow : p.row = -1) (hcol : p.col = -1)
    (href : p.refcount ≠ 0) (hinv : w.Inv none) :
    (w.setSlot (p.avatar - 65) (some p)).Inv none := by
  obtain ⟨h1, h2, h3, h4⟩ := hinv
  have hlt : p.avatar - 65 < w.players.length := by
    rw [h2]
    unfold NUM_AVATARS
    unfold OBJECT at *
    omega
  refine ⟨h1, by simpa [World.setSlot] using h2, ?_, ?_⟩
  · intro k q hq
    by_cases hk : k = p.avatar - 65
    · rw [hk, getPlayer_setSlot_self _ _ _ hlt] at hq
      have hpq : p = q := Option.some.inj hq
      subst hpq
      refine ⟨?_, href, Or.inl ⟨hrow, hcol⟩⟩
      rw [hk]
      unfold OBJECT at *
      omega
    · rw [getPlayer_setSlot_ne _ _ _ _ (Ne.symm hk)] at hq
      exact h3 k q hq
  · intro r c hin hcell
    have hm : (w.setSlot (p.avatar - 65) (some p)).maze = w.maze := rfl
    rw [hm] at hin hcell ⊢
    obtain ⟨e1, q, hq, hr, hc⟩ := h4 r c hin hcell
    refine ⟨e1, q, ?_, hr, hc⟩
    have hne : p.avatar - 65 ≠ w.maze.cell r c - 65 := by
      intro hx
      rw [← hx, hfree] at hq
      exact absurd hq (by simp)
    rw [getPlayer_setSlot_ne _ _ _ _ hne]
    exact hq

/-- The function `player_login` keeps the invariant. -/
theorem player_login_Inv (w : World) (clientfd : Int) (avatar : OBJECT)
    (name : Option (List Nat)) (self : Nat) (hinv : w.Inv none) :
    (player_login w clientfd avatar name self).2.Inv none := by
  cases h : player_login w clientfd avatar name self with
  | mk o w' =>
    cases o with
    | none =>
      rw [player_login_none w clientfd avatar name self w' h]
      exact hinv
    | some p =>
      obtain ⟨hav, hfree, hw, hp, _, _⟩ := player_login_some w clientfd avatar name self p w' h
      show w'.Inv none
      rw [hw]
      refine Inv_publish w p hav hfree ?_ ?_ ?_ hinv
      · rw [hp]
      · rw [hp]
      · rw [hp]; exact one_ne_zero

/-- A stored cell is 0 (the value of the total read outside the grid) or a member
of one of the rows. -/
theorem cell_mem_or_zero (m : Maze) (r c : Int) :
    m.cell r c = 0 ∨ ∃ cells_row ∈ m.maze_cells, m.cell r c ∈ cells_row := by
  unfold Maze.cell Maze.cellAt?
  split
  · exact Or.inl rfl
  · cases hrow : m.maze_cells[r.toNat]? with
    | none => exact Or.inl rfl
    | some cells_row =>
      cases hc : cells_row[c.toNat]? with
      | none =>
        left
        simp [hc]
      | some x =>
        right
        refine ⟨cells_row, List.getElem?_mem hrow, ?_⟩
        simp only [Option.some_bind, hc, Option.getD_some]
        exact List.getElem?_mem hc

/-- The maze built by `maze_init` stores the rows of the template. -/
theorem maze_init_cells (template : List (List OBJECT)) (m : Maze)
    (h : maze_init template = some m) : m.maze_cells = template := by
  unfold maze_init at h
  simp only at h
  split at h
  · rename_i h0
    have := Option.some.inj h
    rw [← this]
    exact (List.length_eq_zero.mp h0).symm
  · split at h
    · exact absurd h (by simp)
    · have := Option.some.inj h
      rw [← this]

/-- The initial state, on a template without avatar letters, has the invariant. -/
theorem init_Inv (template : List (List OBJECT)) (m : Maze)
    (h : maze_init template = some m)
    (hno : ∀ cells_row ∈ template, ∀ c ∈ cells_row, IS_AVATAR c = false) :
    World.Inv none ⟨m, players_init, [], []⟩ := by
  have hget : ∀ k, (⟨m, players_init, [], []⟩ : World).getPlayer k = none := by
    intro k
    unfold World.getPlayer players_init
    simp [List.getElem?_replicate]
  refine ⟨maze_init_wf template m h, ?_, ?_, ?_⟩
  · simp [players_init]
  · intro k p hp
    rw [hget] at hp
    exact absurd hp (by simp)
  · intro r c _ hav
    exfalso
    have hm : (⟨m, players_init, [], []⟩ : World).maze = m := rfl
    rw [hm] at hav
    rcases cell_mem_or_zero m r c with h0 | ⟨cells_row, hmem, hc⟩
    · rw [h0] at hav
      exact absurd hav (by decide)
    · rw [maze_init_cells template m h] at hmem
      rw [hno cells_row hmem _ hc] at hav
      exact absurd hav (by simp)

/-- Every state reached from the initial one by the operations of the player
module has the invariant. -/
theorem reachable_Inv (VIEW_DEPTH : Nat) (w : World) (h : Reachable VIEW_DEPTH w) :
    w.Inv none := by
  induction h with
  | init template m hm hno => exact init_Inv template m hm hno
  | login w clientfd avatar name self _ ih => exact player_login_Inv w clientfd avatar name self ih
  | reset w i rand uninit _ ih => exact player_reset_Inv VIEW_DEPTH w i rand uninit (Or.inl ih)
  | move w i dir uninit _ ih => exact player_move_Inv VIEW_DEPTH w i dir uninit ih
  | rotate w i dir uninit _ ih => exact player_rotate_Inv VIEW_DEPTH w i dir uninit ih
  | fire w w' i _ hf ih => exact player_fire_laser_Inv w w' i hf ih
  | hit w i rand uninit _ ih => exact player_check_for_laser_hit_Inv VIEW_DEPTH w i rand uninit ih
  | logout w i uninit _ ih => exact player_logout_Inv VIEW_DEPTH w i uninit ih

theorem player_reset_sentExt (VIEW_DEPTH : Nat) (w : World) (i rand : Nat)
    (uninit : Int × Int) : w.sentExt (player_reset VIEW_DEPTH w i rand uninit) := by
  unfold player_reset
  cases hp : w.getPlayer i with
  | none => exact sentExt_refl w
  | some p =>
    simp only
    have h1 : w.sentExt (match player_get_location w.maze p with
        | some l => ({ w with maze := maze_remove_player w.maze p.avatar l.1 l.2.1 } : World)
        | none => w) := by
      split
      · exact ⟨[], by simp⟩
      · exact sentExt_refl w
    generalize (match player_get_location w.maze p with
        | some l => ({ w with maze := maze_remove_player w.maze p.avatar l.1 l.2.1 } : World)
        | none => w) = w1 at h1 ⊢
    split
    · exact sentExt_trans _ _ _ h1 ⟨[], by simp⟩
    · refine sentExt_trans _ _ _ h1 (sentExt_trans _ _ _ ?_
        (player_reset_updates_sentExt VIEW_DEPTH _ i uninit))
      exact sentExt_trans _ ({ w1 with maze := _ } : World) _ ⟨[], by simp⟩
        (modifyPlayer_sentExt _ i _)

/-- C16 (counterexample). The state right after one `player_login` on the initial
state of the 4 x 5 maze is reachable, and its published record in slot `A` has
row and column -1: it is not in bounds. -/
theorem reachable_record_unplaced :
    Reachable 4 (player_login world0 7 65 (some nameAlice) 100).2 ∧
    (player_login world0 7 65 (some nameAlice) 100).2.getPlayer 0
      = some { avatar := 65, name := nameAlice, fd := 7, row := -1, col := -1, gaze := EAST,
               score := 0, prev_view := none, prev_depth := 0, refcount := 1,
               thread_id := 100, hit_pending := 0 } ∧
    ¬ (player_login world0 7 65 (some nameAlice) 100).2.maze.inBounds (-1) (-1) :=
  ⟨Reachable.login world0 7 65 (some nameAlice) 100
      (Reachable.init emptyMaze.maze_cells emptyMaze (by decide) (by decide)),
    by decide, by decide⟩

/-- C16 (amended). In every reachable state every published record either has no
location yet (row and column -1, as set by `player_login` and kept until a
`player_reset` places it) or is in bounds with its avatar in the maze cell at its
row and column. -/
theorem reachable_record_placed_or_unplaced (VIEW_DEPTH : Nat) (w : World)
    (h : Reachable VIEW_DEPTH w) (k : Nat) (p : PLAYER) (hp : w.getPlayer k = some p) :
    (p.row = -1 ∧ p.col = -1) ∨
    (w.maze.inBounds p.row p.col ∧ w.maze.cell p.row p.col = p.avatar) := by
  have h3 := (reachable_Inv VIEW_DEPTH w h).2.2.1 k p hp
  rcases h3.2.2 with h | h
  · exact Or.inl h
  · right
    simpa using h

set_option maxRecDepth 100000 in
/-- C16 (amended), at the state after a login and a reset on the 4 x 5 maze: the
record of slot `A` is in bounds and the maze holds `A` at its location. -/
theorem reachable_record_placed_or_unplaced_witness :
    (player_reset 4 (player_login world0 7 65 (some nameAlice) 100).2 0 0 (0, 0)).getPlayer 0
      = some (recAlice 0) ∧
    (((recAlice 0).row = -1 ∧ (recAlice 0).col = -1) ∨
      ((player_reset 4 (player_login world0 7 65 (some nameAlice) 100).2 0 0 (0, 0)).maze.inBounds
          (recAlice 0).row (recAlice 0).col ∧
        (player_reset 4 (player_login world0 7 65 (some nameAlice) 100).2 0 0 (0, 0)).maze.cell
          (recAlice 0).row (recAlice 0).col = (recAlice 0).avatar)) :=
  have hp : (player_reset 4 (player_login world0 7 65 (some nameAlice) 100).2 0 0
      (0, 0)).getPlayer 0 = some (recAlice 0) := by decide
  ⟨hp, reachable_record_placed_or_unplaced 4 _
    (Reachable.reset _ 0 0 (0, 0)
      (Reachable.login world0 7 65 (some nameAlice) 100
        (Reachable.init emptyMaze.maze_cells emptyMaze (by decide) (by decide))))
    0 (recAlice 0) hp⟩

/-- C17. In every reachable state every occupied slot `i` holds a record whose
avatar is `A` + i, so that two occupied slots with the same avatar are the same
slot, and every letter `A`..`Z` occurs in at most one cell of the maze. -/
theorem reachable_avatars_unique (VIEW_DEPTH : Nat) (w : World)
    (h : Reachable VIEW_DEPTH w) :
    (∀ (i : Nat) (p : PLAYER), w.getPlayer i = some p → p.avatar = 65 + i) ∧
    (∀ (i j : Nat) (p q : PLAYER), w.getPlayer i = some p → w.getPlayer j = some q →
      p.avatar = q.avatar → i = j) ∧
    (∀ (r c r' c' : Int), w.maze.inBounds r c → w.maze.inBounds r' c' →
      IS_AVATAR (w.maze.cell r c) = true → w.maze.cell r' c' = w.maze.cell r c →
      r' = r ∧ c' = c) := by
  obtain ⟨_, _, h3, h4⟩ := reachable_Inv VIEW_DEPTH w h
  refine ⟨fun i p hp => (h3 i p hp).1, ?_, ?_⟩
  · intro i j p q hp hq hpq
    have h1 := (h3 i p hp).1
    have h2 := (h3 j q hq).1
    rw [hpq, h2] at h1
    have h65 : (65 + j : Nat) = 65 + i := h1
    omega
  · intro r c r' c' hin hin' hav heq
    obtain ⟨_, p, hp, hr, hc⟩ := h4 r c hin hav
    obtain ⟨_, p', hp', hr', hc'⟩ := h4 r' c' hin' (by rw [heq]; exact hav)
    rw [heq, hp] at hp'
    have hpp : p = p' := Option.some.inj hp'
    subst hpp
    exact ⟨hr'.symm.trans hr, hc'.symm.trans hc⟩

set_option maxRecDepth 100000 in
/-- C17, at the state after the logins of Alice and Bravo and a reset of each on
the 4 x 5 maze: the state is reachable, slots `A` and `B` hold the avatars `A` and
`B`, and the conclusion holds. -/
theorem reachable_avatars_unique_witness :
    Reachable 4 twoPlayers ∧
    (twoPlayers.getPlayer 0).map PLAYER.avatar = some 65 ∧
    (twoPlayers.getPlayer 1).map PLAYER.avatar = some 66 ∧
    (∀ (r c r' c' : Int), twoPlayers.maze.inBounds r c → twoPlayers.maze.inBounds r' c' →
      IS_AVATAR (twoPlayers.maze.cell r c) = true →
      twoPlayers.maze.cell r' c' = twoPlayers.maze.cell r c → r' = r ∧ c' = c) :=
  have hr : Reachable 4 twoPlayers :=
    Reachable.reset _ 1 5 (0, 0)
      (Reachable.login _ 8 66 (some nameBravo) 101
        (Reachable.reset _ 0 0 (0, 0)
          (Reachable.login world0 7 65 (some nameAlice) 100
            (Reachable.init emptyMaze.maze_cells emptyMaze (by decide) (by decide)))))
  ⟨hr, by decide, by decide, (reachable_avatars_unique 4 twoPlayers hr).2.2⟩

/-! ## Steps that change nothing but cached views and the packets sent -/

theorem player_invalidate_view_core (w : World) (i : Nat) :
    w.agree PLAYER.core (player_invalidate_view w i) :=
  modifyPlayer_agree _ w i _ (fun _ => rfl)

theorem addSent_agree {α : Type} (π : PLAYER → α) (w : World) (l : List SentPacket) :
    w.agree π (w.addSent l) := fun _ => rfl

theorem player_update_view_core (VIEW_DEPTH : Nat) (w : World) (i : Nat)
    (uninit : Int × Int) : w.agree PLAYER.core (player_update_view VIEW_DEPTH w i uninit) := by
  cases hp : w.getPlayer i with
  | none =>
    unfold player_update_view
    rw [hp]
    exact agree_refl _ w
  | some player =>
    rw [player_update_view_eq VIEW_DEPTH w i uninit player hp]
    exact agree_trans _ _ _ _ (addSent_agree _ w _) (modifyPlayer_agree _ _ i _ (fun _ => rfl))

theorem update_all_views_core (VIEW_DEPTH : Nat) (w : World) (uninit : Int × Int) :
    w.agree PLAYER.core (update_all_views VIEW_DEPTH w uninit) := by
  unfold update_all_views
  apply foldl_rel_from (World.agree PLAYER.core) (agree_trans _)
  · intro b k
    split
    · exact player_update_view_core VIEW_DEPTH b k uninit
    · exact agree_refl _ b
  · exact agree_refl _ w

/-- The record of slot `i` after `player_rotate`: its gaze is turned, and nothing
else but the cached view has changed. -/
theorem player_rotate_record (VIEW_DEPTH : Nat) (w : World) (i : Nat) (dir : Int)
    (uninit : Int × Int) (player : PLAYER) (hp : w.getPlayer i = some player) :
    ∃ p' : PLAYER, (player_rotate VIEW_DEPTH w i dir uninit).getPlayer i = some p' ∧
      p'.core = { player.core with
        gaze := if dir = 1 then TURN_LEFT player.gaze else TURN_RIGHT player.gaze } := by
  unfold player_rotate
  simp only
  generalize hf : (fun player : PLAYER => { player with
      gaze := if dir = 1 then TURN_LEFT player.gaze else TURN_RIGHT player.gaze }) = f
  have h0 : (w.modifyPlayer i f).getPlayer i = some (f player) := by
    rw [getPlayer_modifyPlayer, if_pos rfl, hp]
    rfl
  have h1 := player_invalidate_view_core (w.modifyPlayer i f) i i
  have h2 := player_update_view_core VIEW_DEPTH (player_invalidate_view (w.modifyPlayer i f) i)
    i uninit i
  rw [h1, h0] at h2
  cases hq : (player_update_view VIEW_DEPTH (player_invalidate_view (w.modifyPlayer i f) i)
      i uninit).getPlayer i with
  | none =>
    rw [hq] at h2
    exact absurd h2 (by simp)
  | some p' =>
    rw [hq] at h2
    refine ⟨p', rfl, ?_⟩
    have h3 : p'.core = (f player).core := by simpa using h2
    rw [h3, ← hf]
    rfl

/-- The function `player_rotate` changes no record of another slot but for its
cached view, and leaves the maze as it is. -/
theorem player_rotate_others (VIEW_DEPTH : Nat) (w : World) (i : Nat) (dir : Int)
    (uninit : Int × Int) (k : Nat) (hk : k ≠ i) :
    ((player_rotate VIEW_DEPTH w i dir uninit).getPlayer k).map PLAYER.core
      = (w.getPlayer k).map PLAYER.core := by
  unfold player_rotate
  simp only
  generalize (fun player : PLAYER => { player with
      gaze := if dir = 1 then TURN_LEFT player.gaze else TURN_RIGHT player.gaze }) = f
  have h1 := player_invalidate_view_core (w.modifyPlayer i f) i k
  have h2 := player_update_view_core VIEW_DEPTH (player_invalidate_view (w.modifyPlayer i f) i)
    i uninit k
  rw [h2, h1, getPlayer_modifyPlayer, if_neg hk]

/-- C25. For every direction `d` in 0..3 (NORTH, WEST, SOUTH, EAST):
`TURN_LEFT (TURN_RIGHT d) = d`, `TURN_RIGHT (TURN_LEFT d) = d` and
`REVERSE (REVERSE d) = d`, with `TURN_LEFT d = (d+1) mod 4`,
`TURN_RIGHT d = (d+3) mod 4`, `REVERSE d = (d+2) mod 4`; and for every published
player whose gaze is such a direction, `player_rotate` with sign +1 followed by
`player_rotate` with sign -1 (or the other way round) leaves the gaze equal to
its original value, and neither call changes the row, column or score of the
player. -/
theorem player_rotate_left_right (VIEW_DEPTH : Nat) (w : World) (i : Nat)
    (uninit uninit2 : Int × Int) (player : PLAYER) (hp : w.getPlayer i = some player)
    (hg : player.gaze < 4) :
    (∀ d : Nat, d < 4 →
      TURN_LEFT (TURN_RIGHT d) = d ∧ TURN_RIGHT (TURN_LEFT d) = d ∧ REVERSE (REVERSE d) = d ∧
      TURN_LEFT d = (d + 1) % 4 ∧ TURN_RIGHT d = (d + 3) % 4 ∧ REVERSE d = (d + 2) % 4) ∧
    (∃ p1 p2 : PLAYER,
      (player_rotate VIEW_DEPTH w i 1 uninit).getPlayer i = some p1 ∧
      (player_rotate VIEW_DEPTH (player_rotate VIEW_DEPTH w i 1 uninit) i (-1) uninit2).getPlayer i
        = some p2 ∧
      p1.gaze = TURN_LEFT player.gaze ∧ p2.gaze = player.gaze ∧
      p1.row = player.row ∧ p1.col = player.col ∧ p1.score = player.score ∧
      p2.row = player.row ∧ p2.col = player.col ∧ p2.score = player.score) ∧
    (∃ p1 p2 : PLAYER,
      (player_rotate VIEW_DEPTH w i (-1) uninit).getPlayer i = some p1 ∧
      (player_rotate VIEW_DEPTH (player_rotate VIEW_DEPTH w i (-1) uninit) i 1 uninit2).getPlayer i
        = some p2 ∧
      p1.gaze = TURN_RIGHT player.gaze ∧ p2.gaze = player.gaze ∧
      p1.row = player.row ∧ p1.col = player.col ∧ p1.score = player.score ∧
      p2.row = player.row ∧ p2.col = player.col ∧ p2.score = player.score) := by
  have halg : ∀ d : Nat, d < 4 →
      TURN_LEFT (TURN_RIGHT d) = d ∧ TURN_RIGHT (TURN_LEFT d) = d ∧ REVERSE (REVERSE d) = d ∧
      TURN_LEFT d = (d + 1) % 4 ∧ TURN_RIGHT d = (d + 3) % 4 ∧ REVERSE d = (d + 2) % 4 := by
    intro d hd
    unfold TURN_LEFT TURN_RIGHT REVERSE NUM_DIRECTIONS
    omega
  refine ⟨halg, ?_, ?_⟩
  · obtain ⟨p1, h1, c1⟩ := player_rotate_record VIEW_DEPTH w i 1 uninit player hp
    obtain ⟨p2, h2, c2⟩ := player_rotate_record VIEW_DEPTH _ i (-1) uninit2 p1 h1
    rw [c1] at c2
    have g1 := congrArg PlayerCore.gaze c1
    have g2 := congrArg PlayerCore.gaze c2
    have r1 := congrArg PlayerCore.row c1
    have r2 := congrArg PlayerCore.row c2
    have cc1 := congrArg PlayerCore.col c1
    have cc2 := congrArg PlayerCore.col c2
    have s1 := congrArg PlayerCore.score c1
    have s2 := congrArg PlayerCore.score c2
    simp only [PLAYER.core, if_true] at g1 r1 cc1 s1
    simp only [PLAYER.core, if_true] at g2 r2 cc2 s2
    rw [if_neg (by decide)] at g2
    refine ⟨p1, p2, h1, h2, g1, ?_, r1, cc1, s1, r2, cc2, s2⟩
    rw [g2, g1]
    exact (halg player.gaze hg).2.1
  · obtain ⟨p1, h1, c1⟩ := player_rotate_record VIEW_DEPTH w i (-1) uninit player hp
    obtain ⟨p2, h2, c2⟩ := player_rotate_record VIEW_DEPTH _ i 1 uninit2 p1 h1
    rw [c1] at c2
    have g1 := congrArg PlayerCore.gaze c1
    have g2 := congrArg PlayerCore.gaze c2
    have r1 := congrArg PlayerCore.row c1
    have r2 := congrArg PlayerCore.row c2
    have cc1 := congrArg PlayerCore.col c1
    have cc2 := congrArg PlayerCore.col c2
    have s1 := congrArg PlayerCore.score c1
    have s2 := congrArg PlayerCore.score c2
    simp only [PLAYER.core] at g1 r1 cc1 s1
    simp only [PLAYER.core, if_true] at g2 r2 cc2 s2
    rw [if_neg (by decide)] at g1
    refine ⟨p1, p2, h1, h2, g1, ?_, r1, cc1, s1, r2, cc2, s2⟩
    rw [g2, g1]
    exact (halg player.gaze hg).1

/-- C25, for Alice alone on the 4 x 5 maze, facing EAST: after a left turn she
faces NORTH, after the right turn that follows she faces EAST again, at the same
place and with the same score. -/
theorem player_rotate_left_right_witness :
    (worldAlice 0).getPlayer 0 = some (recAlice 0) ∧ (recAlice 0).gaze < 4 ∧
    (∃ p1 p2 : PLAYER,
      (player_rotate 4 (worldAlice 0) 0 1 (0, 0)).getPlayer 0 = some p1 ∧
      (player_rotate 4 (player_rotate 4 (worldAlice 0) 0 1 (0, 0)) 0 (-1) (0, 0)).getPlayer 0
        = some p2 ∧
      p1.gaze = TURN_LEFT (recAlice 0).gaze ∧ p2.gaze = (recAlice 0).gaze ∧
      p1.row = (recAlice 0).row ∧ p1.col = (recAlice 0).col ∧
      p1.score = (recAlice 0).score ∧
      p2.row = (recAlice 0).row ∧ p2.col = (recAlice 0).col ∧
      p2.score = (recAlice 0).score) :=
  ⟨by decide, by decide,
    (player_rotate_left_right 4 (worldAlice 0) 0 (0, 0) (0, 0) (recAlice 0) (by decide)
      (by decide)).2.1⟩

/-! ## View updates as a frame: `viewsOnly` -/

theorem viewsOnly_refl (w : World) : w.viewsOnly w :=
  ⟨rfl, rfl, rfl, agree_refl _ w, [], by simp, by simp⟩

theorem viewsOnly_trans (a b c : World) (h1 : a.viewsOnly b) (h2 : b.viewsOnly c) :
    a.viewsOnly c := by
  obtain ⟨m1, s1, l1, a1, x1, e1, v1⟩ := h1
  obtain ⟨m2, s2, l2, a2, x2, e2, v2⟩ := h2
  refine ⟨m2.trans m1, s2.trans s1, l2.trans l1, agree_trans _ a b c a1 a2, x1 ++ x2, ?_, ?_⟩
  · rw [e2, e1, List.append_assoc]
  · intro pk hpk
    rcases List.mem_append.mp hpk with h | h
    · exact v1 pk h
    · exact v2 pk h

theorem player_invalidate_view_viewsOnly (w : World) (i : Nat) :
    w.viewsOnly (player_invalidate_view w i) :=
  ⟨modifyPlayer_maze w i _, modifyPlayer_shutdowns w i _, modifyPlayer_length w i _,
    player_invalidate_view_core w i, [], by
      unfold player_invalidate_view
      rw [modifyPlayer_sent]
      simp, by simp⟩

theorem viewsOnly_addSent_modify (w : World) (l : List SentPacket)
    (hl : ∀ pk ∈ l, pk.isView) (i : Nat) (f : PLAYER → PLAYER)
    (hf : ∀ p, (f p).core = p.core) : w.viewsOnly ((w.addSent l).modifyPlayer i f) := by
  refine ⟨?_, ?_, ?_, ?_, l, ?_, hl⟩
  · rw [modifyPlayer_maze]; rfl
  · rw [modifyPlayer_shutdowns]; rfl
  · rw [modifyPlayer_length]; rfl
  · exact agree_trans _ _ _ _ (addSent_agree _ w l) (modifyPlayer_agree _ _ i f hf)
  · rw [modifyPlayer_sent]
    rfl

theorem player_update_view_viewsOnly (VIEW_DEPTH : Nat) (w : World) (i : Nat)
    (uninit : Int × Int) : w.viewsOnly (player_update_view VIEW_DEPTH w i uninit) := by
  cases hp : w.getPlayer i with
  | none =>
    unfold player_update_view
    rw [hp]
    exact viewsOnly_refl w
  | some player =>
    rw [player_update_view_eq VIEW_DEPTH w i uninit player hp]
    refine viewsOnly_addSent_modify _ _ ?_ i _ ?_
    swap
    · intro p
      rfl
    intro pk hpk
    split at hpk
    · rcases List.mem_cons.mp hpk with h | h
      · rw [h]
        exact Or.inl rfl
      · simp only [List.mem_flatMap, List.mem_singleton] at h
        obtain ⟨_, _, _, _, h⟩ := h
        rw [h]
        exact Or.inr rfl
    · simp only [List.mem_flatMap] at hpk
      obtain ⟨_, _, _, _, h⟩ := hpk
      split_ifs at h
      all_goals first
        | exact absurd h (List.not_mem_nil _)
        | (rw [List.mem_singleton.mp h]; exact Or.inr rfl)

theorem update_all_views_viewsOnly (VIEW_DEPTH : Nat) (w : World) (uninit : Int × Int) :
    w.viewsOnly (update_all_views VIEW_DEPTH w uninit) := by
  unfold update_all_views
  apply foldl_rel_from World.viewsOnly viewsOnly_trans
  · intro b k
    split
    · exact player_update_view_viewsOnly VIEW_DEPTH b k uninit
    · exact viewsOnly_refl b
  · exact viewsOnly_refl w

/-- A loop whose every step appends packets that depend on the table only appends
the packets computed from the table at its start. -/
theorem foldl_sends (f : World → Nat → World) (g : World → Nat → List SentPacket)
    (hf : ∀ acc k, f acc k = acc.addSent (g acc k))
    (hg : ∀ acc l k, g (acc.addSent l) k = g acc k) :
    ∀ (l : List Nat) (w : World), l.foldl f w = w.addSent (l.flatMap (g w)) := by
  intro l
  induction l with
  | nil => intro w; simp [addSent_nil]
  | cons x t ih =>
    intro w
    rw [List.foldl_cons, ih, hf, addSent_addSent, List.flatMap_cons]
    congr 2
    apply List.flatMap_congr
    intro k _
    exact hg w _ k

/-! ## `player_logout` -/

/-- The SCORE packets of a broadcast to every published player but the one of slot
`i`, read off the table `w`. -/
theorem flatMap_others_eq (w : World) (i : Nat) (h : PLAYER → SentPacket) (l : List Nat) :
    l.flatMap (fun k => match w.getPlayer k with
        | some p => if k = i then [] else [h p]
        | none => [])
      = (l.filter (fun k => decide (k ≠ i))).filterMap (fun k => (w.getPlayer k).map h) := by
  induction l with
  | nil => rfl
  | cons k t ih =>
    rw [List.flatMap_cons, ih, List.filter_cons]
    by_cases hk : k = i
    · have hd : decide (k ≠ i) = false := by simp [hk]
      rw [hd]
      cases w.getPlayer k <;> simp [hk]
    · have hd : decide (k ≠ i) = true := by simp [hk]
      rw [hd]
      simp only [if_true, List.filterMap_cons]
      cases w.getPlayer k <;> simp [hk]

/-- The function `player_logout` as three steps: view updates (when the player is
placed, after its avatar has been taken off the maze), the broadcast of the
departure packet to the other published players, and the clearing of the slot. -/
theorem player_logout_shape (VIEW_DEPTH : Nat) (w : World) (i : Nat) (uninit : Int × Int)
    (player : PLAYER) (hp : w.getPlayer i = some player) (m1 : Maze)
    (hm1 : m1 = if w.maze.inBounds player.row player.col then
        maze_remove_player w.maze player.avatar player.row player.col else w.maze) :
    ∃ w1 : World, ({ w with maze := m1 } : World).viewsOnly w1 ∧
      (¬ w.maze.inBounds player.row player.col → w1 = w) ∧
      player_logout VIEW_DEPTH w i uninit
        = (w1.addSent (((List.range NUM_AVATARS).filter (fun k => decide (k ≠ i))).filterMap
            (fun k => (w1.getPlayer k).map (fun p =>
              (⟨p.fd, ⟨.MZW_SCORE_PKT, player.avatar, toU8 (-1), 0, 0⟩, none⟩ :
                SentPacket))))).setSlot (player.avatar - 65) none := by
  have hloop : ∀ w1 : World,
      (List.range NUM_AVATARS).foldl
        (fun acc k => match acc.getPlayer k with
          | some p => if k = i then acc
            else player_send_packet acc p ⟨.MZW_SCORE_PKT, player.avatar, toU8 (-1), 0, 0⟩ none
          | none => acc) w1
      = w1.addSent (((List.range NUM_AVATARS).filter (fun k => decide (k ≠ i))).filterMap
          (fun k => (w1.getPlayer k).map (fun p =>
            (⟨p.fd, ⟨.MZW_SCORE_PKT, player.avatar, toU8 (-1), 0, 0⟩, none⟩ :
              SentPacket)))) := by
    intro w1
    rw [← flatMap_others_eq]
    apply foldl_sends
    · intro acc k
      cases acc.getPlayer k with
      | none => simp [addSent_nil]
      | some p =>
        by_cases hk : k = i
        · simp [hk, addSent_nil]
        · simp only [hk, if_false]
          rfl
    · intro acc l k
      rfl
  unfold player_logout
  rw [hp]
  simp only
  by_cases hin : w.maze.inBounds player.row player.col
  · rw [if_pos hin] at hm1
    rw [player_get_location_placed w.maze player hin]
    simp only
    rw [← hm1]
    refine ⟨update_all_views VIEW_DEPTH { w with maze := m1 } uninit,
      update_all_views_viewsOnly VIEW_DEPTH _ uninit, fun h => absurd hin h, ?_⟩
    rw [hloop]
  · rw [if_neg hin] at hm1
    rw [player_get_location_unplaced w.maze player hin]
    simp only
    refine ⟨w, ?_, fun _ => rfl, ?_⟩
    · rw [hm1]
      exact viewsOnly_refl w
    · rw [hloop]

/-- C22. For every published player `P` (in slot `i` of a state with the invariant
of the reachable states), `player_logout`: takes `P`'s avatar off the maze if `P`
is placed, changing no other cell (and leaves the maze alone otherwise); sends,
after the CLEAR and SHOW packets of the view updates, to every other published
player exactly one SCORE packet with `param1` = `P`'s avatar, `param2` = 255 (the
byte that -1 is stored as) and size 0, and none to `P` itself; and afterwards the
slot of `P` is free while every other slot holds the record it held, up to its
cached view (unchanged altogether when `P` was not placed). -/
theorem player_logout_spec (VIEW_DEPTH : Nat) (w : World) (i : Nat) (uninit : Int × Int)
    (player : PLAYER) (hp : w.getPlayer i = some player) (hinv : w.Inv none) :
    (w.maze.inBounds player.row player.col →
      w.maze.cell player.row player.col = player.avatar ∧
      (player_logout VIEW_DEPTH w i uninit).maze.cell player.row player.col = EMPTY ∧
      ∀ r c : Int, ¬ (r = player.row ∧ c = player.col) →
        (player_logout VIEW_DEPTH w i uninit).maze.cell r c = w.maze.cell r c) ∧
    (¬ w.maze.inBounds player.row player.col →
      (player_logout VIEW_DEPTH w i uninit).maze = w.maze ∧
      ∀ k : Nat, k ≠ i → (player_logout VIEW_DEPTH w i uninit).getPlayer k = w.getPlayer k) ∧
    (player_logout VIEW_DEPTH w i uninit).maze.maze_rows = w.maze.maze_rows ∧
    (player_logout VIEW_DEPTH w i uninit).maze.maze_cols = w.maze.maze_cols ∧
    (∃ views : List SentPacket, (∀ pk ∈ views, pk.isView) ∧
      (player_logout VIEW_DEPTH w i uninit).sent = w.sent ++ views ++
        ((List.range NUM_AVATARS).filter (fun k => decide (k ≠ i))).filterMap
          (fun k => (w.getPlayer k).map (fun p =>
            (⟨p.fd, ⟨.MZW_SCORE_PKT, player.avatar, 255, 0, 0⟩, none⟩ : SentPacket)))) ∧
    (player_logout VIEW_DEPTH w i uninit).getPlayer i = none ∧
    (∀ k : Nat, k ≠ i →
      ((player_logout VIEW_DEPTH w i uninit).getPlayer k).map PLAYER.core
        = (w.getPlayer k).map PLAYER.core) := by
  obtain ⟨hwf, _, h3, _⟩ := hinv
  obtain ⟨pa, _, ppos⟩ := h3 i player hp
  have hslot : player.avatar - 65 = i := by
    unfold OBJECT at *
    omega
  obtain ⟨w1, hv, hun, heq⟩ := player_logout_shape VIEW_DEPTH w i uninit player hp _ rfl
  obtain ⟨hm, _, _, hcore, views, hsent, hviews⟩ := hv
  rw [heq, hslot]
  have hmaze : ∀ l : List SentPacket, ((w1.addSent l).setSlot i none).maze = w1.maze :=
    fun _ => rfl
  have hget : ∀ (l : List SentPacket) (k : Nat), k ≠ i →
      ((w1.addSent l).setSlot i none).getPlayer k = w1.getPlayer k := by
    intro l k hk
    rw [getPlayer_setSlot_ne _ _ _ _ (Ne.symm hk)]
    rfl
  have hcell : w.maze.inBounds player.row player.col →
      w.maze.cell player.row player.col = player.avatar := by
    intro hin
    rcases ppos with h | h
    · unfold Maze.inBounds at hin
      omega
    · simpa using h.2
  have hm1 : w1.maze = if w.maze.inBounds player.row player.col then
      maze_remove_player w.maze player.avatar player.row player.col else w.maze := hm
  refine ⟨?_, ?_, ?_, ?_, ⟨views, hviews, ?_⟩, getPlayer_setSlot_none _ i, ?_⟩
  · intro hin
    rw [hmaze, hm1, if_pos hin, maze_remove_player_eq, if_pos ⟨hin, hcell hin⟩]
    refine ⟨hcell hin, ?_, ?_⟩
    · rw [cell_setCell w.maze hwf _ _ _ hin, if_pos ⟨rfl, rfl⟩]
    · intro r c hne
      rw [cell_setCell w.maze hwf _ _ _ hin, if_neg hne]
  · intro hout
    rw [hmaze, hm1, if_neg hout]
    refine ⟨rfl, ?_⟩
    intro k hk
    rw [hget _ k hk, hun hout]
  · rw [hmaze, hm1]
    split
    · rw [maze_remove_player_eq]
      split
      · exact setCell_maze_rows _ _ _ _
      · rfl
    · rfl
  · rw [hmaze, hm1]
    split
    · rw [maze_remove_player_eq]
      split
      · exact setCell_maze_cols _ _ _ _
      · rfl
    · rfl
  · show w1.sent ++ _ = _
    rw [hsent]
    congr 1
    apply List.filterMap_congr
    intro k _
    have hk := hcore k
    have hk2 : (w1.getPlayer k).map PLAYER.core = (w.getPlayer k).map PLAYER.core := hk
    cases h1 : w1.getPlayer k <;> cases h2 : w.getPlayer k <;> rw [h1, h2] at hk2
    · rfl
    · exact absurd hk2 (by simp)
    · exact absurd hk2 (by simp)
    · rename_i a b
      have hfd : a.fd = b.fd := by
        have := congrArg PlayerCore.fd (Option.some.inj hk2)
        exact this
      simp [hfd]
      decide
  · intro k hk
    rw [hget _ k hk]
    exact hcore k

set_option maxRecDepth 100000 in
/-- C22, for Alice logging out of the state with Alice at (1,1) and Bravo at
(1,2): her avatar is taken off the maze, Bravo is sent the departure packet, her
slot is free afterwards. -/
theorem player_logout_spec_witness :
    twoPlayers.getPlayer 0
      = some { recAlice 0 with prev_view := some [[35, 65, 32], [35, 66, 32]], prev_depth := 2 } ∧
    (player_logout 4 twoPlayers 0 (0, 0)).maze.cell 1 1 = EMPTY ∧
    (player_logout 4 twoPlayers 0 (0, 0)).getPlayer 0 = none :=
  have hp : twoPlayers.getPlayer 0
      = some { recAlice 0 with prev_view := some [[35, 65, 32], [35, 66, 32]], prev_depth := 2 } := by
    decide
  have h := player_logout_spec 4 twoPlayers 0 (0, 0) _ hp
    (reachable_Inv 4 twoPlayers
      (Reachable.reset _ 1 5 (0, 0)
        (Reachable.login _ 8 66 (some nameBravo) 101
          (Reachable.reset _ 0 0 (0, 0)
            (Reachable.login world0 7 65 (some nameAlice) 100
              (Reachable.init emptyMaze.maze_cells emptyMaze (by decide) (by decide)))))))
  ⟨hp, (h.1 (by decide)).2.1, h.2.2.2.2.2.1⟩

/-! ## The score byte and the departure sentinel -/

/-- The packets of a hit: when the scan of `maze_find_target` returns an avatar,
`player_fire_laser` returns and has sent every published player one SCORE packet
with the shooter's avatar and the byte of the new score. -/
theorem player_fire_laser_hit_sent (w : World) (i : Nat) (player : PLAYER)
    (hp : w.getPlayer i = some player) (hplaced : w.maze.inBounds player.row player.col)
    (href : ∀ (k : Nat) (q : PLAYER), w.getPlayer k = some q → q.refcount ≠ 0)
    (target : OBJECT)
    (htarget : maze_find_target w.maze player.row player.col player.gaze = some target)
    (hav : IS_AVATAR target = true) :
    ∃ w' : World, player_fire_laser w i = some w' ∧
      w'.sent = w.sent ++ (List.range NUM_AVATARS).filterMap (fun k =>
        (w.getPlayer k).map (fun p =>
          (⟨p.fd, ⟨.MZW_SCORE_PKT, player.avatar, toU8 (player.score + 1), 0, 0⟩, none⟩ :
            SentPacket))) := by
  have hloc := player_get_location_placed w.maze player hplaced
  obtain ⟨hagree, hmaze, hsent, _, hlen⟩ := player_fire_laser_victim w target href _ rfl
  generalize hw1 : (match (player_get w target).1 with
      | some v =>
        match (player_get w target).2.getPlayer v with
        | some victim =>
          player_unref (player_laser_handler (player_get w target).2 victim.thread_id) v
        | none => (player_get w target).2
      | none => (player_get w target).2) = w1 at hagree hmaze hsent hlen
  have hi1 := hagree i
  rw [hp] at hi1
  cases hp1 : w1.getPlayer i with
  | none => rw [hp1] at hi1; simp at hi1
  | some p1 =>
    rw [hp1] at hi1
    simp only [Option.map_some', Option.some.injEq] at hi1
    have hscore : p1.score = player.score := by
      have h := congrArg (fun q : PLAYER => q.score) hi1
      exact h
    have havatar : p1.avatar = player.avatar := by
      have h := congrArg (fun q : PLAYER => q.avatar) hi1
      exact h
    have hme : (w1.modifyPlayer i (fun p => { p with score := wrapInt (p.score + 1) })).getPlayer i
        = some { p1 with score := wrapInt (p1.score + 1) } := by
      rw [getPlayer_modifyPlayer, if_pos rfl, hp1]
      rfl
    have hfire : player_fire_laser w i = some
        ((List.range NUM_AVATARS).foldl
          (fun acc k => match acc.getPlayer k with
            | some p => player_send_packet acc p
                ⟨.MZW_SCORE_PKT, player.avatar, toU8 (player.score + 1), 0, 0⟩ none
            | none => acc)
          (w1.modifyPlayer i (fun p => { p with score := wrapInt (p.score + 1) }))) := by
      unfold player_fire_laser
      rw [hp]
      simp only
      rw [hloc]
      simp only
      rw [htarget]
      simp only
      rw [if_pos hav, hw1, hme]
      simp only [havatar, hscore, toU8_wrapInt]
    have hfd : w.agree (fun p => p.fd)
        (w1.modifyPlayer i (fun p => { p with score := wrapInt (p.score + 1) })) :=
      agree_trans _ _ _ _ (agree_comp PLAYER.noHit (fun p => p.fd) w w1 hagree)
        (modifyPlayer_agree _ w1 i _ (fun _ => rfl))
    refine ⟨_, hfire, ?_⟩
    rw [foldl_broadcast]
    unfold World.addSent
    simp only
    rw [modifyPlayer_sent, hsent]
    congr 1
    apply List.filterMap_congr
    intro k _
    have := hfd k
    cases h1 : (w1.modifyPlayer i (fun p => { p with score := wrapInt (p.score + 1) })).getPlayer k
      <;> cases h2 : w.getPlayer k <;> rw [h1, h2] at this <;> simp_all

/-- Every SCORE packet sent by `player_logout` carries the byte 255 in `param2`. -/
theorem player_logout_score_param2 (VIEW_DEPTH : Nat) (w : World) (i : Nat)
    (uninit : Int × Int) :
    ∀ pk ∈ (player_logout VIEW_DEPTH w i uninit).sent.drop w.sent.length,
      pk.pkt.type = .MZW_SCORE_PKT → pk.pkt.param2 = 255 := by
  cases hp : w.getPlayer i with
  | none =>
    unfold player_logout
    rw [hp]
    simp
  | some player =>
    obtain ⟨w1, hv, _, heq⟩ := player_logout_shape VIEW_DEPTH w i uninit player hp _ rfl
    obtain ⟨_, _, _, _, views, hsent, hviews⟩ := hv
    have hs : (player_logout VIEW_DEPTH w i uninit).sent = w.sent ++ (views ++
        ((List.range NUM_AVATARS).filter (fun k => decide (k ≠ i))).filterMap
          (fun k => (w1.getPlayer k).map (fun p =>
            (⟨p.fd, ⟨.MZW_SCORE_PKT, player.avatar, toU8 (-1), 0, 0⟩, none⟩ :
              SentPacket)))) := by
      rw [heq]
      show w1.sent ++ _ = _
      rw [hsent]
      exact List.append_assoc _ _ _
    rw [hs, List.drop_left]
    intro pk hpk hty
    rcases List.mem_append.mp hpk with h | h
    · rcases hviews pk h with hv | hv <;> rw [hv] at hty <;> exact absurd hty (by decide)
    · simp only [List.mem_filterMap, Option.map_eq_some'] at h
      obtain ⟨_, _, _, _, h⟩ := h
      rw [← h]
      show toU8 (-1) = 255
      decide

set_option maxRecDepth 100000 in
/-- C30 (the claim as stated fails). Alice, with score 254, hits Bravo: the SCORE
packet that `player_fire_laser` sends to Bravo carries `param2 = 255`, and it is
the very packet that `player_logout` of Alice sends to Bravo as the sign of her
departure. -/
theorem score_255_is_departure_byte :
    (player_fire_laser (worldDuel 254) 0).map
        (fun w' => (w'.sent.filter (fun pk => pk.fd == 8)))
      = some [⟨8, ⟨.MZW_SCORE_PKT, 65, 255, 0, 0⟩, none⟩] ∧
    (player_logout 4 (worldDuel 254) 0 (0, 0)).sent.filter
        (fun pk => pk.fd == 8 && decide (pk.pkt.type = .MZW_SCORE_PKT))
      = [⟨8, ⟨.MZW_SCORE_PKT, 65, 255, 0, 0⟩, none⟩] := by
  decide

/-- C30 (amended). For every shooter placed on the maze whose shot finds an avatar
(in a state where every published record has a non-zero reference count), with
score `s` before the hit: `player_fire_laser` returns, and what it sends is one
SCORE packet per published player, each with `param2` the byte of `s + 1`. When
`s mod 256 ≠ 254` (so for every `s ≥ 0` other than 254, 510, ...) that byte
differs from 255; when `s mod 256 = 254` it is 255. Every SCORE packet that
`player_logout` sends, for any player in any state, carries `param2 = 255`. -/
theorem score_byte_not_departure (VIEW_DEPTH : Nat) (w : World) (i : Nat) (player : PLAYER)
    (hp : w.getPlayer i = some player) (hplaced : w.maze.inBounds player.row player.col)
    (hrefs : ∀ q ∈ w.players, q.map PLAYER.refcount ≠ some 0)
    (target : OBJECT)
    (htarget : maze_find_target w.maze player.row player.col player.gaze = some target)
    (hav : IS_AVATAR target = true)
    (w2 : World) (j : Nat) (uninit : Int × Int) :
    ∃ w' : World, player_fire_laser w i = some w' ∧
      w'.sent = w.sent ++ (List.range NUM_AVATARS).filterMap (fun k =>
        (w.getPlayer k).map (fun p =>
          (⟨p.fd, ⟨.MZW_SCORE_PKT, player.avatar, toU8 (player.score + 1), 0, 0⟩, none⟩ :
            SentPacket))) ∧
      (∀ pk ∈ w'.sent.drop w.sent.length,
        pk.pkt.type = .MZW_SCORE_PKT ∧ pk.pkt.param2 = toU8 (player.score + 1) ∧
        (player.score % 256 ≠ 254 → pk.pkt.param2 ≠ 255) ∧
        (player.score % 256 = 254 → pk.pkt.param2 = 255)) ∧
      (∀ pk ∈ (player_logout VIEW_DEPTH w2 j uninit).sent.drop w2.sent.length,
        pk.pkt.type = .MZW_SCORE_PKT → pk.pkt.param2 = 255) := by
  have href : ∀ (k : Nat) (q : PLAYER), w.getPlayer k = some q → q.refcount ≠ 0 := by
    intro k q hq hzero
    have := hrefs (some q) (getPlayer_mem w k q hq)
    simp [hzero] at this
  obtain ⟨w', hfire, hsent⟩ := player_fire_laser_hit_sent w i player hp hplaced href target
    htarget hav
  refine ⟨w', hfire, hsent, ?_, player_logout_score_param2 VIEW_DEPTH w2 j uninit⟩
  rw [hsent, List.drop_left]
  intro pk hpk
  simp only [List.mem_filterMap, Option.map_eq_some'] at hpk
  obtain ⟨_, _, _, _, h⟩ := hpk
  rw [← h]
  refine ⟨rfl, rfl, ?_, ?_⟩
  · intro hne
    show toU8 (player.score + 1) ≠ 255
    unfold toU8
    omega
  · intro he
    show toU8 (player.score + 1) = 255
    unfold toU8
    omega

set_option maxRecDepth 100000 in
/-- C30 (amended), for Alice hitting Bravo with score 0 and with score 510: the
hypotheses hold and the call returns; with score 0 the two packets carry the byte
1, with score 510 they carry the byte 255, which is also the byte of the SCORE
packets of a logout. -/
theorem score_byte_not_departure_witness :
    (worldDuel 0).getPlayer 0 = some (recAlice 0) ∧
    maze_find_target (worldDuel 0).maze (recAlice 0).row (recAlice 0).col (recAlice 0).gaze
      = some 66 ∧
    (∃ w' : World, player_fire_laser (worldDuel 0) 0 = some w' ∧
      w'.sent = [⟨7, ⟨.MZW_SCORE_PKT, 65, 1, 0, 0⟩, none⟩,
                 ⟨8, ⟨.MZW_SCORE_PKT, 65, 1, 0, 0⟩, none⟩] ∧
      (∀ pk ∈ w'.sent.drop (worldDuel 0).sent.length, pk.pkt.param2 ≠ 255) ∧
      (∀ pk ∈ (player_logout 4 (worldDuel 0) 1 (0, 0)).sent.drop (worldDuel 0).sent.length,
        pk.pkt.type = .MZW_SCORE_PKT → pk.pkt.param2 = 255)) ∧
    (worldDuel 510).getPlayer 0 = some (recAlice 510) ∧
    (∃ w' : World, player_fire_laser (worldDuel 510) 0 = some w' ∧
      w'.sent = [⟨7, ⟨.MZW_SCORE_PKT, 65, 255, 0, 0⟩, none⟩,
                 ⟨8, ⟨.MZW_SCORE_PKT, 65, 255, 0, 0⟩, none⟩] ∧
      (∀ pk ∈ w'.sent.drop (worldDuel 510).sent.length, pk.pkt.param2 = 255)) :=
  have h0 := score_byte_not_departure 4 (worldDuel 0) 0 (recAlice 0) (by decide) (by decide)
    (by decide) 66 (by decide) (by decide) (worldDuel 0) 1 (0, 0)
  have h510 := score_byte_not_departure 4 (worldDuel 510) 0 (recAlice 510) (by decide)
    (by decide) (by decide) 66 (by decide) (by decide) (worldDuel 0) 1 (0, 0)
  ⟨by decide, by decide,
    by
      obtain ⟨w', hf, hs, hb, hl⟩ := h0
      refine ⟨w', hf, ?_, fun pk hpk => (hb pk hpk).2.2.1 (by decide), hl⟩
      rw [hs]
      decide,
    by decide,
    by
      obtain ⟨w', hf, hs, hb, _⟩ := h510
      refine ⟨w', hf, ?_, fun pk hpk => (hb pk hpk).2.2.2 (by decide)⟩
      rw [hs]
      decide⟩

/-! ## The depth returned by `maze_get_view` -/

/-- Where the loop of `maze_get_view` started at counter `distance` stops: the
corridor cells it passes at a counter above 0 are EMPTY, and it stops before its
last iteration only at a corridor index outside the grid or right after a
corridor cell, at a counter above 0, that is not EMPTY. -/
theorem maze_get_view_loop_stop (m : Maze) (row col : Int) (gaze : Nat) :
    ∀ (remaining distance : Nat),
      distance ≤ (maze_get_view_loop m row col gaze remaining distance).distance ∧
      (maze_get_view_loop m row col gaze remaining distance).distance ≤ distance + remaining ∧
      (∀ d : Nat, distance ≤ d → 0 < d →
        d + 1 < (maze_get_view_loop m row col gaze remaining distance).distance →
        m.cell (row + dr gaze * (d : Int)) (col + dc gaze * (d : Int)) = EMPTY) ∧
      ((maze_get_view_loop m row col gaze remaining distance).distance < distance + remaining →
        ¬ m.inBounds
            (row + dr gaze *
              ((maze_get_view_loop m row col gaze remaining distance).distance : Int))
            (col + dc gaze *
              ((maze_get_view_loop m row col gaze remaining distance).distance : Int)) ∨
        (2 ≤ (maze_get_view_loop m row col gaze remaining distance).distance ∧
          distance + 1 ≤ (maze_get_view_loop m row col gaze remaining distance).distance ∧
          m.cell
            (row + dr gaze *
              (((maze_get_view_loop m row col gaze remaining distance).distance - 1 : Nat) : Int))
            (col + dc gaze *
              (((maze_get_view_loop m row col gaze remaining distance).distance - 1 : Nat) : Int))
            ≠ EMPTY)) := by
  intro remaining
  induction remaining with
  | zero =>
    intro distance
    unfold maze_get_view_loop
    refine ⟨le_refl _, le_refl _, ?_, ?_⟩
    · intro d h1 _ h2
      simp only at h2
      omega
    · intro h
      simp only at h
      omega
  | succ n ih =>
    intro distance
    unfold maze_get_view_loop
    simp only
    split
    · rename_i hout
      refine ⟨le_refl _, Nat.le_add_right _ _, ?_, ?_⟩
      · intro d h1 _ h2
        simp only at h2
        omega
      · intro _
        left
        unfold Maze.inBounds
        exact not_not.mpr hout
    · split
      · rename_i hin hstop
        refine ⟨by simp, by simp, ?_, ?_⟩
        · intro d h1 _ h2
          simp only at h2
          omega
        · intro _
          right
          simp only
          refine ⟨by omega, le_refl _, ?_⟩
          rw [Nat.add_sub_cancel]
          exact hstop.2
      · rename_i hin hgo
        obtain ⟨i1, i2, i3, i4⟩ := ih (distance + 1)
        simp only
        refine ⟨by omega, by omega, ?_, ?_⟩
        · intro d h1 hd h2
          by_cases hdd : d = distance
          · subst hdd
            by_contra hne
            exact hgo ⟨hd, hne⟩
          · exact i3 d (by omega) hd h2
        · intro h
          rcases i4 (by omega) with h5 | ⟨h5, h6, h7⟩
          · exact Or.inl h5
          · exact Or.inr ⟨h5, by omega, h7⟩

/-- C26. For every maze, start `(row, col)`, gaze and maximal depth `D`, the depth
`n` returned by `maze_get_view` satisfies `n ≤ D` when `D ≥ 0` (and `0 ≤ n`, being
a count); every corridor cell at a distance `d` with `0 < d < n - 1` is EMPTY; if
`n < D` then either the cell at distance `n` along the gaze is out of bounds, or
`n ≥ 2` and the corridor cell at distance `n - 1` is not EMPTY; and a corridor
cell at distance 0 never stops the scan, whatever it holds: with `D ≥ 1` and the
start in bounds `n ≥ 1`, and with `D ≥ 2` and the cells at distance 0 and 1 in
bounds `n ≥ 2`. -/
theorem maze_get_view_depth (m : Maze) (row col : Int) (gaze : Nat) (D : Int) :
    (0 ≤ D → ((maze_get_view m row col gaze D).distance : Int) ≤ D) ∧
    (∀ d : Nat, 0 < d → d + 1 < (maze_get_view m row col gaze D).distance →
      m.cell (row + dr gaze * (d : Int)) (col + dc gaze * (d : Int)) = EMPTY) ∧
    (((maze_get_view m row col gaze D).distance : Int) < D →
      ¬ m.inBounds (row + dr gaze * ((maze_get_view m row col gaze D).distance : Int))
          (col + dc gaze * ((maze_get_view m row col gaze D).distance : Int)) ∨
      (2 ≤ (maze_get_view m row col gaze D).distance ∧
        m.cell
          (row + dr gaze * (((maze_get_view m row col gaze D).distance - 1 : Nat) : Int))
          (col + dc gaze * (((maze_get_view m row col gaze D).distance - 1 : Nat) : Int))
          ≠ EMPTY)) ∧
    (1 ≤ D → m.inBounds row col → 1 ≤ (maze_get_view m row col gaze D).distance) ∧
    (2 ≤ D → m.inBounds row col → m.inBounds (row + dr gaze) (col + dc gaze) →
      2 ≤ (maze_get_view m row col gaze D).distance) := by
  unfold maze_get_view
  obtain ⟨_, h2, h3, h4⟩ := maze_get_view_loop_stop m row col gaze D.toNat 0
  generalize (maze_get_view_loop m row col gaze D.toNat 0).distance = n at h2 h3 h4
  have hstop : (n : Int) < D →
      ¬ m.inBounds (row + dr gaze * (n : Int)) (col + dc gaze * (n : Int)) ∨
      (2 ≤ n ∧ m.cell (row + dr gaze * ((n - 1 : Nat) : Int))
        (col + dc gaze * ((n - 1 : Nat) : Int)) ≠ EMPTY) := by
    intro h
    rcases h4 (by omega) with h5 | ⟨h5, _, h7⟩
    · exact Or.inl h5
    · exact Or.inr ⟨h5, h7⟩
  refine ⟨by omega, fun d hd hlt => h3 d (Nat.zero_le d) hd hlt, hstop, ?_, ?_⟩
  · intro hD hin
    by_contra hn
    have hn0 : n = 0 := by omega
    subst hn0
    rcases hstop (by omega) with h | ⟨h, _⟩
    · apply h
      simpa using hin
    · omega
  · intro hD hin hin1
    by_contra hn
    rcases hstop (by omega) with h | ⟨h, _⟩
    · have hn01 : n = 0 ∨ n = 1 := by omega
      rcases hn01 with h0 | h1
      · subst h0
        apply h
        simpa using hin
      · subst h1
        apply h
        simpa using hin1
    · omega

/-- C26 on the 4 x 5 demonstration maze, looking EAST from (2,1) with `D = 8`: the
scan returns 3, having stopped after the avatar `B` at distance 2. -/
theorem maze_get_view_depth_witness :
    (maze_get_view demoMaze 2 1 EAST 8).distance = 3 ∧
    (¬ demoMaze.inBounds (2 + dr EAST * ((maze_get_view demoMaze 2 1 EAST 8).distance : Int))
          (1 + dc EAST * ((maze_get_view demoMaze 2 1 EAST 8).distance : Int)) ∨
      (2 ≤ (maze_get_view demoMaze 2 1 EAST 8).distance ∧
        demoMaze.cell
          (2 + dr EAST * (((maze_get_view demoMaze 2 1 EAST 8).distance - 1 : Nat) : Int))
          (1 + dc EAST * (((maze_get_view demoMaze 2 1 EAST 8).distance - 1 : Nat) : Int))
          ≠ EMPTY)) :=
  ⟨by decide, (maze_get_view_depth demoMaze 2 1 EAST 8).2.2.1 (by decide)⟩

/-! ## The wire codec: sending then receiving -/

theorem ntohs_htons (x : Nat) (h : x < 65536) : ntohs (htons x) = x := by
  unfold ntohs htons
  simp only [List.getD_cons_zero, List.getD_cons_succ]
  omega

theorem ntohl_htonl (x : Nat) (h : x < 4294967296) : ntohl (htonl x) = x := by
  unfold ntohl htonl
  simp only [List.getD_cons_zero, List.getD_cons_succ]
  omega

/-- C23. For every header whose fields are in the range of their types, every
payload of exactly `size` bytes (passed as a buffer, or as NULL when `size` is 0)
and whatever follows on the stream: `proto_send_packet` returns 0, and
`proto_recv_packet` on the bytes it has written returns 0 with the same seven
header fields, with a payload equal to the one sent when `size > 0` and with no
payload (NULL) when `size = 0`, and leaves the rest of the stream unread. -/
theorem proto_send_recv_roundtrip (pkt : MZW_HEADER) (hwf : pkt.wf) (payload : List Nat)
    (hlen : payload.length = pkt.size) (data : Option (List Nat))
    (hdata : data = some payload ∨ (data = none ∧ pkt.size = 0)) (pad : Nat × Nat)
    (rest : List Nat) :
    (proto_send_packet_bytes (some pkt) data pad).1 = 0 ∧
    proto_recv_packet_bytes ((proto_send_packet_bytes (some pkt) data pad).2 ++ rest)
      = ⟨0, some pkt, if pkt.size > 0 then some payload else none, rest⟩ := by
  obtain ⟨h1, h2, h3, h4, h5, h6, h7⟩ := hwf
  have hs := ntohs_htons pkt.size h5
  have hsec := ntohl_htonl pkt.timestamp_sec h6
  have hnsec := ntohl_htonl pkt.timestamp_nsec h7
  have hrecv : ∀ tail : List Nat,
      proto_recv_packet_bytes (netpkt_bytes pkt pad ++ tail)
        = if pkt.size > 0 then
            (if (tail.take pkt.size).length ≠ pkt.size then
              ⟨-1, some pkt, none, tail.drop pkt.size⟩
            else ⟨0, some pkt, some (tail.take pkt.size), tail.drop pkt.size⟩)
          else ⟨0, some pkt, none, tail⟩ := by
    intro tail
    unfold proto_recv_packet_bytes readn sizeof_MZW_PACKET netpkt_bytes
    unfold htons htonl at *
    simp only [List.cons_append, List.nil_append, List.take_succ_cons, List.take_zero,
      List.drop_succ_cons, List.drop_zero, List.length_cons, List.length_nil,
      List.getD_cons_zero, List.getD_cons_succ, ne_eq, not_true_eq_false, if_false]
    rw [hs, hsec, hnsec]
  have htake : (payload ++ rest).take pkt.size = payload := by
    rw [← hlen]
    exact List.take_left _ _
  have hdrop : (payload ++ rest).drop pkt.size = rest := by
    rw [← hlen]
    exact List.drop_left _ _
  rcases hdata with hd | ⟨hd, h0⟩
  · subst hd
    unfold proto_send_packet_bytes
    simp only
    by_cases hpos : pkt.size > 0
    · rw [if_pos hpos]
      refine ⟨rfl, ?_⟩
      have hp : payload.take pkt.size = payload := by
        rw [← hlen]
        exact List.take_length payload
      simp only
      rw [hp, List.append_assoc, hrecv, if_pos hpos, htake, hdrop, if_neg (by simp [hlen]),
        if_pos hpos]
    · rw [if_neg hpos]
      refine ⟨rfl, ?_⟩
      simp only
      rw [hrecv, if_neg hpos, if_neg hpos]
  · subst hd
    unfold proto_send_packet_bytes
    simp only
    refine ⟨trivial, ?_⟩
    rw [hrecv, if_neg (by omega), if_neg (by omega)]

/-- C23 for a SCORE-like header with `size = 5`, timestamps 1000 s and 500000 ns,
and the payload `"Alice"`: the 21 bytes written are read back as the same header
and payload. -/
theorem proto_send_recv_roundtrip_witness :
    (⟨5, 65, 3, 0, 5, 1000, 500000⟩ : MZW_HEADER).wf ∧
    nameAlice.length = (⟨5, 65, 3, 0, 5, 1000, 500000⟩ : MZW_HEADER).size ∧
    (proto_send_packet_bytes (some ⟨5, 65, 3, 0, 5, 1000, 500000⟩) (some nameAlice) (0, 0)).2
      = [5, 65, 3, 0, 0, 5, 0, 0, 0, 0, 3, 232, 0, 7, 161, 32, 65, 108, 105, 99, 101] ∧
    proto_recv_packet_bytes
        ((proto_send_packet_bytes (some ⟨5, 65, 3, 0, 5, 1000, 500000⟩) (some nameAlice)
          (0, 0)).2 ++ [])
      = ⟨0, some ⟨5, 65, 3, 0, 5, 1000, 500000⟩,
          if (⟨5, 65, 3, 0, 5, 1000, 500000⟩ : MZW_HEADER).size > 0 then some nameAlice
          else none, []⟩ :=
  ⟨by decide, by decide, by decide,
    (proto_send_recv_roundtrip ⟨5, 65, 3, 0, 5, 1000, 500000⟩ (by decide) nameAlice
      (by decide) (some nameAlice) (Or.inl rfl) (0, 0) []).2⟩

/-! ## The client registry -/

set_option maxRecDepth 1000000 in
/-- C24 (the code fails the claim). From `creg_init` with 1024 entries: handle 5
is registered and unregistered, which posts the semaphore; then handle 6, not
registered before, is registered. In the state reached the semaphore is 1, so
that `creg_wait_for_empty` returns at once, although handle 6 is registered and
`client_count` is 1. -/
theorem creg_semaphore_left_pending :
    (creg_init 1024).registered = [] ∧
    (creg_register (creg_init 1024) 5).registered = [5] ∧
    (creg_unregister (creg_register (creg_init 1024) 5) 5).registered = [] ∧
    (creg_unregister (creg_register (creg_init 1024) 5) 5).empty = 1 ∧
    (creg_register (creg_unregister (creg_register (creg_init 1024) 5) 5) 6).registered = [6] ∧
    (creg_register (creg_unregister (creg_register (creg_init 1024) 5) 5) 6).client_count = 1 ∧
    (creg_register (creg_unregister (creg_register (creg_init 1024) 5) 5) 6).empty = 1 ∧
    (creg_wait_for_empty
      (creg_register (creg_unregister (creg_register (creg_init 1024) 5) 5) 6)).isSome
      = true := by
  decide

/-! ## `player_unref` and the publication of other players -/

/-- Dropping a reference to a published record of a state with the invariant
leaves every other slot as it was. -/
theorem player_unref_others (w : World) (i : Nat) (hinv : w.Inv none) (k : Nat) (hk : k ≠ i) :
    (player_unref w i).getPlayer k = w.getPlayer k := by
  unfold player_unref
  cases hp : w.getPlayer i with
  | none => rfl
  | some player =>
    simp only
    have pa := (hinv.2.2.1 i player hp).1
    have hslot : player.avatar - 65 = i := by
      unfold OBJECT at *
      omega
    split
    · rw [hslot, getPlayer_setSlot_ne _ _ _ _ (Ne.symm hk),
        getPlayer_setSlot_ne _ _ _ _ (Ne.symm hk)]
    · rw [getPlayer_setSlot_ne _ _ _ _ (Ne.symm hk)]

/-- Dropping a reference to an unpublished record that is still referenced
elsewhere leaves the state as it was. -/
theorem player_unref_detached_kept (w : World) (player : PLAYER)
    (h : player.refcount - 1 ≠ 0) :
    player_unref_detached w player
      = (some { player with refcount := player.refcount - 1 }, w) := by
  unfold player_unref_detached
  simp only
  rw [if_neg h]

/-- C28 (the code fails the claim). Alice logs in with avatar `A`; her
`player_logout` sets slot `A` to NULL; Anna logs in and is given avatar `A`; then
the `player_unref` that ends Alice's logout brings the reference count of Alice's
record from 1 to 0 and sets slot `A` to NULL: the slot held Anna's record, a
record other than Alice's, before the call and is empty after it. -/
theorem player_unref_unpublishes_other :
    (player_login world0 7 65 (some nameAlice) 100).1 = some loginAlice ∧
    worldAnnaAfterAlice.getPlayer 0 = some loginAnna ∧
    loginAnna ≠ loginAlice ∧
    (player_unref_detached worldAnnaAfterAlice loginAlice).1 = none ∧
    (player_unref_detached worldAnnaAfterAlice loginAlice).2.getPlayer 0 = none := by
  decide

/-! ## How often each EMPTY cell is chosen by the random placement -/

theorem numEmptyBefore_eq_countP (m : Maze) (r c : Int) :
    m.numEmptyBefore r c = m.empties.countP (fun a => decide (a.before ⟨r, c⟩)) := by
  unfold Maze.numEmptyBefore Maze.empties
  rw [List.countP_filter, countP_scanOrder]
  congr 1
  apply Finset.filter_congr
  intro q _
  simp

theorem mem_empties (m : Maze) (p : Position) :
    p ∈ m.empties ↔ m.inBounds p.row p.col ∧ m.cell p.row p.col = EMPTY := by
  unfold Maze.empties
  rw [List.mem_filter, mem_scanOrder]
  simp

/-- An EMPTY cell inside the grid is an entry of the scratch array, at the index
given by the number of EMPTY cells before it. -/
theorem empties_index (m : Maze) (r c : Int) (hin : m.inBounds r c)
    (he : m.cell r c = EMPTY) :
    m.numEmptyBefore r c < m.empties.length ∧
    m.empties.getD (m.numEmptyBefore r c) ⟨0, 0⟩ = ⟨r, c⟩ := by
  have hmem : (⟨r, c⟩ : Position) ∈ m.empties := (mem_empties m ⟨r, c⟩).mpr ⟨hin, he⟩
  obtain ⟨k, hk, hget⟩ := List.getElem_of_mem hmem
  have hgetD : m.empties.getD k ⟨0, 0⟩ = ⟨r, c⟩ := by
    rw [List.getD_eq_getElem?_getD, List.getElem?_eq_getElem hk, hget]
    rfl
  obtain ⟨_, _, h3⟩ := empties_getD m k hk
  rw [hgetD] at h3
  have h4 : m.numEmptyBefore r c = k := h3
  rw [h4]
  exact ⟨hk, hgetD⟩

/-- For a maze with `n ≥ 1` EMPTY cells, the value `x` of `rand()` selects the
EMPTY cell `(r, c)` exactly when `x mod n` is the number of EMPTY cells before
`(r, c)` in row-major order. -/
theorem selected_iff (m : Maze) (avatar : OBJECT) (x : Nat) (r c : Int)
    (hin : m.inBounds r c) (he : m.cell r c = EMPTY) :
    ((maze_set_player_random m avatar x 0 0).ret = 0 ∧
      (maze_set_player_random m avatar x 0 0).row = r ∧
      (maze_set_player_random m avatar x 0 0).col = c) ↔
    x % m.numEmpty = m.numEmptyBefore r c := by
  obtain ⟨hklt, hk⟩ := empties_index m r c hin he
  have hcount : m.empty_count = m.numEmpty := empty_count_eq_numEmpty m
  have hlen : m.empties.length = m.numEmpty := by
    rw [← empty_count_eq_length, hcount]
  have hn : 0 < m.numEmpty := by omega
  have hdims : ¬ (m.maze_rows = 0 ∨ m.maze_cols = 0) := by
    unfold Maze.inBounds at hin
    omega
  unfold maze_set_player_random
  rw [if_neg hdims]
  simp only
  rw [if_neg (by omega), hcount]
  simp only [true_and]
  constructor
  · rintro ⟨hr, hc⟩
    obtain ⟨_, _, h3⟩ := empties_getD m (x % m.numEmpty)
      (by rw [hlen]; exact Nat.mod_lt _ hn)
    rw [hr, hc] at h3
    exact h3.symm
  · intro hx
    rw [hx, hk]
    exact ⟨rfl, rfl⟩

/-- The number of values of `rand()` in `0..RAND_MAX` that select a given EMPTY
cell: the quotient of `RAND_MAX + 1` by the number `n` of EMPTY cells, and one
more for the cells with fewer than `(RAND_MAX + 1) mod n` EMPTY cells before
them. -/
theorem selectionCount_eq (RAND_MAX : Nat) (m : Maze) (avatar : OBJECT) (r c : Int)
    (hin : m.inBounds r c) (he : m.cell r c = EMPTY) :
    selectionCount RAND_MAX m avatar r c
      = (RAND_MAX + 1) / m.numEmpty +
        if m.numEmptyBefore r c < (RAND_MAX + 1) % m.numEmpty then 1 else 0 := by
  obtain ⟨hklt, _⟩ := empties_index m r c hin he
  have hlen : m.empties.length = m.numEmpty := by
    rw [← empty_count_eq_length, empty_count_eq_numEmpty]
  have hn : 0 < m.numEmpty := by omega
  have hk : m.numEmptyBefore r c % m.numEmpty = m.numEmptyBefore r c :=
    Nat.mod_eq_of_lt (by omega)
  unfold selectionCount
  rw [← hk, ← Nat.count_modEq_card (RAND_MAX + 1) hn (m.numEmptyBefore r c),
    Nat.count_eq_card_filter_range,
    Nat.count_eq_card_filter_range]
  congr 1
  apply Finset.filter_congr
  intro x _
  rw [selected_iff m avatar x r c hin he]
  unfold Nat.ModEq
  rw [hk]

/-- C27 (the claim as stated fails). With `RAND_MAX = 2147483647` on the 4 x 5
maze with six EMPTY cells, the first EMPTY cell (1,1) is selected for 357913942
values of `rand()` and the last EMPTY cell (2,3) for 357913941. -/
theorem maze_set_player_random_biased :
    emptyMaze.inBounds 1 1 ∧ emptyMaze.cell 1 1 = EMPTY ∧
    emptyMaze.inBounds 2 3 ∧ emptyMaze.cell 2 3 = EMPTY ∧
    selectionCount 2147483647 emptyMaze 65 1 1 = 357913942 ∧
    selectionCount 2147483647 emptyMaze 65 2 3 = 357913941 := by
  refine ⟨by decide, by decide, by decide, by decide, ?_, ?_⟩
  · rw [selectionCount_eq 2147483647 emptyMaze 65 1 1 (by decide) (by decide),
      numEmptyBefore_eq_countP, ← empty_count_eq_numEmpty]
    decide
  · rw [selectionCount_eq 2147483647 emptyMaze 65 2 3 (by decide) (by decide),
      numEmptyBefore_eq_countP, ← empty_count_eq_numEmpty]
    decide

/-- C27 (amended). For every maze with `n ≥ 1` EMPTY cells and every `RAND_MAX`,
as the value of `rand()` ranges over `0..RAND_MAX`: the EMPTY cell with `k` EMPTY
cells before it in row-major order is selected by `maze_set_player_random` for
`(RAND_MAX + 1) / n` values, and for one more if `k < (RAND_MAX + 1) mod n`; hence
the numbers of any two EMPTY cells differ by at most one, they are all equal when
`n` divides `RAND_MAX + 1`, and otherwise two EMPTY cells exist of which the first
is selected for one value more than the second. -/
theorem maze_set_player_random_counts (RAND_MAX : Nat) (m : Maze) (avatar : OBJECT)
    (hn : 1 ≤ m.numEmpty) :
    (∀ r c : Int, m.inBounds r c → m.cell r c = EMPTY →
      selectionCount RAND_MAX m avatar r c
        = (RAND_MAX + 1) / m.numEmpty +
          if m.numEmptyBefore r c < (RAND_MAX + 1) % m.numEmpty then 1 else 0) ∧
    (∀ r c r2 c2 : Int, m.inBounds r c → m.cell r c = EMPTY →
      m.inBounds r2 c2 → m.cell r2 c2 = EMPTY →
      selectionCount RAND_MAX m avatar r c ≤ selectionCount RAND_MAX m avatar r2 c2 + 1) ∧
    ((RAND_MAX + 1) % m.numEmpty = 0 →
      ∀ r c r2 c2 : Int, m.inBounds r c → m.cell r c = EMPTY →
        m.inBounds r2 c2 → m.cell r2 c2 = EMPTY →
        selectionCount RAND_MAX m avatar r c = selectionCount RAND_MAX m avatar r2 c2) ∧
    ((RAND_MAX + 1) % m.numEmpty ≠ 0 →
      ∃ r c r2 c2 : Int, m.inBounds r c ∧ m.cell r c = EMPTY ∧
        m.inBounds r2 c2 ∧ m.cell r2 c2 = EMPTY ∧
        m.numEmptyBefore r c = 0 ∧ m.numEmptyBefore r2 c2 = m.numEmpty - 1 ∧
        selectionCount RAND_MAX m avatar r c
          = selectionCount RAND_MAX m avatar r2 c2 + 1) := by
  have hlen : m.empties.length = m.numEmpty := by
    rw [← empty_count_eq_length, empty_count_eq_numEmpty]
  refine ⟨fun r c hin he => selectionCount_eq RAND_MAX m avatar r c hin he, ?_, ?_, ?_⟩
  · intro r c r2 c2 hin he hin2 he2
    rw [selectionCount_eq RAND_MAX m avatar r c hin he,
      selectionCount_eq RAND_MAX m avatar r2 c2 hin2 he2]
    split <;> split <;> omega
  · intro hdiv r c r2 c2 hin he hin2 he2
    rw [selectionCount_eq RAND_MAX m avatar r c hin he,
      selectionCount_eq RAND_MAX m avatar r2 c2 hin2 he2, hdiv]
    simp
  · intro hrem
    obtain ⟨a1, a2, a3⟩ := empties_getD m 0 (by omega)
    obtain ⟨b1, b2, b3⟩ := empties_getD m (m.numEmpty - 1) (by omega)
    refine ⟨_, _, _, _, a1, a2, b1, b2, a3, b3, ?_⟩
    rw [selectionCount_eq RAND_MAX m avatar _ _ a1 a2,
      selectionCount_eq RAND_MAX m avatar _ _ b1 b2, a3, b3]
    have hlt : (RAND_MAX + 1) % m.numEmpty < m.numEmpty := Nat.mod_lt _ (by omega)
    rw [if_pos (by omega), if_neg (by omega)]

/-- C27 (amended), on the 4 x 5 maze with six EMPTY cells and
`RAND_MAX = 2147483647`: the cell (1,1) is selected for 357913941 + 1 values. -/
theorem maze_set_player_random_counts_witness :
    1 ≤ emptyMaze.numEmpty ∧
    selectionCount 2147483647 emptyMaze 65 1 1
      = (2147483647 + 1) / emptyMaze.numEmpty +
        if emptyMaze.numEmptyBefore 1 1 < (2147483647 + 1) % emptyMaze.numEmpty then 1 else 0 :=
  have hn : 1 ≤ emptyMaze.numEmpty := by
    rw [← empty_count_eq_numEmpty]
    decide
  ⟨hn, (maze_set_player_random_counts 2147483647 emptyMaze 65 hn).1 1 1 (by decide)
    (by decide)⟩

/-! ## `player_reset`: the scores sent -/

/-- The three loops that end `player_reset`, for a published player: view updates,
then the scores of all published players sent to the player, then the score of
the player sent to every other published player; the packets of the last two
loops are read off the table as the first loop leaves it. -/
theorem player_reset_updates_shape (VIEW_DEPTH : Nat) (w : World) (i : Nat)
    (uninit : Int × Int) :
    ∃ w3 : World, w.viewsOnly w3 ∧
      player_reset_updates VIEW_DEPTH w i uninit
        = (w3.addSent ((List.range NUM_AVATARS).flatMap (fun k =>
            match w3.getPlayer k, w3.getPlayer i with
            | some p, some me =>
              [(⟨me.fd, ⟨.MZW_SCORE_PKT, p.avatar, toU8 p.score, 0, toU16 p.name.length⟩,
                if toU16 p.name.length > 0 then some (p.name.take (toU16 p.name.length))
                else none⟩ : SentPacket)]
            | _, _ => []))).addSent
          ((List.range NUM_AVATARS).flatMap (fun k =>
            match w3.getPlayer k, w3.getPlayer i with
            | some p, some me =>
              if k = i then []
              else
                [(⟨p.fd, ⟨.MZW_SCORE_PKT, me.avatar, toU8 me.score, 0, toU16 p.name.length⟩,
                  if toU16 p.name.length > 0 then some (p.name.take (toU16 p.name.length))
                  else none⟩ : SentPacket)]
            | _, _ => [])) := by
  have hloop1 : ∀ w3 : World,
      (List.range NUM_AVATARS).foldl
        (fun acc k => match acc.getPlayer k, acc.getPlayer i with
          | some p, some me => player_send_packet acc me
              ⟨.MZW_SCORE_PKT, p.avatar, toU8 p.score, 0, toU16 p.name.length⟩ (some p.name)
          | _, _ => acc) w3
      = w3.addSent ((List.range NUM_AVATARS).flatMap (fun k =>
          match w3.getPlayer k, w3.getPlayer i with
          | some p, some me =>
            [(⟨me.fd, ⟨.MZW_SCORE_PKT, p.avatar, toU8 p.score, 0, toU16 p.name.length⟩,
              if toU16 p.name.length > 0 then some (p.name.take (toU16 p.name.length))
              else none⟩ : SentPacket)]
          | _, _ => [])) := by
    intro w3
    apply foldl_sends
    · intro acc k
      cases acc.getPlayer k <;> cases acc.getPlayer i <;> simp [addSent_nil]
      rfl
    · intro acc l k
      rfl
  have hloop2 : ∀ w4 : World,
      (List.range NUM_AVATARS).foldl
        (fun acc k => match acc.getPlayer k, acc.getPlayer i with
          | some p, some me =>
            if k = i then acc
            else player_send_packet acc p
              ⟨.MZW_SCORE_PKT, me.avatar, toU8 me.score, 0, toU16 p.name.length⟩ (some p.name)
          | _, _ => acc) w4
      = w4.addSent ((List.range NUM_AVATARS).flatMap (fun k =>
          match w4.getPlayer k, w4.getPlayer i with
          | some p, some me =>
            if k = i then []
            else
              [(⟨p.fd, ⟨.MZW_SCORE_PKT, me.avatar, toU8 me.score, 0, toU16 p.name.length⟩,
                if toU16 p.name.length > 0 then some (p.name.take (toU16 p.name.length))
                else none⟩ : SentPacket)]
          | _, _ => [])) := by
    intro w4
    apply foldl_sends
    · intro acc k
      cases acc.getPlayer k <;> cases acc.getPlayer i <;> simp [addSent_nil]
      split
      · simp [addSent_nil]
      · rfl
    · intro acc l k
      rfl
  unfold player_reset_updates
  simp only
  rw [hloop2, hloop1]
  generalize hw3 : (List.range NUM_AVATARS).foldl
    (fun acc k => match acc.getPlayer k with
      | some _ => player_update_view VIEW_DEPTH (player_invalidate_view acc k) k uninit
      | none => acc)
    w = w3
  refine ⟨w3, ?_, rfl⟩
  rw [← hw3]
  apply foldl_rel_from World.viewsOnly viewsOnly_trans
  · intro b k
    split
    · exact viewsOnly_trans _ _ _ (player_invalidate_view_viewsOnly b k)
        (player_update_view_viewsOnly VIEW_DEPTH _ k uninit)
    · exact viewsOnly_refl b
  · exact viewsOnly_refl w

/-- A successful `player_reset` is the three closing loops run from a state that
has the packets of the state before and the same avatars, names, connections and
scores. -/
theorem player_reset_success (VIEW_DEPTH : Nat) (w : World) (i rand : Nat)
    (uninit : Int × Int) (player : PLAYER) (hp : w.getPlayer i = some player) (m1 : Maze)
    (hm1 : m1 = if w.maze.inBounds player.row player.col then
        maze_remove_player w.maze player.avatar player.row player.col else w.maze)
    (hempty : ∃ r c : Int, m1.inBounds r c ∧ m1.cell r c = EMPTY) :
    ∃ w2 : World, w2.sent = w.sent ∧ w.agree PLAYER.scoreInfo w2 ∧
      player_reset VIEW_DEPTH w i rand uninit = player_reset_updates VIEW_DEPTH w2 i uninit := by
  have hret : ∀ rowp colp : Int,
      ¬ ((maze_set_player_random m1 player.avatar rand rowp colp).ret ≠ 0) := by
    intro rowp colp hne
    rcases maze_set_player_random_shape m1 player.avatar rand rowp colp with
      ⟨_, _, hfull⟩ | ⟨h0, _⟩
    · obtain ⟨r, c, hin, he⟩ := hempty
      exact hfull r c hin he
    · exact hne h0
  have hgen : ∀ (placed : PlaceResult),
      (({ w with maze := placed.maze } : World).modifyPlayer i
        (fun p => { p with row := placed.row, col := placed.col })).sent = w.sent ∧
      w.agree PLAYER.scoreInfo
        (({ w with maze := placed.maze } : World).modifyPlayer i
          (fun p => { p with row := placed.row, col := placed.col })) := by
    intro placed
    refine ⟨by rw [modifyPlayer_sent], ?_⟩
    exact agree_trans _ w ({ w with maze := placed.maze } : World) _ (fun _ => rfl)
      (modifyPlayer_agree _ _ i _ (fun _ => rfl))
  unfold player_reset
  rw [hp]
  simp only
  by_cases hin : w.maze.inBounds player.row player.col
  · rw [if_pos hin] at hm1
    rw [player_get_location_placed w.maze player hin]
    simp only
    rw [← hm1, if_neg (hret _ _)]
    exact ⟨_, (hgen _).1, (hgen _).2, rfl⟩
  · rw [if_neg hin] at hm1
    rw [player_get_location_unplaced w.maze player hin]
    simp only
    rw [← hm1, if_neg (hret _ _)]
    exact ⟨_, (hgen _).1, (hgen _).2, rfl⟩

theorem flatMap_eq_filterMap (l : List Nat) (F : Nat → List SentPacket)
    (G : Nat → Option SentPacket) (h : ∀ k, F k = (G k).toList) :
    l.flatMap F = l.filterMap G := by
  induction l with
  | nil => rfl
  | cons k t ih =>
    rw [List.flatMap_cons, List.filterMap_cons, ih, h k]
    cases G k <;> rfl

/-- Records with the same `scoreInfo` have the same avatar, name, connection and
score. -/
theorem scoreInfo_eq (p q : PLAYER) (h : p.scoreInfo = q.scoreInfo) :
    p.avatar = q.avatar ∧ p.name = q.name ∧ p.fd = q.fd ∧ p.score = q.score := by
  unfold PLAYER.scoreInfo at h
  simp only [Prod.mk.injEq] at h
  exact h

/-- The packets of a successful `player_reset`, in the order sent: the CLEAR and
SHOW packets of the view updates; then, on the connection of the player, one
SCORE packet per published record `q` with `q`'s avatar, score byte and name; then,
to every other published record `q`, one SCORE packet with the avatar and score
byte of the player, whose size and payload are those of the name of `q`. -/
theorem player_reset_sent (VIEW_DEPTH : Nat) (w : World) (i rand : Nat)
    (uninit : Int × Int) (player : PLAYER) (hp : w.getPlayer i = some player) (m1 : Maze)
    (hm1 : m1 = if w.maze.inBounds player.row player.col then
        maze_remove_player w.maze player.avatar player.row player.col else w.maze)
    (hempty : ∃ r c : Int, m1.inBounds r c ∧ m1.cell r c = EMPTY) :
    ∃ views : List SentPacket, (∀ pk ∈ views, pk.isView) ∧
      (player_reset VIEW_DEPTH w i rand uninit).sent = w.sent ++ views ++
        (List.range NUM_AVATARS).filterMap (fun k => (w.getPlayer k).map (fun q =>
          (⟨player.fd, ⟨.MZW_SCORE_PKT, q.avatar, toU8 q.score, 0, toU16 q.name.length⟩,
            if toU16 q.name.length > 0 then some (q.name.take (toU16 q.name.length))
            else none⟩ : SentPacket))) ++
        ((List.range NUM_AVATARS).filter (fun k => decide (k ≠ i))).filterMap
          (fun k => (w.getPlayer k).map (fun q =>
            (⟨q.fd, ⟨.MZW_SCORE_PKT, player.avatar, toU8 player.score, 0,
                toU16 q.name.length⟩,
              if toU16 q.name.length > 0 then some (q.name.take (toU16 q.name.length))
              else none⟩ : SentPacket))) := by
  obtain ⟨w2, hsent2, hag2, heq⟩ := player_reset_success VIEW_DEPTH w i rand uninit player hp
    m1 hm1 hempty
  obtain ⟨w3, hv, heq3⟩ := player_reset_updates_shape VIEW_DEPTH w2 i uninit
  obtain ⟨_, _, _, hcore, views, hsent3, hviews⟩ := hv
  have hag : ∀ k, (w3.getPlayer k).map PLAYER.scoreInfo
      = (w.getPlayer k).map PLAYER.scoreInfo := by
    intro k
    have h1 := agree_comp PLAYER.core
      (fun c : PlayerCore => (c.avatar, c.name, c.fd, c.score)) w2 w3 hcore k
    exact h1.trans (hag2 k)
  have hme := hag i
  rw [hp] at hme
  cases hme3 : w3.getPlayer i with
  | none =>
    rw [hme3] at hme
    exact absurd hme (by simp)
  | some me =>
    rw [hme3] at hme
    have hmeq := scoreInfo_eq me player (by simpa using hme)
    have hA : (List.range NUM_AVATARS).flatMap (fun k =>
          match w3.getPlayer k, w3.getPlayer i with
          | some p, some me =>
            [(⟨me.fd, ⟨.MZW_SCORE_PKT, p.avatar, toU8 p.score, 0, toU16 p.name.length⟩,
              if toU16 p.name.length > 0 then some (p.name.take (toU16 p.name.length))
              else none⟩ : SentPacket)]
          | _, _ => [])
        = (List.range NUM_AVATARS).filterMap (fun k => (w.getPlayer k).map (fun q =>
          (⟨player.fd, ⟨.MZW_SCORE_PKT, q.avatar, toU8 q.score, 0, toU16 q.name.length⟩,
            if toU16 q.name.length > 0 then some (q.name.take (toU16 q.name.length))
            else none⟩ : SentPacket))) := by
      apply flatMap_eq_filterMap
      intro k
      have hk := hag k
      rw [hme3]
      cases h3 : w3.getPlayer k with
      | none =>
        cases h0 : w.getPlayer k with
        | none => rfl
        | some b =>
          rw [h3, h0] at hk
          exact absurd hk (by simp)
      | some a =>
        cases h0 : w.getPlayer k with
        | none =>
          rw [h3, h0] at hk
          exact absurd hk (by simp)
        | some b =>
          rw [h3, h0] at hk
          obtain ⟨e1, e2, _, e4⟩ := scoreInfo_eq a b (by simpa using hk)
          simp [e1, e2, e4, hmeq.2.2.1]
    have hB : (List.range NUM_AVATARS).flatMap (fun k =>
          match w3.getPlayer k, w3.getPlayer i with
          | some p, some me =>
            if k = i then []
            else
              [(⟨p.fd, ⟨.MZW_SCORE_PKT, me.avatar, toU8 me.score, 0, toU16 p.name.length⟩,
                if toU16 p.name.length > 0 then some (p.name.take (toU16 p.name.length))
                else none⟩ : SentPacket)]
          | _, _ => [])
        = ((List.range NUM_AVATARS).filter (fun k => decide (k ≠ i))).filterMap
          (fun k => (w.getPlayer k).map (fun q =>
            (⟨q.fd, ⟨.MZW_SCORE_PKT, player.avatar, toU8 player.score, 0,
                toU16 q.name.length⟩,
              if toU16 q.name.length > 0 then some (q.name.take (toU16 q.name.length))
              else none⟩ : SentPacket))) := by
      rw [← flatMap_others_eq]
      apply List.flatMap_congr
      intro k _
      have hk := hag k
      rw [hme3]
      cases h3 : w3.getPlayer k with
      | none =>
        cases h0 : w.getPlayer k with
        | none => rfl
        | some b =>
          rw [h3, h0] at hk
          exact absurd hk (by simp)
      | some a =>
        cases h0 : w.getPlayer k with
        | none =>
          rw [h3, h0] at hk
          exact absurd hk (by simp)
        | some b =>
          rw [h3, h0] at hk
          obtain ⟨_, e2, e3, _⟩ := scoreInfo_eq a b (by simpa using hk)
          simp [e2, e3, hmeq.1, hmeq.2.2.2]
    refine ⟨views, hviews, ?_⟩
    rw [heq, heq3, hA, hB]
    show (w3.sent ++ _) ++ _ = _
    rw [hsent3, hsent2]

set_option maxRecDepth 100000 in
/-- C21 (the code departs from the claim). Alice and Bravo, both with score 0, are
published and Bravo calls `player_reset`, with a free cell available. The SCORE
packets sent are: to Bravo (connection 8), one about Alice with payload "Alice"
and one about Bravo with payload "Bravo"; to Alice (connection 7), one about
Bravo (`param1 = 'B'`) whose payload is "Alice", the name of the receiver, and not
"Bravo", the name of the player who called `player_reset`. -/
theorem player_reset_sends_receiver_name :
    (worldDuel 0).getPlayer 1 = some recBravo ∧
    (maze_remove_player (worldDuel 0).maze recBravo.avatar recBravo.row recBravo.col).cell 1 3
      = EMPTY ∧
    (player_reset 4 (worldDuel 0) 1 0 (0, 0)).sent.filter
        (fun pk => decide (pk.pkt.type = .MZW_SCORE_PKT))
      = [⟨8, ⟨.MZW_SCORE_PKT, 65, 0, 0, 5⟩, some nameAlice⟩,
         ⟨8, ⟨.MZW_SCORE_PKT, 66, 0, 0, 5⟩, some nameBravo⟩,
         ⟨7, ⟨.MZW_SCORE_PKT, 66, 0, 0, 5⟩, some nameAlice⟩] ∧
    ((worldDuel 0).getPlayer 0).map (fun p => (p.fd, p.name)) = some (7, nameAlice) ∧
    ((worldDuel 0).getPlayer 1).map (fun p => (p.fd, p.name)) = some (8, nameBravo) ∧
    nameAlice ≠ nameBravo := by
  decide

/-! ## The view differ seen from the client -/

/-- Applying a list of SHOW packets, one per listed cell `(d, w)` with value
`val d w`: the listed cells show their values, the others are untouched. -/
theorem applyPackets_show (fd : Int) (val : Nat → Nat → OBJECT) :
    ∀ (cells : List (Nat × Nat)) (disp : Display) (d0 w0 : Nat),
      applyPackets disp (cells.map (fun c =>
          (⟨fd, ⟨.MZW_SHOW_PKT, val c.1 c.2, c.2, c.1, 0⟩, none⟩ : SentPacket))) d0 w0
        = if (d0, w0) ∈ cells then some (val d0 w0) else disp d0 w0 := by
  intro cells
  induction cells with
  | nil => intro disp d0 w0; rfl
  | cons c t ih =>
    intro disp d0 w0
    unfold applyPackets at ih ⊢
    rw [List.map_cons, List.foldl_cons, ih]
    by_cases hmem : (d0, w0) ∈ t
    · rw [if_pos hmem, if_pos (List.mem_cons_of_mem _ hmem)]
    · rw [if_neg hmem]
      unfold applyPacket
      simp only
      by_cases hc : d0 = c.1 ∧ w0 = c.2
      · rw [if_pos hc, if_pos]
        · rw [hc.1, hc.2]
        · rw [hc.1, hc.2]
          exact List.mem_cons_self _ _
      · rw [if_neg hc, if_neg]
        intro hx
        rcases List.mem_cons.mp hx with h | h
        · apply hc
          rw [← h]
          exact ⟨rfl, rfl⟩
        · exact hmem h

/-- The view computed by `maze_get_view` has a cell at every `(d, w)` with `d`
below the depth returned and `w < 3`. -/
theorem viewAt_fresh (VIEW_DEPTH : Nat) (m : Maze) (player : PLAYER) (uninit : Int × Int)
    (d c : Nat) (hd : d < (player_fresh_view VIEW_DEPTH m player uninit).distance) (hc : c < 3) :
    ∃ x, viewAt (player_fresh_view VIEW_DEPTH m player uninit).view d c = some x := by
  have key : ∀ (row col : Int),
      d < (maze_get_view m row col player.gaze (VIEW_DEPTH : Int)).distance →
      ∃ x, viewAt (maze_get_view m row col player.gaze (VIEW_DEPTH : Int)).view d c = some x := by
    intro row col hd2
    unfold maze_get_view at hd2 ⊢
    obtain ⟨h1, _, h3, _⟩ := maze_get_view_loop_spec m row col player.gaze
      (VIEW_DEPTH : Int).toNat 0 _ rfl
    have hlt : d < (maze_get_view_loop m row col player.gaze (VIEW_DEPTH : Int).toNat 0).view.length := by
      omega
    obtain ⟨_, hrow⟩ := h3 d hlt
    unfold viewAt
    rw [hrow]
    simp only [Option.some_bind]
    interval_cases c <;> exact ⟨_, rfl⟩
  unfold player_fresh_view at hd ⊢
  cases hl : player_get_location m player with
  | none =>
    rw [hl] at hd
    exact key _ _ hd
  | some l =>
    rw [hl] at hd
    exact key _ _ hd

/-- The SHOW packets of the two loops of `player_update_view` over the cells
`(d, w)`, `d < n ≤ 256`, `w < 3`, that are not skipped, as one SHOW packet per
such cell with the indices of the cell in `param3` and `param2`. -/
theorem show_rows (fd : Int) (val : Nat → Nat → OBJECT) (skip : Nat → Nat → Prop)
    [∀ d wi, Decidable (skip d wi)] (n : Nat) (hn : n ≤ 256) :
    (List.range n).flatMap (fun d => (List.range 3).flatMap (fun wi =>
        if skip d wi then []
        else [(⟨fd, ⟨.MZW_SHOW_PKT, val d wi, toU8 (wi : Int), toU8 (d : Int), 0⟩, none⟩ :
          SentPacket)]))
      = ((List.range n).flatMap (fun d => (List.range 3).flatMap (fun wi =>
          if skip d wi then [] else [(d, wi)]))).map (fun c =>
            (⟨fd, ⟨.MZW_SHOW_PKT, val c.1 c.2, c.2, c.1, 0⟩, none⟩ : SentPacket)) := by
  rw [List.map_flatMap]
  apply List.flatMap_congr
  intro d hd
  rw [List.map_flatMap]
  apply List.flatMap_congr
  intro wi hwi
  rw [List.mem_range] at hd hwi
  split
  · rfl
  · rw [toU8_natCast wi (by omega), toU8_natCast d (by omega)]
    rfl

theorem mem_show_cells (skip : Nat → Nat → Prop) [∀ d wi, Decidable (skip d wi)] (n : Nat)
    (d0 w0 : Nat) :
    (d0, w0) ∈ (List.range n).flatMap (fun d => (List.range 3).flatMap (fun wi =>
        if skip d wi then [] else [(d, wi)]))
      ↔ d0 < n ∧ w0 < 3 ∧ ¬ skip d0 w0 := by
  simp only [List.mem_flatMap, List.mem_range]
  constructor
  · rintro ⟨d, hd, wi, hwi, h⟩
    split at h
    · exact absurd h (List.not_mem_nil _)
    · rename_i hs
      have := List.mem_singleton.mp h
      simp only [Prod.mk.injEq] at this
      obtain ⟨rfl, rfl⟩ := this
      exact ⟨hd, hwi, hs⟩
  · rintro ⟨hd, hw, hs⟩
    refine ⟨d0, hd, w0, hw, ?_⟩
    rw [if_neg hs]
    exact List.mem_singleton.mpr rfl

/-- The packets that `player_update_view` appends for the published record
`player`. -/
theorem player_update_view_appended (VIEW_DEPTH : Nat) (w : World) (i : Nat)
    (uninit : Int × Int) (player : PLAYER) (hp : w.getPlayer i = some player) :
    (player_update_view VIEW_DEPTH w i uninit).sent.drop w.sent.length
      = if (player.prev_view.isNone || player.prev_depth !=
              ((player_fresh_view VIEW_DEPTH w.maze player uninit).distance : Int)) = true then
          clearPacket player.fd ::
            (List.range (player_fresh_view VIEW_DEPTH w.maze player uninit).distance).flatMap
              (fun d => (List.range 3).flatMap (fun wi =>
                if False then []
                else
                  [(⟨player.fd, ⟨.MZW_SHOW_PKT,
                    (viewAt (player_fresh_view VIEW_DEPTH w.maze player uninit).view d wi).getD 0,
                    toU8 (wi : Int), toU8 (d : Int), 0⟩, none⟩ : SentPacket)]))
        else
          (List.range (player_fresh_view VIEW_DEPTH w.maze player uninit).distance).flatMap
            (fun d => (List.range 3).flatMap (fun wi =>
              if (viewAt (player_fresh_view VIEW_DEPTH w.maze player uninit).view d wi).getD 0
                  = (if (d : Int) < player.prev_depth then
                      (viewAt (player.prev_view.getD []) d wi).getD 0 else 0) then []
              else
                [(⟨player.fd, ⟨.MZW_SHOW_PKT,
                    (viewAt (player_fresh_view VIEW_DEPTH w.maze player uninit).view d wi).getD 0,
                    toU8 (wi : Int), toU8 (d : Int), 0⟩, none⟩ : SentPacket)])) := by
  rw [player_update_view_eq VIEW_DEPTH w i uninit player hp, modifyPlayer_sent]
  show (w.sent ++ _).drop w.sent.length = _
  rw [List.drop_left]
  simp only [if_false]

/-- C29. For every published player with cached snapshot (or no cache) and the
view `V` of depth `n` computed afresh (with `VIEW_DEPTH ≤ 256`, so that a depth
fits the one-byte field `param3`): if the client displays the cached snapshot
(nothing when there is no cache), then after it has applied, in order, the
packets that `player_update_view` sends (CLEAR empties the display, SHOW sets a
cell), its display shows `V[d][w]` at every `(d, w)` with `d < n`, `w < 3`, where
`V` has a cell, and nothing anywhere else, in particular at no depth `≥ n`; and a
second `player_update_view`, the maze, position and gaze being unchanged (for a
player without a location: with the same indeterminate coordinates), sends no
packet. -/
theorem player_update_view_client (VIEW_DEPTH : Nat) (hdepth : VIEW_DEPTH ≤ 256) (w : World)
    (i : Nat) (uninit uninit2 : Int × Int) (player : PLAYER)
    (hp : w.getPlayer i = some player) (disp : Display)
    (hdisp : ∀ d c : Nat, disp d c = displayOfCache player.prev_view player.prev_depth d c)
    (hsame : w.maze.inBounds player.row player.col ∨ uninit2 = uninit) :
    (∀ d c : Nat,
      applyPackets disp ((player_update_view VIEW_DEPTH w i uninit).sent.drop w.sent.length) d c
        = if d < (player_fresh_view VIEW_DEPTH w.maze player uninit).distance ∧ c < 3 then
            viewAt (player_fresh_view VIEW_DEPTH w.maze player uninit).view d c
          else none) ∧
    (∀ d c : Nat, d < (player_fresh_view VIEW_DEPTH w.maze player uninit).distance → c < 3 →
      ∃ x, viewAt (player_fresh_view VIEW_DEPTH w.maze player uninit).view d c = some x) ∧
    (player_update_view VIEW_DEPTH (player_update_view VIEW_DEPTH w i uninit) i uninit2).sent
      = (player_update_view VIEW_DEPTH w i uninit).sent := by
  obtain ⟨hlen, hle⟩ := player_fresh_view_length VIEW_DEPTH w.maze player uninit
  have hcell := viewAt_fresh VIEW_DEPTH w.maze player uninit
  refine ⟨?_, fun d c hd hc => hcell d c hd hc, ?_⟩
  · intro d c
    rw [player_update_view_appended VIEW_DEPTH w i uninit player hp]
    generalize player_fresh_view VIEW_DEPTH w.maze player uninit = res at hle hcell ⊢
    have hn : res.distance ≤ 256 := by omega
    have hval : d < res.distance ∧ c < 3 →
        some ((viewAt res.view d c).getD 0) = viewAt res.view d c := by
      rintro ⟨hd, hc⟩
      obtain ⟨x, hx⟩ := hcell d c hd hc
      rw [hx]
      rfl
    split
    · rename_i hfull
      rw [show_rows player.fd (fun d wi => (viewAt res.view d wi).getD 0) (fun _ _ => False)
        res.distance hn]
      unfold applyPackets
      rw [List.foldl_cons]
      have hclear : applyPacket disp (clearPacket player.fd) = Display.empty := rfl
      rw [hclear]
      have := applyPackets_show player.fd (fun d wi => (viewAt res.view d wi).getD 0)
        ((List.range res.distance).flatMap (fun d => (List.range 3).flatMap (fun wi =>
          if False then [] else [(d, wi)]))) Display.empty d c
      unfold applyPackets at this
      rw [this]
      have hmem := mem_show_cells (fun _ _ => False) res.distance d c
      by_cases hdc : d < res.distance ∧ c < 3
      · rw [if_pos (hmem.mpr ⟨hdc.1, hdc.2, not_false⟩), if_pos hdc]
        exact hval hdc
      · rw [if_neg (fun h => hdc ⟨(hmem.mp h).1, (hmem.mp h).2.1⟩), if_neg hdc]
        rfl
    · rename_i hfull
      have hcache : ∃ cached, player.prev_view = some cached ∧
          player.prev_depth = (res.distance : Int) := by
        cases hpv : player.prev_view with
        | none => simp [hpv] at hfull
        | some cached =>
          refine ⟨cached, rfl, ?_⟩
          simpa [hpv] using hfull
      obtain ⟨cached, hpv, hpd⟩ := hcache
      rw [show_rows player.fd (fun d wi => (viewAt res.view d wi).getD 0)
        (fun d wi => (viewAt res.view d wi).getD 0
          = (if (d : Int) < player.prev_depth then
              (viewAt (player.prev_view.getD []) d wi).getD 0 else 0)) res.distance hn]
      have := applyPackets_show player.fd (fun d wi => (viewAt res.view d wi).getD 0)
        ((List.range res.distance).flatMap (fun d => (List.range 3).flatMap (fun wi =>
          if (viewAt res.view d wi).getD 0
            = (if (d : Int) < player.prev_depth then
                (viewAt (player.prev_view.getD []) d wi).getD 0 else 0) then []
          else [(d, wi)]))) disp d c
      rw [this]
      have hmem := mem_show_cells (fun d wi => (viewAt res.view d wi).getD 0
          = (if (d : Int) < player.prev_depth then
              (viewAt (player.prev_view.getD []) d wi).getD 0 else 0)) res.distance d c
      have hd0 : disp d c = if d < res.distance ∧ c < 3 then some ((viewAt cached d c).getD 0)
          else none := by
        rw [hdisp, hpv, hpd]
        unfold displayOfCache
        simp only [Nat.cast_lt]
      by_cases hdc : d < res.distance ∧ c < 3
      · have hoc : (if (d : Int) < player.prev_depth then
            (viewAt (player.prev_view.getD []) d c).getD 0 else 0)
            = (viewAt cached d c).getD 0 := by
          rw [hpd, hpv, if_pos (by exact_mod_cast hdc.1)]
          rfl
        rw [if_pos hdc]
        by_cases hne : (viewAt res.view d c).getD 0 = (viewAt cached d c).getD 0
        · rw [if_neg (fun h => (hmem.mp h).2.2 (by rw [hoc]; exact hne)), hd0, if_pos hdc,
            ← hne]
          exact hval hdc
        · rw [if_pos (hmem.mpr ⟨hdc.1, hdc.2, by rw [hoc]; exact hne⟩)]
          exact hval hdc
      · rw [if_neg (fun h => hdc ⟨(hmem.mp h).1, (hmem.mp h).2.1⟩), hd0, if_neg hdc,
          if_neg hdc]
  · have hw' := player_update_view_eq VIEW_DEPTH w i uninit player hp
    generalize hL : (if (player.prev_view.isNone || player.prev_depth !=
              ((player_fresh_view VIEW_DEPTH w.maze player uninit).distance : Int)) = true then
          clearPacket player.fd ::
            (List.range (player_fresh_view VIEW_DEPTH w.maze player uninit).distance).flatMap
              (fun d => (List.range 3).flatMap (fun wi =>
                [(⟨player.fd, ⟨.MZW_SHOW_PKT,
                    (viewAt (player_fresh_view VIEW_DEPTH w.maze player uninit).view d wi).getD 0,
                    toU8 wi, toU8 d, 0⟩, none⟩ : SentPacket)]))
        else
          (List.range (player_fresh_view VIEW_DEPTH w.maze player uninit).distance).flatMap
            (fun d => (List.range 3).flatMap (fun wi =>
              if (viewAt (player_fresh_view VIEW_DEPTH w.maze player uninit).view d wi).getD 0
                  = (if (d : Int) < player.prev_depth then
                      (viewAt (player.prev_view.getD []) d wi).getD 0 else 0) then []
              else
                [(⟨player.fd, ⟨.MZW_SHOW_PKT,
                    (viewAt (player_fresh_view VIEW_DEPTH w.maze player uninit).view d wi).getD 0,
                    toU8 wi, toU8 d, 0⟩, none⟩ : SentPacket)]))) = L at hw'
    generalize hw1 : player_update_view VIEW_DEPTH w i uninit = w1 at hw' ⊢
    have hmaze1 : w1.maze = w.maze := by
      rw [hw', modifyPlayer_maze]
      rfl
    have hp1 : w1.getPlayer i = some { player with
        prev_view := some (player_fresh_view VIEW_DEPTH w.maze player uninit).view,
        prev_depth := ((player_fresh_view VIEW_DEPTH w.maze player uninit).distance : Int) } := by
      rw [hw', getPlayer_modifyPlayer, if_pos rfl, getPlayer_addSent, hp]
      rfl
    have hgen : ∀ (V : List (List OBJECT)) (n : Int),
        player_fresh_view VIEW_DEPTH w.maze { player with prev_view := some V, prev_depth := n }
          uninit2 = player_fresh_view VIEW_DEPTH w.maze player uninit := by
      intro V n
      rcases hsame with hin | hu
      · have h1 := player_get_location_placed w.maze player hin
        have h2 : player_get_location w.maze
            { player with prev_view := some V, prev_depth := n }
            = some (player.row, player.col, player.gaze) := h1
        unfold player_fresh_view
        rw [h1, h2]
      · rw [hu]
        rfl
    have hfresh : player_fresh_view VIEW_DEPTH w1.maze { player with
        prev_view := some (player_fresh_view VIEW_DEPTH w.maze player uninit).view,
        prev_depth := ((player_fresh_view VIEW_DEPTH w.maze player uninit).distance : Int) }
        uninit2 = player_fresh_view VIEW_DEPTH w.maze player uninit := by
      rw [hmaze1]
      exact hgen _ _
    obtain ⟨l, hl⟩ := player_update_view_sentExt VIEW_DEPTH w1 i uninit2
    have happ := player_update_view_appended VIEW_DEPTH w1 i uninit2 _ hp1
    rw [hl, List.drop_left, hfresh] at happ
    rw [hl, happ]
    generalize player_fresh_view VIEW_DEPTH w.maze player uninit = res
    simp only [Option.isNone_some, bne_self_eq_false, Bool.or_self, Bool.false_eq_true,
      if_false, Option.getD_some]
    rw [List.flatMap_eq_nil_iff.mpr, List.append_nil]
    intro d hd
    rw [List.flatMap_eq_nil_iff]
    intro wi _
    rw [List.mem_range] at hd
    simp [hd]

/-- C29, for Alice looking EAST at Bravo with the cache of a view of depth 4 taken
before Bravo stood in the corridor: the fresh view has depth 3, and a client that
displayed the cache displays the fresh view after applying the packets sent. -/
theorem player_update_view_client_witness :
    (worldDuel 0).getPlayer 0 = some (recAlice 0) ∧
    (player_fresh_view 4 (worldDuel 0).maze (recAlice 0) (0, 0)).distance = 3 ∧
    (∀ d c : Nat,
      applyPackets (displayOfCache (recAlice 0).prev_view (recAlice 0).prev_depth)
          ((player_update_view 4 (worldDuel 0) 0 (0, 0)).sent.drop (worldDuel 0).sent.length) d c
        = if d < (player_fresh_view 4 (worldDuel 0).maze (recAlice 0) (0, 0)).distance ∧ c < 3
          then viewAt (player_fresh_view 4 (worldDuel 0).maze (recAlice 0) (0, 0)).view d c
          else none) :=
  ⟨by decide, by decide,
    (player_update_view_client 4 (by decide) (worldDuel 0) 0 (0, 0) (0, 0) (recAlice 0)
      (by decide) _ (fun _ _ => rfl) (Or.inl (by decide))).1⟩

/-! ## The login collision through the service -/

/-- The step `player_reset` leaves the avatar, name, connection and score of every
record as they were, and the same slots occupied, whether it succeeds or not. -/
theorem player_reset_agree_scoreInfo (VIEW_DEPTH : Nat) (w : World) (i rand : Nat)
    (uninit : Int × Int) : w.agree PLAYER.scoreInfo (player_reset VIEW_DEPTH w i rand uninit) := by
  unfold player_reset
  cases hp : w.getPlayer i with
  | none => exact agree_refl _ w
  | some p =>
    simp only
    have h1 : w.agree PLAYER.scoreInfo (match player_get_location w.maze p with
        | some l => ({ w with maze := maze_remove_player w.maze p.avatar l.1 l.2.1 } : World)
        | none => w) := by
      split
      · exact fun _ => rfl
      · exact agree_refl _ w
    generalize (match player_get_location w.maze p with
        | some l => ({ w with maze := maze_remove_player w.maze p.avatar l.1 l.2.1 } : World)
        | none => w) = w1 at h1 ⊢
    split
    · exact agree_trans _ _ _ _ h1 (fun _ => rfl)
    · refine agree_trans _ _ _ _ h1 ?_
      generalize hw2 : (({ w1 with maze := _ } : World).modifyPlayer i _) = w2
      have h2 : w1.agree PLAYER.scoreInfo w2 := by
        rw [← hw2]
        exact agree_trans _ w1 ({ w1 with maze := _ } : World) _ (fun _ => rfl)
          (modifyPlayer_agree _ _ i _ (fun _ => rfl))
      refine agree_trans _ _ _ _ h2 ?_
      obtain ⟨w3, hv, heq⟩ := player_reset_updates_shape VIEW_DEPTH w2 i uninit
      obtain ⟨_, _, _, hcore, _⟩ := hv
      rw [heq]
      intro k
      rw [getPlayer_addSent, getPlayer_addSent]
      exact agree_comp PLAYER.core
        (fun c => (c.avatar, c.name, c.fd, c.score)) w2 w3 hcore k

/-- The C string that starts at a buffer holding `"Anna"`: these four bytes and
then the bytes that follow the buffer, up to the first NUL. -/
theorem cstring_nameAnna (after : List Nat) :
    cstring nameAnna after = nameAnna ++ after.takeWhile (fun b => b ≠ 0) := by
  unfold cstring nameAnna
  simp [List.takeWhile_cons]

set_option maxRecDepth 100000 in
/-- C14 (counterexample). With Alice published in slot `A` and every other slot
free, a LOGIN with requested avatar `A` and name "Anna" is not rejected:
`player_login` returns a record with avatar `B` and publishes it in slot `B`, and
the service (here with the bytes 5, 0 behind the payload buffer) writes READY to
the connection, leaves its login phase and has a record with avatar `B` in slot
`B`. -/
theorem player_login_collision_accepted :
    (player_login (worldAlice 0) 8 65 (some nameAnna) 101).1
      = some { avatar := 66, name := nameAnna, fd := 8, row := -1, col := -1, gaze := EAST,
               score := 0, prev_view := none, prev_depth := 0, refcount := 1,
               thread_id := 101, hit_pending := 0 } ∧
    (player_login (worldAlice 0) 8 65 (some nameAnna) 101).2 ≠ worldAlice 0 ∧
    (mzw_client_service_login 4 (worldAlice 0) 8 ⟨.MZW_LOGIN_PKT, 65, 0, 0, 4⟩
      (some nameAnna) [5, 0] 101 0 (0, 0)).1 = some 1 ∧
    (mzw_client_service_login 4 (worldAlice 0) 8 ⟨.MZW_LOGIN_PKT, 65, 0, 0, 4⟩
      (some nameAnna) [5, 0] 101 0 (0, 0)).2.sent.head?
      = some ⟨8, ⟨.MZW_READY_PKT, 0, 0, 0, 0⟩, none⟩ ∧
    ((mzw_client_service_login 4 (worldAlice 0) 8 ⟨.MZW_LOGIN_PKT, 65, 0, 0, 4⟩
      (some nameAnna) [5, 0] 101 0 (0, 0)).2.getPlayer 1).map
        (fun p => (p.avatar, p.name, p.fd))
      = some (66, nameAnna ++ [5], 8) := by
  decide

/-- C14 (amended). In every state in which slot `A` is occupied and every other
slot of the 26 is free, `player_login` with requested avatar `A` and a name that
is "Anna" or starts with "Anna" succeeds: it returns the fresh record with avatar
`B` (the first free letter), published in slot `B` with every other slot left as
it was. The service, for a LOGIN packet with `param1 = 'A'` and the payload
"Anna", passes the C string that starts at the payload buffer (the four bytes
"Anna" and then the bytes `after` behind the buffer up to the first NUL), writes
READY to the connection before anything else and leaves its login phase with the
record of slot `B`, which has avatar `B`, that string as its name and the
connection of the client; the other slots keep their avatar, name, connection and
score. -/
theorem player_login_collision_fallback (VIEW_DEPTH : Nat) (w : World) (connfd : Int)
    (self rand : Nat) (uninit : Int × Int) (pkt : MZW_PACKET) (q : PLAYER)
    (junk after : List Nat)
    (hlen : w.players.length = NUM_AVATARS)
    (hA : w.getPlayer 0 = some q) (hfree : ∀ k, k ≠ 0 → w.getPlayer k = none)
    (hty : pkt.type = .MZW_LOGIN_PKT) (hav : pkt.param1 = 65) :
    (player_login w connfd 65 (some (nameAnna ++ junk)) self).1
      = some { avatar := 66, name := nameAnna ++ junk, fd := connfd, row := -1, col := -1,
               gaze := EAST, score := 0, prev_view := none, prev_depth := 0, refcount := 1,
               thread_id := self, hit_pending := 0 } ∧
    (player_login w connfd 65 (some (nameAnna ++ junk)) self).2.getPlayer 1
      = (player_login w connfd 65 (some (nameAnna ++ junk)) self).1 ∧
    (∀ k, k ≠ 1 →
      (player_login w connfd 65 (some (nameAnna ++ junk)) self).2.getPlayer k
        = w.getPlayer k) ∧
    (mzw_client_service_login VIEW_DEPTH w connfd pkt (some nameAnna) after self rand uninit).1
      = some 1 ∧
    (∃ rest : List SentPacket,
      (mzw_client_service_login VIEW_DEPTH w connfd pkt (some nameAnna) after self rand
          uninit).2.sent
        = w.sent ++ ⟨connfd, ⟨.MZW_READY_PKT, 0, 0, 0, 0⟩, none⟩ :: rest) ∧
    ((mzw_client_service_login VIEW_DEPTH w connfd pkt (some nameAnna) after self rand
        uninit).2.getPlayer 1).map PLAYER.scoreInfo
      = some (66, nameAnna ++ after.takeWhile (fun b => b ≠ 0), connfd, 0) ∧
    (∀ k, k ≠ 1 →
      ((mzw_client_service_login VIEW_DEPTH w connfd pkt (some nameAnna) after self rand
          uninit).2.getPlayer k).map PLAYER.scoreInfo
        = (w.getPlayer k).map PLAYER.scoreInfo) := by
  have hlogin : ∀ tail : List Nat, player_login w connfd 65 (some (nameAnna ++ tail)) self
      = (some { avatar := 66, name := nameAnna ++ tail, fd := connfd, row := -1, col := -1,
                gaze := EAST, score := 0, prev_view := none, prev_depth := 0, refcount := 1,
                thread_id := self, hit_pending := 0 },
         w.setSlot 1
           (some { avatar := 66, name := nameAnna ++ tail, fd := connfd, row := -1, col := -1,
                   gaze := EAST, score := 0, prev_view := none, prev_depth := 0,
                   refcount := 1, thread_id := self, hit_pending := 0 })) := by
    intro tail
    have hreal : player_login_real_avatar w 65 (some (nameAnna ++ tail)) (nameAnna ++ tail)
        = 66 := by
      unfold player_login_real_avatar
      simp [nameAnna, valid_avatars, hA, hfree 1 (by decide), IS_AVATAR]
    unfold player_login
    have hn : (some (nameAnna ++ tail)).isSome ∧
        ((some (nameAnna ++ tail)).getD []).headD 0 ≠ 0 := by
      simp [nameAnna]
    have hh : (nameAnna ++ tail).headD 0 = 65 := rfl
    simp only [hn, Option.getD_some, if_true, and_self, true_and, hh]
    rw [if_neg (by decide), if_neg (by decide), if_pos (by decide : (65 : Nat) ≠ 0), hreal,
      if_neg (by decide)]
  have hservice : mzw_client_service_login VIEW_DEPTH w connfd pkt (some nameAnna) after self
        rand uninit
      = (some 1, player_reset VIEW_DEPTH
          (proto_send_packet
            (w.setSlot 1
              (some { avatar := 66, name := nameAnna ++ after.takeWhile (fun b => b ≠ 0),
                      fd := connfd, row := -1, col := -1,
                      gaze := EAST, score := 0, prev_view := none, prev_depth := 0,
                      refcount := 1, thread_id := self, hit_pending := 0 }))
            connfd ⟨.MZW_READY_PKT, 0, 0, 0, 0⟩ none) 1 rand uninit) := by
    unfold mzw_client_service_login
    rw [if_pos hty, hav]
    simp only [Option.map_some']
    rw [cstring_nameAnna, hlogin]
    rfl
  refine ⟨by rw [hlogin], ?_, ?_, by rw [hservice], ?_, ?_, ?_⟩
  · rw [hlogin]
    exact getPlayer_setSlot_self w 1 _ (by rw [hlen]; decide)
  · intro k hk
    rw [hlogin]
    exact getPlayer_setSlot_ne w 1 k _ (Ne.symm hk)
  · rw [hservice]
    obtain ⟨l, hl⟩ := player_reset_sentExt VIEW_DEPTH
      (proto_send_packet
        (w.setSlot 1
          (some { avatar := 66, name := nameAnna ++ after.takeWhile (fun b => b ≠ 0),
                  fd := connfd, row := -1, col := -1,
                  gaze := EAST, score := 0, prev_view := none, prev_depth := 0,
                  refcount := 1, thread_id := self, hit_pending := 0 }))
        connfd ⟨.MZW_READY_PKT, 0, 0, 0, 0⟩ none) 1 rand uninit
    refine ⟨l, ?_⟩
    rw [hl]
    simp [proto_send_packet, World.setSlot]
  · rw [hservice]
    dsimp only
    rw [player_reset_agree_scoreInfo VIEW_DEPTH _ 1 rand uninit 1]
    show ((w.setSlot 1 _).getPlayer 1).map PLAYER.scoreInfo = _
    rw [getPlayer_setSlot_self w 1 _ (by rw [hlen]; decide)]
    rfl
  · intro k hk
    rw [hservice]
    dsimp only
    rw [player_reset_agree_scoreInfo VIEW_DEPTH _ 1 rand uninit k]
    show ((w.setSlot 1 _).getPlayer k).map PLAYER.scoreInfo = _
    rw [getPlayer_setSlot_ne w 1 k _ (Ne.symm hk)]

set_option maxRecDepth 100000 in
/-- C14 (amended), at Alice alone on the 4 x 5 maze, for the name "Anna" itself and
for a payload "Anna" with the bytes 5, 0 behind its buffer: the hypotheses hold,
`player_login` returns the record with avatar `B` and name "Anna", and the LOGIN is
answered with READY for the record of slot `B`, whose name is "Anna" followed by
the byte 5. -/
theorem player_login_collision_fallback_witness :
    (worldAlice 0).players.length = NUM_AVATARS ∧
    (worldAlice 0).getPlayer 0 = some (recAlice 0) ∧
    (player_login (worldAlice 0) 8 65 (some (nameAnna ++ [])) 101).1
      = some { avatar := 66, name := nameAnna ++ [], fd := 8, row := -1, col := -1,
               gaze := EAST, score := 0, prev_view := none, prev_depth := 0, refcount := 1,
               thread_id := 101, hit_pending := 0 } ∧
    (mzw_client_service_login 4 (worldAlice 0) 8 ⟨.MZW_LOGIN_PKT, 65, 0, 0, 4⟩
      (some nameAnna) [5, 0] 101 0 (0, 0)).1 = some 1 ∧
    ((mzw_client_service_login 4 (worldAlice 0) 8 ⟨.MZW_LOGIN_PKT, 65, 0, 0, 4⟩
      (some nameAnna) [5, 0] 101 0 (0, 0)).2.getPlayer 1).map PLAYER.scoreInfo
      = some (66, nameAnna ++ [5, 0].takeWhile (fun b => b ≠ 0), 8, 0) ∧
    nameAnna ++ [] = [65, 110, 110, 97] ∧
    nameAnna ++ [5, 0].takeWhile (fun b => b ≠ 0) = [65, 110, 110, 97, 5] :=
  have h := player_login_collision_fallback 4 (worldAlice 0) 8 101 0 (0, 0)
    ⟨.MZW_LOGIN_PKT, 65, 0, 0, 4⟩ (recAlice 0) [] [5, 0] (by decide) (by decide)
    (by
      intro k hk
      by_cases hk26 : k < 26
      · interval_cases k
        · exact absurd rfl hk
        all_goals rfl
      · unfold World.getPlayer
        rw [List.getElem?_eq_none (by simp [worldAlice, players_init, NUM_AVATARS]; omega)]
        rfl)
    rfl rfl
  ⟨by decide, by decide, h.1, h.2.2.2.1, h.2.2.2.2.2.1, by decide, by decide⟩

end MazeWar
